import Mathlib

/-!
Per-frame simulation logic of the OpenGL demo programs

Shallow embedding of the numeric update rules of

* `src/6.1.cubemaps_skybox/cubemaps_skybox.cpp` (driving demo), namespace `Driving`;
* `src/skeletal_animation/skeletal_animation.cpp` (combat demo), namespace `Combat`.

The C++ `float` scalars are idealised as elements of an arbitrary linearly ordered
field `α` (exact arithmetic, no rounding, no NaN or infinities).  Every definition
is computable and can be evaluated at `α = ℚ`; every theorem holds at `α = ℝ` too.
Global variables of the programs become explicit arguments and results.
The library functions `sin`, `cos`, the square root and `glm::radians` are parameters
of the model (`Combat.Glm`); theorems that need them assume the laws `Combat.Glm.Lawful`,
which the real functions satisfy (`Combat.real_glm_lawful`).  The library calls
`glm::translate`, `glm::scale`, `glm::clamp`, `glm::cross` are modelled by their library
definitions, a `glm::mat4` by its four columns, and a model by the vertex positions of its
meshes.
-/

namespace Driving

variable {α : Type} [LinearOrderedField α]

/-- Constant `const float MAX_SPEED = 15.0f;` -/
def MAX_SPEED : α := 15.0

/-- Constant `const float ACCELERATION = 10.0f;` -/
def ACCELERATION : α := 10.0

/-- Constant `const float BRAKE = 12.0f;` -/
def BRAKE : α := 12.0

/-- Constant `const float FRICTION = 4.0f;` -/
def FRICTION : α := 4.0

/-- The keys polled by `processInput` of the driving demo. -/
structure Keys where
  forward : Bool
  backward : Bool
  left : Bool
  right : Bool
deriving DecidableEq, Repr

/-- The `// accelerate / brake` block of `processInput`:
`if (forward) carSpeed += ACCELERATION * deltaTime;
 else if (backward) { if (carSpeed > 0.0f) carSpeed -= BRAKE * deltaTime;
                      else carSpeed -= ACCELERATION * deltaTime; }` -/
def accelerate (k : Keys) (deltaTime carSpeed : α) : α :=
  if k.forward then carSpeed + ACCELERATION * deltaTime
  else if k.backward then
    if carSpeed > 0.0 then carSpeed - BRAKE * deltaTime
    else carSpeed - ACCELERATION * deltaTime
  else carSpeed

/-- The `// clamp speed` block of `processInput`: two successive `if`s
`if (carSpeed > MAX_SPEED) carSpeed = MAX_SPEED;
 if (carSpeed < -MAX_SPEED / 2.0f) carSpeed = -MAX_SPEED / 2.0f;` -/
def clampSpeed (carSpeed : α) : α :=
  let s1 := if carSpeed > MAX_SPEED then MAX_SPEED else carSpeed
  if s1 < -MAX_SPEED / 2.0 then -MAX_SPEED / 2.0 else s1

/-- The value `processInput` leaves in the global `carSpeed`.  The later blocks of
`processInput` (steering, position) read `carSpeed` but never write it, and the
blocks modelled here read nothing but `carSpeed`, `deltaTime` and the keys. -/
def processInputSpeed (k : Keys) (deltaTime carSpeed : α) : α :=
  clampSpeed (accelerate k deltaTime carSpeed)

/-- The `// simple friction` block of the render loop in `main`, executed in every
frame right after `processInput(window)`. -/
def friction (deltaTime carSpeed : α) : α :=
  if |carSpeed| > 0.01 then
    let sign : α := if carSpeed > 0.0 then 1.0 else -1.0
    let s1 := carSpeed - sign * FRICTION * deltaTime
    let s2 := if sign > 0.0 ∧ s1 < 0.0 then 0.0 else s1
    if sign < 0.0 ∧ s2 > 0.0 then 0.0 else s2
  else 0.0

/-- The speed at the end of one frame of the render loop:
`processInput(window);` followed by the friction block. -/
def frameSpeed (k : Keys) (deltaTime carSpeed : α) : α :=
  friction deltaTime (processInputSpeed k deltaTime carSpeed)

/-- The speed after a sequence of frames, one per entry `(keys, deltaTime)`. -/
def runFrames (carSpeed : α) (frames : List (Keys × α)) : α :=
  frames.foldl (fun s f => frameSpeed f.1 f.2 s) carSpeed

/-- Only `W` held. -/
def forwardOnly : Keys := ⟨true, false, false, false⟩

/-- No key held. -/
def noKeys : Keys := ⟨false, false, false, false⟩

end Driving

namespace Combat

variable {α : Type} [LinearOrderedField α]

/-- The `glm::vec3` of the combat demo. -/
structure Vec3 (α : Type) where
  x : α
  y : α
  z : α
deriving DecidableEq, Repr

/-- Componentwise sum, `glm::vec3 + glm::vec3`. -/
def Vec3.add (u v : Vec3 α) : Vec3 α := ⟨u.x + v.x, u.y + v.y, u.z + v.z⟩

/-- Componentwise difference, `glm::vec3 - glm::vec3`. -/
def Vec3.sub (u v : Vec3 α) : Vec3 α := ⟨u.x - v.x, u.y - v.y, u.z - v.z⟩

/-- Product with a scalar on the right, `glm::vec3 * float`. -/
def Vec3.scale (v : Vec3 α) (c : α) : Vec3 α := ⟨v.x * c, v.y * c, v.z * c⟩

instance : Add (Vec3 α) := ⟨Vec3.add⟩

instance : Sub (Vec3 α) := ⟨Vec3.sub⟩

instance : HMul (Vec3 α) α (Vec3 α) := ⟨Vec3.scale⟩

/-- The square of `glm::length v`. -/
def Vec3.normSq (v : Vec3 α) : α := v.x * v.x + v.y * v.y + v.z * v.z

/-- The test `glm::length(v) < r`.  The length is the non-negative square root of
`normSq v`, so the test holds exactly when `r` is positive and `normSq v < r * r`
(see `lengthLt_iff_sqrt_lt` for the statement over the reals). -/
def lengthLt (v : Vec3 α) (r : α) : Prop := 0 < r ∧ v.normSq < r * r

instance (v : Vec3 α) (r : α) : Decidable (lengthLt v r) :=
  inferInstanceAs (Decidable (0 < r ∧ v.normSq < r * r))

/-- The bullet record, `struct Bullet`. -/
structure Bullet (α : Type) where
  position : Vec3 α
  direction : Vec3 α
  speed : α
  life : α
deriving DecidableEq, Repr

/-- The target record, `struct Target`. -/
structure Target (α : Type) where
  position : Vec3 α
  speed : α
deriving DecidableEq, Repr

/-- Constant `const float TARGET_SPEED = 1.2f;` -/
def TARGET_SPEED : α := 1.2

/-- Constant `const float SPAWN_INTERVAL = 3.0f;` -/
def SPAWN_INTERVAL : α := 3.0

/-- Constant `const float MOUSE_SENSITIVITY = 0.1f;` -/
def MOUSE_SENSITIVITY : α := 0.1

/-- Constant `const float HIT_DISTANCE = 0.3f;` -/
def HIT_DISTANCE : α := 0.3

/-! ### Bullet-target collision detection (`main`) -/

/-- The hit test of the collision loop for one bullet and one target:
`targetCenter = target.position + glm::vec3(0.0f, 0.75f, 0.0f);
 dist = glm::length(bullet.position - targetCenter);  dist < HIT_DISTANCE`. -/
def hit (b : Bullet α) (t : Target α) : Prop :=
  lengthLt (b.position - (t.position + (⟨0.0, 0.75, 0.0⟩ : Vec3 α))) HIT_DISTANCE

instance (b : Bullet α) (t : Target α) : Decidable (hit b t) :=
  inferInstanceAs (Decidable (lengthLt _ _))

/-- The inner loop `for (int j = 0; j < targets.size(); )` for the bullet at index `i`,
started at index `j`.  The result is the two vectors and the flag `bulletRemoved` when
the loop is left; `none` means the iteration budget `fuel` ran out. -/
def scanTargets (bullets : List (Bullet α)) (i : Nat) (hi : i < bullets.length)
    (targets : List (Target α)) :
    Nat → Nat → Option (List (Bullet α) × List (Target α) × Bool)
  | 0, _ => none
  | fuel + 1, j =>
    if hj : j < targets.length then
      if hit (bullets.get ⟨i, hi⟩) (targets.get ⟨j, hj⟩) then
        some (bullets.eraseIdx i, targets.eraseIdx j, true)
      else scanTargets bullets i hi targets fuel (j + 1)
    else some (bullets, targets, false)

/-- The outer loop `for (int i = 0; i < bullets.size(); )` of the collision detection,
started at index `i`; after the inner loop, `if (!bulletRemoved) ++i;`.  `fuel` bounds
the nesting of loop iterations; `none` means it ran out. -/
def collisionLoop :
    Nat → List (Bullet α) → List (Target α) → Nat → Option (List (Bullet α) × List (Target α))
  | 0, _, _, _ => none
  | fuel + 1, bullets, targets, i =>
    if hi : i < bullets.length then
      match scanTargets bullets i hi targets fuel 0 with
      | none => none
      | some (bullets1, targets1, bulletRemoved) =>
        collisionLoop fuel bullets1 targets1 (if !bulletRemoved then i + 1 else i)
    else some (bullets, targets)

/-- The collision detection pass of one frame, with an iteration budget that always
suffices (`collisionLoop_eq_spec`). -/
def collisionPass (bullets : List (Bullet α)) (targets : List (Target α)) :
    Option (List (Bullet α) × List (Target α)) :=
  collisionLoop (bullets.length + targets.length + 2) bullets targets 0

/-- Specification side (spec 4.3, step 3): scan the targets in order and remove the
first one within hit distance of the projectile; `none` when there is no such target. -/
def removeFirstHit (b : Bullet α) : List (Target α) → Option (List (Target α))
  | [] => none
  | t :: ts => if hit b t then some ts else (removeFirstHit b ts).map (t :: ·)

/-- Specification side (spec 4.3, step 3): for every projectile in order, remove it
together with the first target within hit distance, if there is one, and stop scanning
targets for this projectile; otherwise the projectile stays. -/
def collisionSpec : List (Bullet α) → List (Target α) → List (Bullet α) × List (Target α)
  | [], ts => ([], ts)
  | b :: bs, ts =>
    match removeFirstHit b ts with
    | some ts1 => collisionSpec bs ts1
    | none => (b :: (collisionSpec bs ts).1, (collisionSpec bs ts).2)

/-! ### Bullet update (`main`) -/

/-- The body of the `// Update bullets` loop for the bullet at the current index:
`bullets[i].position += bullets[i].direction * bullets[i].speed * deltaTime;
 bullets[i].life -= deltaTime;` -/
def advanceBullet (deltaTime : α) (b : Bullet α) : Bullet α :=
  { b with position := b.position + b.direction * b.speed * deltaTime
           life := b.life - deltaTime }

/-- The loop `for (int i = 0; i < bullets.size(); )` of `// Update bullets`, started at
index `i`: the bullet at `i` is advanced in place; if its life is then `<= 0.0f` it is
erased and `i` stays, otherwise `++i`.  `none` means the budget `fuel` ran out. -/
def updateBulletsLoop (deltaTime : α) : Nat → List (Bullet α) → Nat → Option (List (Bullet α))
  | 0, _, _ => none
  | fuel + 1, bullets, i =>
    if hi : i < bullets.length then
      let b1 := advanceBullet deltaTime (bullets.get ⟨i, hi⟩)
      let bullets1 := bullets.set i b1
      if b1.life ≤ 0.0 then updateBulletsLoop deltaTime fuel (bullets1.eraseIdx i) i
      else updateBulletsLoop deltaTime fuel bullets1 (i + 1)
    else some bullets

/-- The bullet update pass of one frame, with a budget that always suffices
(`updateBulletsLoop_eq`). -/
def updateBullets (deltaTime : α) (bullets : List (Bullet α)) : Option (List (Bullet α)) :=
  updateBulletsLoop deltaTime (bullets.length + 1) bullets 0

/-- Specification side (spec 4.3, step 1): advance every bullet, then keep exactly
those whose new life is `> 0`, in the original order. -/
def updateBulletsSpec (deltaTime : α) (bullets : List (Bullet α)) : List (Bullet α) :=
  (bullets.map (advanceBullet deltaTime)).filter (fun b => decide (0 < b.life))

/-! ### Target spawn (`main`) -/

/-- The candidate position built in the body of the spawn `do ... while` loop from
two results `r1`, `r2` of `rand()`, with `float range = 4.0f;`:
`glm::vec3((rand() % 100 / 100.0f - 0.5f) * 2.0f * range, 0.1f,
           (rand() % 100 / 100.0f - 0.5f) * 2.0f * range)`. -/
def spawnCandidate (r1 r2 : Nat) : Vec3 α :=
  let range : α := 4.0
  ⟨(((r1 % 100 : Nat) : α) / 100.0 - 0.5) * 2.0 * range, 0.1,
   (((r2 % 100 : Nat) : α) / 100.0 - 0.5) * 2.0 * range⟩

/-- The rejection loop `do { pos = ...; } while (glm::length(pos - characterPosition) < 2.5f);`.
The random source is the stream `rand`, of which `n` results are already used; the
x coordinate takes `rand n` and the z coordinate `rand (n + 1)` (C++ leaves the order of
the two calls open; nothing proved below depends on it, `rand` being arbitrary).  The result is the
accepted position and the number of results used; `none` means the budget `fuel` ran
out. -/
def spawnLoop (rand : Nat → Nat) (characterPosition : Vec3 α) :
    Nat → Nat → Option (Vec3 α × Nat)
  | 0, _ => none
  | fuel + 1, n =>
    if lengthLt (spawnCandidate (rand n) (rand (n + 1)) - characterPosition) 2.5 then
      spawnLoop rand characterPosition fuel (n + 2)
    else some (spawnCandidate (rand n) (rand (n + 1)), n + 2)

/-- The state touched by the `// --- Target spawn logic ---` block. -/
structure SpawnState (α : Type) where
  timeSinceLastSpawn : α
  targets : List (Target α)
  randCalls : Nat

/-- The `// --- Target spawn logic ---` block of one frame. -/
def spawnStep (rand : Nat → Nat) (characterPosition : Vec3 α) (deltaTime : α) (fuel : Nat)
    (st : SpawnState α) : Option (SpawnState α) :=
  if st.timeSinceLastSpawn + deltaTime ≥ SPAWN_INTERVAL then
    match spawnLoop rand characterPosition fuel st.randCalls with
    | none => none
    | some (pos, n) => some ⟨0.0, st.targets ++ [⟨pos, TARGET_SPEED⟩], n⟩
  else some ⟨st.timeSinceLastSpawn + deltaTime, st.targets, st.randCalls⟩

/-- A random source whose first candidate is `(2.4, 0.1, 0)` and whose later
candidates are all `(-4, 0.1, -4)`. -/
def sampleRand (n : Nat) : Nat := if n = 0 then 80 else if n = 1 then 50 else 0

/-- A player position at distance exactly 2.4 from the first candidate of `sampleRand`. -/
def samplePlayer : Vec3 ℚ := ⟨0, 0.1, 0⟩

/-! ### Pointer motion (`mouse_callback`) -/

/-- The globals read and written by `mouse_callback` of the combat demo. -/
structure MouseState (α : Type) where
  firstMouse : Bool
  lastX : α
  lastY : α
  characterYaw : α
  cameraYaw : α
  cameraPitch : α

/-- The cursor callback `mouse_callback(window, xpos, ypos)` of the combat demo:
on the first call the previous cursor position is the new one; the offsets are scaled by
`MOUSE_SENSITIVITY`; both yaws decrease by the x offset; the pitch increases by the y
offset and is then clamped by two successive `if`s. -/
def mouse_callback (st : MouseState α) (xpos ypos : α) : MouseState α :=
  let lastX0 := if st.firstMouse then xpos else st.lastX
  let lastY0 := if st.firstMouse then ypos else st.lastY
  let xoffset := (xpos - lastX0) * MOUSE_SENSITIVITY
  let yoffset := (ypos - lastY0) * MOUSE_SENSITIVITY
  let pitch1 := st.cameraPitch + yoffset
  let pitch2 := if pitch1 > 45.0 then 45.0 else pitch1
  let pitch3 := if pitch2 < -45.0 then -45.0 else pitch2
  { firstMouse := false
    lastX := xpos
    lastY := ypos
    characterYaw := st.characterYaw - xoffset
    cameraYaw := st.cameraYaw - xoffset
    cameraPitch := pitch3 }

/-- A bullet with 1/100 s of life left. -/
def fadingBullet : Bullet ℚ := ⟨⟨1, 1, 1⟩, ⟨1, 0, 0⟩, 15, 1 / 100⟩

/-- A bullet at the centre height of a target standing at the origin. -/
def sampleBullet : Bullet ℚ := ⟨⟨0, 0.75, 0⟩, ⟨0, 0, 1⟩, 15, 3⟩

/-- A target at the origin: its centre is at distance 0 from `sampleBullet`. -/
def nearTarget1 : Target ℚ := ⟨⟨0, 0, 0⟩, 1.2⟩

/-- A second target, whose centre is at distance 0.1 from `sampleBullet`. -/
def nearTarget2 : Target ℚ := ⟨⟨0.1, 0, 0⟩, 1.2⟩

/-! ### The math library (`glm`, `<cmath>`) -/

/-- The library functions called by the programs whose values are not rational
expressions of their arguments: `sin`, `cos`, the square root inside `glm::length` and
`glm::normalize`, and the conversion `glm::radians`.  They are parameters of the
model; theorems that depend on them state the laws they use (`Glm.Lawful`). -/
structure Glm (α : Type) where
  sin : α → α
  cos : α → α
  sqrt : α → α
  radians : α → α

/-- The laws of the math library used below: the Pythagorean identity and the
defining properties of the non-negative square root. -/
structure Glm.Lawful (G : Glm α) : Prop where
  sin_sq_add_cos_sq : ∀ x, G.sin x * G.sin x + G.cos x * G.cos x = 1
  sqrt_nonneg : ∀ x, 0 ≤ G.sqrt x
  sqrt_mul_self : ∀ x, 0 ≤ x → G.sqrt x * G.sqrt x = x

/-- The library call `glm::length(v)`, the square root of `dot(v, v)`. -/
def Glm.length (G : Glm α) (v : Vec3 α) : α := G.sqrt v.normSq

/-- The library call `glm::normalize(v)`, that is `v * inversesqrt(dot(v, v))`. -/
def Glm.normalize (G : Glm α) (v : Vec3 α) : Vec3 α := v * (1 / G.sqrt v.normSq)

/-- The library call `glm::cross(u, v)`. -/
def Vec3.cross (u v : Vec3 α) : Vec3 α :=
  ⟨u.y * v.z - v.y * u.z, u.z * v.x - v.z * u.x, u.x * v.y - v.x * u.y⟩

/-- The library call `glm::clamp(x, minVal, maxVal)`, that is `min(max(x, minVal), maxVal)`. -/
def glmClamp (x lo hi : α) : α := min (max x lo) hi

/-! ### Player, camera and shooting (`updateCamera`, `processInput`) -/

/-- Constant `const float BULLET_SPEED = 15.0f;` -/
def BULLET_SPEED : α := 15.0

/-- Constant `const float BULLET_LIFETIME = 3.0f;` -/
def BULLET_LIFETIME : α := 3.0

/-- Constant `const float CHARACTER_SPEED = 2.5f;` -/
def CHARACTER_SPEED : α := 2.5

/-- Constant `const float CAMERA_DISTANCE = 3.0f;` -/
def CAMERA_DISTANCE : α := 3.0

/-- Constant `const float CAMERA_HEIGHT = 1.5f;` -/
def CAMERA_HEIGHT : α := 1.5

/-- The nine animations created in `main`; the globals `idleAnimPtr`, `runForwardPtr`,
... point to nine distinct objects, so a pointer is identified with its animation. -/
inductive Anim where
  | idle
  | runForward
  | runBack
  | runLeft
  | runRight
  | runForwardLeft
  | runForwardRight
  | runBackLeft
  | runBackRight
deriving DecidableEq, Repr

/-- The inputs polled by `processInput` of the combat demo: the keys W, S, A, D, J and
the left mouse button. -/
structure PlayerKeys where
  w : Bool
  s : Bool
  a : Bool
  d : Bool
  j : Bool
  mouseLeft : Bool
deriving DecidableEq, Repr

/-- The globals read and written by `updateCamera` and `processInput` of the combat
demo.  `playLog` records the calls `animatorPtr->PlayAnimation(newAnim)`, latest last;
`shootPressedLastFrame` is the `static` local of `processInput`. -/
structure CombatState (α : Type) where
  characterPosition : Vec3 α
  characterYaw : α
  cameraYaw : α
  cameraPitch : α
  cameraPosition : Vec3 α
  cameraFront : Vec3 α
  cameraRight : Vec3 α
  cameraUp : Vec3 α
  currentAnim : Anim
  playLog : List Anim
  shootPressedLastFrame : Bool
  bullets : List (Bullet α)

/-- The function `updateCamera()`. -/
def updateCamera (G : Glm α) (st : CombatState α) : CombatState α :=
  let yawRad := G.radians st.cameraYaw
  let pitchRad := G.radians st.cameraPitch
  let offset : Vec3 α :=
    ⟨CAMERA_DISTANCE * G.sin yawRad * G.cos pitchRad,
     CAMERA_HEIGHT + CAMERA_DISTANCE * G.sin pitchRad,
     CAMERA_DISTANCE * G.cos yawRad * G.cos pitchRad⟩
  let position := st.characterPosition + offset
  let lookAtPoint := st.characterPosition + (⟨0.0, 1.0, 0.0⟩ : Vec3 α)
  let direction := G.normalize (lookAtPoint - position)
  let right := G.normalize (direction.cross ⟨0.0, 1.0, 0.0⟩)
  { st with
    characterYaw := st.cameraYaw
    cameraPosition := position
    cameraFront := direction
    cameraRight := right
    cameraUp := G.normalize (right.cross direction) }

/-- The vector `moveDir` of `processInput` before it is normalised: starting from zero,
`if (w) moveDir += camForward; if (s) moveDir -= camForward;
 if (a) moveDir -= camRight; if (d) moveDir += camRight;` with
`camForward = normalize(vec3(-sin(yawRad), 0, -cos(yawRad)))` and
`camRight = normalize(vec3(cos(yawRad), 0, -sin(yawRad)))`. -/
def moveDir (G : Glm α) (cameraYaw : α) (k : PlayerKeys) : Vec3 α :=
  let yawRad := G.radians cameraYaw
  let camForward := G.normalize ⟨-G.sin yawRad, 0.0, -G.cos yawRad⟩
  let camRight := G.normalize ⟨G.cos yawRad, 0.0, -G.sin yawRad⟩
  let m0 : Vec3 α := ⟨0.0, 0.0, 0.0⟩
  let m1 := if k.w then m0 + camForward else m0
  let m2 := if k.s then m1 - camForward else m1
  let m3 := if k.a then m2 - camRight else m2
  if k.d then m3 + camRight else m3

/-- The flag `bool moving = glm::length(moveDir) > 0.01f;` of `processInput`. -/
def moving (G : Glm α) (cameraYaw : α) (k : PlayerKeys) : Bool :=
  decide (G.length (moveDir G cameraYaw k) > 0.01)

/-- The `// Pick the right animation` block of `processInput`. -/
def pickAnimation (isMoving : Bool) (k : PlayerKeys) : Anim :=
  if isMoving then
    if k.w && k.a && !k.s && !k.d then Anim.runForwardLeft
    else if k.w && k.d && !k.s && !k.a then Anim.runForwardRight
    else if k.s && k.a && !k.w && !k.d then Anim.runBackLeft
    else if k.s && k.d && !k.w && !k.a then Anim.runBackRight
    else if k.w && !k.a && !k.s && !k.d then Anim.runForward
    else if k.s && !k.a && !k.w && !k.d then Anim.runBack
    else if k.a && !k.w && !k.s && !k.d then Anim.runLeft
    else if k.d && !k.w && !k.s && !k.a then Anim.runRight
    else Anim.runForward
  else Anim.idle

/-- The position of the player after the movement and `// Keep within area` blocks of
`processInput`. -/
def movePlayer (G : Glm α) (cameraYaw : α) (k : PlayerKeys) (deltaTime : α)
    (characterPosition : Vec3 α) : Vec3 α :=
  let p :=
    if moving G cameraYaw k then
      characterPosition + G.normalize (moveDir G cameraYaw k) * (CHARACTER_SPEED : α) * deltaTime
    else characterPosition
  let limit : α := 4.5
  ⟨glmClamp p.x (-limit) limit, p.y, glmClamp p.z (-limit) limit⟩

/-- The bullet built in the `// Shooting` block of `processInput`:
`forward = normalize(vec3(camera.Front.x, camera.Front.y, camera.Front.z))`,
`position = characterPosition + vec3(-0.1f, 0.8f, 0.0f)`. -/
def newBullet (G : Glm α) (characterPosition cameraFront : Vec3 α) : Bullet α :=
  { position := characterPosition + (⟨-0.1, 0.8, 0.0⟩ : Vec3 α)
    direction := G.normalize ⟨cameraFront.x, cameraFront.y, cameraFront.z⟩
    speed := BULLET_SPEED
    life := BULLET_LIFETIME }

/-- The function `processInput(window)` of the combat demo, with the polled inputs `k`
and the global `deltaTime` as arguments (the Escape key only asks the window to close). -/
def processInput (G : Glm α) (k : PlayerKeys) (deltaTime : α) (st : CombatState α) :
    CombatState α :=
  let characterPosition := movePlayer G st.cameraYaw k deltaTime st.characterPosition
  let newAnim := pickAnimation (moving G st.cameraYaw k) k
  let shootPressed := k.j || k.mouseLeft
  { st with
    characterPosition := characterPosition
    currentAnim := newAnim
    playLog := if newAnim ≠ st.currentAnim then st.playLog ++ [newAnim] else st.playLog
    bullets :=
      if shootPressed && !st.shootPressedLastFrame then
        st.bullets ++ [newBullet G characterPosition st.cameraFront]
      else st.bullets
    shootPressedLastFrame := shootPressed }

/-- The effect of `processInput` over consecutive frames, one entry
`(inputs, deltaTime)` per frame. -/
def runProcessInput (G : Glm α) (frames : List (PlayerKeys × α)) (st : CombatState α) :
    CombatState α :=
  frames.foldl (fun s f => processInput G f.1 f.2 s) st

/-- The number of frames of a sequence of shoot inputs in which the input is held and
was not held in the frame before; `last` is the input before the first frame. -/
def risingEdges : Bool → List Bool → Nat
  | _, [] => 0
  | last, cur :: rest => (if cur && !last then 1 else 0) + risingEdges cur rest

/-! ### Target pursuit (`main`) -/

/-- The body of the `// --- Update targets (move toward player) ---` loop:
`dir = glm::normalize(characterPosition - t.position);
 t.position += dir * t.speed * deltaTime;` -/
def updateTarget (G : Glm α) (characterPosition : Vec3 α) (deltaTime : α) (t : Target α) :
    Target α :=
  { t with
    position :=
      t.position + G.normalize (characterPosition - t.position) * t.speed * deltaTime }

/-- The loop `for (auto& t : targets)` of the target update. -/
def updateTargets (G : Glm α) (characterPosition : Vec3 α) (deltaTime : α)
    (targets : List (Target α)) : List (Target α) :=
  targets.map (updateTarget G characterPosition deltaTime)

/-- The effect of the spawn block over consecutive frames with frame times `dts`;
`none` when the rejection loop of some frame ran out of its budget `fuel`. -/
def spawnFrames (rand : Nat → Nat) (characterPosition : Vec3 α) (fuel : Nat) :
    List α → SpawnState α → Option (SpawnState α)
  | [], st => some st
  | dt :: dts, st =>
    match spawnStep rand characterPosition dt fuel st with
    | none => none
    | some st1 => spawnFrames rand characterPosition fuel dts st1

/-- The state of the combat demo when the render loop starts: the initial values of the
globals, with the camera as `Camera camera(glm::vec3(0.0f, 1.2f, 4.0f))` and idle playing. -/
def idlePlayer : CombatState α :=
  { characterPosition := ⟨0.0, 0.09, 0.0⟩
    characterYaw := 0.0
    cameraYaw := 0.0
    cameraPitch := 0.0
    cameraPosition := ⟨0.0, 1.2, 4.0⟩
    cameraFront := ⟨0, 0, -1⟩
    cameraRight := ⟨1, 0, 0⟩
    cameraUp := ⟨0, 1, 0⟩
    currentAnim := Anim.idle
    playLog := [Anim.idle]
    shootPressedLastFrame := false
    bullets := [] }

/-- The player at the origin with the camera orbit at 180 degrees, so that
`camForward = (-sin 180°, 0, -cos 180°) = (0, 0, 1)`: facing `+Z`. -/
def playerFacingPlusZ : CombatState α :=
  { (idlePlayer : CombatState α) with characterPosition := ⟨0, 0, 0⟩, cameraYaw := 180 }

/-- Only the shoot key `J` held. -/
def shootOnly : PlayerKeys := ⟨false, false, false, false, true, false⟩

/-- No input held in the combat demo. -/
def noInput : PlayerKeys := ⟨false, false, false, false, false, false⟩

/-- A target at distance 1 from the origin. -/
def pursuer : Target α := ⟨⟨1, 0, 0⟩, 1.2⟩

end Combat

namespace Driving

variable {α : Type} [LinearOrderedField α]

/-! ### Steering, position and camera of the driving demo -/

/-- Constant `const float TURN_SPEED = 90.0f;` -/
def TURN_SPEED : α := 90.0

/-- The globals of the driving demo read and written by `processInput`, by
`mouse_callback` and by the camera block of `main`.  `lastX` and `firstMouse` are the
`static` locals of `mouse_callback`. -/
structure DrivingState (α : Type) where
  carPosition : Combat.Vec3 α
  carRotation : α
  carSpeed : α
  cameraYaw : α
  cameraPitch : α
  cameraPosition : Combat.Vec3 α
  cameraFront : Combat.Vec3 α
  lastX : α
  firstMouse : Bool

/-- The value `steerDirection` of `processInput`:
`steerDirection = 0.0f; if (left) steerDirection = 1.0f; if (right) steerDirection = -1.0f;` -/
def steerDirection (k : Keys) : α :=
  let s0 : α := 0.0
  let s1 : α := if k.left then 1.0 else s0
  if k.right then -1.0 else s1

/-- The function `processInput(window)` of the driving demo, with the polled keys `k`
and the global `deltaTime` as arguments (the Escape key only asks the window to close).
Its first two blocks are `accelerate` and `clampSpeed`. -/
def processInput (G : Combat.Glm α) (k : Keys) (deltaTime : α) (st : DrivingState α) :
    DrivingState α :=
  let carSpeed := clampSpeed (accelerate k deltaTime st.carSpeed)
  let carRotation :=
    if |carSpeed| > 0.01 then
      st.carRotation + TURN_SPEED * (carSpeed / MAX_SPEED) * steerDirection k * deltaTime
    else
      st.carRotation + TURN_SPEED * 0.6 * steerDirection k * deltaTime
  let rad := G.radians carRotation
  let forwardVec : Combat.Vec3 α := ⟨G.sin rad, 0.0, G.cos rad⟩
  let p := st.carPosition + forwardVec * carSpeed * deltaTime
  let BOUND : α := 500.0
  { st with
    carSpeed := carSpeed
    carRotation := carRotation
    carPosition := ⟨Combat.glmClamp p.x (-BOUND) BOUND, p.y, Combat.glmClamp p.z (-BOUND) BOUND⟩ }

/-- The callback `mouse_callback(window, xposIn, yposIn)` of the driving demo. -/
def mouse_callback (G : Combat.Glm α) (st : DrivingState α) (xposIn : α) : DrivingState α :=
  let lastX0 := if st.firstMouse then xposIn else st.lastX
  let xoffset := (xposIn - lastX0) * 0.1
  let yaw := st.cameraYaw + xoffset
  let front : Combat.Vec3 α :=
    ⟨G.cos (G.radians st.cameraPitch) * G.cos (G.radians yaw),
     G.sin (G.radians st.cameraPitch),
     G.cos (G.radians st.cameraPitch) * G.sin (G.radians yaw)⟩
  { st with
    firstMouse := false
    lastX := xposIn
    cameraYaw := yaw
    cameraFront := G.normalize front }

/-- The `// update camera to follow the car (third-person)` block of `main`. -/
def followCamera (G : Combat.Glm α) (st : DrivingState α) : DrivingState α :=
  let camDistance : α := 22.0
  let camHeight : α := 8.0
  let yawRad := G.radians st.cameraYaw
  let pitchRad := G.radians st.cameraPitch
  let camDir : Combat.Vec3 α :=
    ⟨G.cos pitchRad * G.sin yawRad, G.sin pitchRad, G.cos pitchRad * G.cos yawRad⟩
  let position := st.carPosition - camDir * camDistance + (⟨0.0, camHeight, 0.0⟩ : Combat.Vec3 α)
  { st with
    cameraPosition := position
    cameraFront := G.normalize (st.carPosition - position) }

/-- One iteration of the render loop of the driving demo, up to the rendering:
`processInput(window)`, the friction block, the camera block. -/
def frame (G : Combat.Glm α) (k : Keys) (deltaTime : α) (st : DrivingState α) :
    DrivingState α :=
  let st1 := processInput G k deltaTime st
  followCamera G { st1 with carSpeed := friction deltaTime st1.carSpeed }

/-- A car at rest at the origin with heading 0 and camera yaw 0, after a first cursor
event at x = 0. -/
def restingCar : DrivingState α :=
  { carPosition := ⟨0, 0, 0⟩
    carRotation := 0
    carSpeed := 0
    cameraYaw := 0
    cameraPitch := 0
    cameraPosition := ⟨0, 8, -22⟩
    cameraFront := ⟨0, 0, 1⟩
    lastX := 0
    firstMouse := false }

/-- Only `A` (left) held. -/
def leftOnly : Keys := ⟨false, false, true, false⟩

/-- The car of `restingCar` moving forward at speed 5. -/
def cruisingCar : DrivingState α := { (restingCar : DrivingState α) with carSpeed := 5 }

/-- The car of `restingCar` reversing at speed 5. -/
def reversingCar : DrivingState α := { (restingCar : DrivingState α) with carSpeed := -5 }

/-! ### Model normalisation (`getNormalizationTransform`) -/

/-- The `glm::vec4`. -/
structure Vec4 (α : Type) where
  x : α
  y : α
  z : α
  w : α
deriving DecidableEq, Repr

/-- Componentwise sum, `glm::vec4 + glm::vec4`. -/
def Vec4.add (u v : Vec4 α) : Vec4 α := ⟨u.x + v.x, u.y + v.y, u.z + v.z, u.w + v.w⟩

/-- Product with a scalar on the right, `glm::vec4 * float`. -/
def Vec4.scale (v : Vec4 α) (c : α) : Vec4 α := ⟨v.x * c, v.y * c, v.z * c, v.w * c⟩

instance : Add (Vec4 α) := ⟨Vec4.add⟩

instance : HMul (Vec4 α) α (Vec4 α) := ⟨Vec4.scale⟩

/-- The `glm::mat4`, stored by columns as in the library: `c0` is `m[0]`, ..., `c3` is
`m[3]`. -/
structure Mat4 (α : Type) where
  c0 : Vec4 α
  c1 : Vec4 α
  c2 : Vec4 α
  c3 : Vec4 α
deriving DecidableEq, Repr

/-- The identity matrix `glm::mat4(1.0f)`. -/
def Mat4.identity : Mat4 α := ⟨⟨1, 0, 0, 0⟩, ⟨0, 1, 0, 0⟩, ⟨0, 0, 1, 0⟩, ⟨0, 0, 0, 1⟩⟩

/-- The library call `glm::translate(m, v)`: the result is `m` with
`Result[3] = m[0] * v[0] + m[1] * v[1] + m[2] * v[2] + m[3]`. -/
def glmTranslate (m : Mat4 α) (v : Combat.Vec3 α) : Mat4 α :=
  { m with c3 := m.c0 * v.x + m.c1 * v.y + m.c2 * v.z + m.c3 }

/-- The library call `glm::scale(m, v)`: `Result[0] = m[0] * v[0]`,
`Result[1] = m[1] * v[1]`, `Result[2] = m[2] * v[2]`, `Result[3] = m[3]`. -/
def glmScale (m : Mat4 α) (v : Combat.Vec3 α) : Mat4 α :=
  ⟨m.c0 * v.x, m.c1 * v.y, m.c2 * v.z, m.c3⟩

/-- The product `m * v` of a matrix and a column vector. -/
def Mat4.mulVec (m : Mat4 α) (v : Vec4 α) : Vec4 α :=
  m.c0 * v.x + m.c1 * v.y + m.c2 * v.z + m.c3 * v.w

/-- The image of the point `p` under `m`: the first three components of
`m * vec4(p, 1.0)`, as the vertex shaders compute it. -/
def Mat4.transformPoint (m : Mat4 α) (p : Combat.Vec3 α) : Combat.Vec3 α :=
  ⟨(m.mulVec ⟨p.x, p.y, p.z, 1⟩).x, (m.mulVec ⟨p.x, p.y, p.z, 1⟩).y,
   (m.mulVec ⟨p.x, p.y, p.z, 1⟩).z⟩

/-- The constant `FLT_MAX` of `<cfloat>`, the largest finite `float`, `2^128 - 2^104`. -/
def FLT_MAX : α := 340282346638528859811704183484516925440

/-- The body of the vertex loop of `getNormalizationTransform`: the six updates
`minP.x = std::min(minP.x, p.x); ... maxP.z = std::max(maxP.z, p.z);` on the pair
`(minP, maxP)`. -/
def growBox (box : Combat.Vec3 α × Combat.Vec3 α) (p : Combat.Vec3 α) :
    Combat.Vec3 α × Combat.Vec3 α :=
  (⟨min box.1.x p.x, min box.1.y p.y, min box.1.z p.z⟩,
   ⟨max box.2.x p.x, max box.2.y p.y, max box.2.z p.z⟩)

/-- The pair `(minP, maxP)` after the two nested loops of `getNormalizationTransform`
over the meshes of the model and the vertex positions of each mesh, started from
`minP = (FLT_MAX, FLT_MAX, FLT_MAX)` and `maxP = (-FLT_MAX, -FLT_MAX, -FLT_MAX)`. -/
def boundingBox (meshes : List (List (Combat.Vec3 α))) : Combat.Vec3 α × Combat.Vec3 α :=
  meshes.foldl (fun box mesh => mesh.foldl growBox box)
    (⟨FLT_MAX, FLT_MAX, FLT_MAX⟩, ⟨-FLT_MAX, -FLT_MAX, -FLT_MAX⟩)

/-- The value `maxDim = std::max(size.x, std::max(size.y, size.z))` with
`size = maxP - minP`. -/
def maxDim (meshes : List (List (Combat.Vec3 α))) : α :=
  max ((boundingBox meshes).2 - (boundingBox meshes).1).x
    (max ((boundingBox meshes).2 - (boundingBox meshes).1).y
      ((boundingBox meshes).2 - (boundingBox meshes).1).z)

/-- The value `scale` of `getNormalizationTransform`:
`float scale = 1.0f; if (maxDim > 0.0f) scale = targetSize / maxDim;` -/
def normalizationScale (meshes : List (List (Combat.Vec3 α))) (targetSize : α) : α :=
  if maxDim meshes > 0.0 then targetSize / maxDim meshes else 1.0

/-- The value `center = (minP + maxP) * 0.5f` of `getNormalizationTransform`. -/
def boxCenter (meshes : List (List (Combat.Vec3 α))) : Combat.Vec3 α :=
  ((boundingBox meshes).1 + (boundingBox meshes).2) * (0.5 : α)

/-- The function `getNormalizationTransform(m, targetSize, worldPos)`; the model `m` is
given by the vertex positions of its meshes.  The last four statements are
`transform = glm::mat4(1.0f); transform = glm::translate(transform, -center);
 transform = glm::scale(transform, glm::vec3(scale));
 transform = glm::translate(transform, worldPos);` -/
def getNormalizationTransform (meshes : List (List (Combat.Vec3 α))) (targetSize : α)
    (worldPos : Combat.Vec3 α) : Mat4 α :=
  let scale := normalizationScale meshes targetSize
  let center := boxCenter meshes
  let t0 : Mat4 α := Mat4.identity
  let t1 := glmTranslate t0 ⟨-center.x, -center.y, -center.z⟩
  let t2 := glmScale t1 ⟨scale, scale, scale⟩
  glmTranslate t2 worldPos

/-- A model of one mesh with the two vertices `(0, 0, 0)` and `(2, 0, 0)`: its bounding
box has centre `(1, 0, 0)` and largest extent 2. -/
def sampleModel : List (List (Combat.Vec3 α)) := [[⟨0, 0, 0⟩, ⟨2, 0, 0⟩]]

end Driving

namespace Driving

variable {α : Type} [LinearOrderedField α]

/-! ## Driving demo: speed update -/

theorem clampSpeed_eq (s : α) : clampSpeed s = max (-(15 / 2)) (min s 15) := by
  unfold clampSpeed MAX_SPEED
  norm_num
  rcases le_total s 15 with h | h
  · rw [min_eq_left h]
    rcases le_total s (-(15 / 2)) with h2 | h2
    · rw [max_eq_left h2]
      split_ifs <;> first | rfl | linarith
    · rw [max_eq_right h2]
      split_ifs <;> first | rfl | linarith
  · rw [min_eq_right h, max_eq_right (by norm_num)]
    split_ifs <;> first | rfl | linarith

theorem clampSpeed_bounds (s : α) : -(15 / 2) ≤ clampSpeed s ∧ clampSpeed s ≤ 15 := by
  rw [clampSpeed_eq]
  exact ⟨le_max_left _ _, max_le (by norm_num) (min_le_right _ _)⟩

theorem friction_of_pos (dt s : α) (hs : 0.01 < s) :
    friction dt s = max (s - 4 * dt) 0 := by
  have h0 : (0 : α) < s := lt_trans (by norm_num) hs
  have habs : |s| > (0.01 : α) := by rwa [abs_of_pos h0]
  have hsg : s > (0.0 : α) := by norm_num; exact h0
  unfold friction FRICTION
  rw [if_pos habs]
  simp only [if_pos hsg]
  rcases lt_or_le (s - 4 * dt) 0 with h | h
  · rw [max_eq_right h.le]
    norm_num
    intro h2
    linarith
  · rw [max_eq_left h]
    norm_num
    intro h2
    linarith

theorem friction_of_neg (dt s : α) (hs : s < -0.01) :
    friction dt s = min (s + 4 * dt) 0 := by
  have h0 : s < 0 := lt_trans hs (by norm_num)
  have habs : |s| > (0.01 : α) := by rw [abs_of_neg h0]; linarith
  have hsg : ¬ s > (0.0 : α) := by norm_num; exact h0.le
  unfold friction FRICTION
  rw [if_pos habs]
  simp only [if_neg hsg]
  rcases lt_or_le 0 (s + 4 * dt) with h | h
  · rw [min_eq_right h.le]
    norm_num
    intro h2
    linarith
  · rw [min_eq_left h]
    norm_num
    intro h2
    linarith

theorem friction_of_small (dt s : α) (hs : |s| ≤ 0.01) : friction dt s = 0 := by
  unfold friction
  rw [if_neg (not_lt.mpr hs)]
  norm_num

/-- Friction never moves a speed away from zero nor across it (for `dt ≥ 0`). -/
theorem friction_between (dt s : α) (hdt : 0 ≤ dt) :
    (0 ≤ s → 0 ≤ friction dt s ∧ friction dt s ≤ s) ∧
    (s ≤ 0 → s ≤ friction dt s ∧ friction dt s ≤ 0) := by
  rcases lt_or_le (0.01 : α) s with h | h
  · have h0 : (0 : α) < s := lt_trans (by norm_num) h
    rw [friction_of_pos dt s h]
    refine ⟨fun _ => ⟨le_max_right _ _, max_le (by linarith) h0.le⟩, fun h1 => ?_⟩
    linarith
  · rcases lt_or_le s (-0.01 : α) with h2 | h2
    · have h0 : s < 0 := lt_trans h2 (by norm_num)
      rw [friction_of_neg dt s h2]
      refine ⟨fun h1 => ?_, fun _ => ⟨le_min (by linarith) h0.le, min_le_right _ _⟩⟩
      linarith
    · rw [friction_of_small dt s (abs_le.mpr ⟨h2, h⟩)]
      exact ⟨fun h1 => ⟨le_refl _, h1⟩, fun h1 => ⟨h1, le_refl _⟩⟩

/-- With no key held `processInput` only clamps the speed. -/
theorem processInputSpeed_noKeys (dt s : α) :
    processInputSpeed noKeys dt s = clampSpeed s := by
  simp [processInputSpeed, accelerate, noKeys]

/-- Clamping never moves a speed away from zero nor across it. -/
theorem clampSpeed_between (s : α) :
    (0 ≤ s → 0 ≤ clampSpeed s ∧ clampSpeed s ≤ s) ∧
    (s ≤ 0 → s ≤ clampSpeed s ∧ clampSpeed s ≤ 0) := by
  rw [clampSpeed_eq]
  constructor
  · intro h
    exact ⟨le_max_of_le_right (le_min h (by norm_num)), max_le (by linarith) (min_le_left _ _)⟩
  · intro h
    have h15 : s ≤ 15 := by linarith
    rw [min_eq_left h15]
    exact ⟨le_max_right _ _, max_le (by norm_num) h⟩

/-- One frame without keys never moves the speed away from zero nor across it. -/
theorem frameSpeed_noKeys_between (dt s : α) (hdt : 0 ≤ dt) :
    (0 ≤ s → 0 ≤ frameSpeed noKeys dt s ∧ frameSpeed noKeys dt s ≤ s) ∧
    (s ≤ 0 → s ≤ frameSpeed noKeys dt s ∧ frameSpeed noKeys dt s ≤ 0) := by
  unfold frameSpeed
  rw [processInputSpeed_noKeys]
  have hc := clampSpeed_between s
  have hf := friction_between dt (clampSpeed s) hdt
  constructor
  · intro h
    obtain ⟨c0, c1⟩ := hc.1 h
    obtain ⟨f0, f1⟩ := hf.1 c0
    exact ⟨f0, le_trans f1 c1⟩
  · intro h
    obtain ⟨c0, c1⟩ := hc.2 h
    obtain ⟨f0, f1⟩ := hf.2 c1
    exact ⟨le_trans c0 f0, f1⟩

/-- Any number of frames without keys never moves the speed away from zero nor across it. -/
theorem runFrames_noKeys_between (dts : List α) (hdts : ∀ dt ∈ dts, 0 ≤ dt) (s : α) :
    (0 ≤ s → 0 ≤ runFrames s (dts.map fun dt => (noKeys, dt)) ∧
      runFrames s (dts.map fun dt => (noKeys, dt)) ≤ s) ∧
    (s ≤ 0 → s ≤ runFrames s (dts.map fun dt => (noKeys, dt)) ∧
      runFrames s (dts.map fun dt => (noKeys, dt)) ≤ 0) := by
  induction dts generalizing s with
  | nil => exact ⟨fun h => ⟨h, le_refl _⟩, fun h => ⟨le_refl _, h⟩⟩
  | cons dt rest ih =>
    have hdt : 0 ≤ dt := hdts dt (List.mem_cons_self _ _)
    have hrest : ∀ d ∈ rest, 0 ≤ d := fun d hd => hdts d (List.mem_cons_of_mem _ hd)
    have h1 := frameSpeed_noKeys_between dt s hdt
    have h2 := ih hrest (frameSpeed noKeys dt s)
    simp only [runFrames, List.map_cons, List.foldl_cons] at h2 ⊢
    constructor
    · intro h
      obtain ⟨a0, a1⟩ := h1.1 h
      obtain ⟨b0, b1⟩ := h2.1 a0
      exact ⟨b0, le_trans b1 a1⟩
    · intro h
      obtain ⟨a0, a1⟩ := h1.2 h
      obtain ⟨b0, b1⟩ := h2.2 a1
      exact ⟨le_trans a0 b0, b1⟩

/-- A value between zero and `s` on the side of `s` has no larger magnitude and not
the opposite sign. -/
theorem abs_le_and_mul_nonneg_of_between (s t : α)
    (h : (0 ≤ s → 0 ≤ t ∧ t ≤ s) ∧ (s ≤ 0 → s ≤ t ∧ t ≤ 0)) :
    |t| ≤ |s| ∧ 0 ≤ t * s := by
  rcases le_total 0 s with hs | hs
  · obtain ⟨a, b⟩ := h.1 hs
    rw [abs_of_nonneg a, abs_of_nonneg hs]
    exact ⟨b, mul_nonneg a hs⟩
  · obtain ⟨a, b⟩ := h.2 hs
    rw [abs_of_nonpos b, abs_of_nonpos hs]
    exact ⟨by linarith, mul_nonneg_of_nonpos_of_nonpos b hs⟩

/-- With only forward held and `dt = 1/60`, a frame starting from a speed in `[0, 14]`
gains `(ACCELERATION - FRICTION) / 60 = 1/10`. -/
theorem frameSpeed_forward_sixtieth (s : α) (h0 : 0 ≤ s) (h1 : s ≤ 14) :
    frameSpeed forwardOnly (1 / 60) s = s + 1 / 10 := by
  have hp : processInputSpeed forwardOnly (1 / 60 : α) s = s + 1 / 6 := by
    simp only [processInputSpeed, accelerate, forwardOnly, if_true, ACCELERATION]
    rw [clampSpeed_eq, min_eq_left (by norm_num; linarith), max_eq_right (by norm_num; linarith)]
    norm_num
  unfold frameSpeed
  rw [hp, friction_of_pos _ _ (by norm_num; linarith), max_eq_left (by norm_num; linarith)]
  ring

/-- Speed after `n ≤ 141` frames of `1/60` s with only forward held, from rest. -/
theorem runFrames_forward_sixtieth (n : Nat) (hn : n ≤ 141) :
    runFrames (0 : α) (List.replicate n (forwardOnly, 1 / 60)) = (n : α) / 10 := by
  induction n with
  | zero => simp [runFrames]
  | succ n ih =>
    have hn1 : n ≤ 141 := Nat.le_of_succ_le hn
    have hn2 : (n : α) ≤ 140 := by exact_mod_cast Nat.le_of_succ_le_succ hn
    have hstep := frameSpeed_forward_sixtieth ((n : α) / 10) (by positivity)
      (by linarith)
    have ih1 := ih hn1
    simp only [runFrames] at ih1 ⊢
    rw [List.replicate_add, List.foldl_append, ih1]
    simp only [List.replicate_one, List.foldl_cons, List.foldl_nil]
    rw [hstep]
    push_cast
    ring

/-! ### Claims C1 to C4 -/

/-- C1: for every starting speed, every key combination and every frame time
`dt ≥ 0`, the speed at the end of one frame (`processInput` followed by the friction
step of the main loop) lies in `[-MAX_SPEED/2, MAX_SPEED] = [-7.5, 15]`. -/
theorem C1_frameSpeed_in_range (k : Keys) (dt s : α) (hdt : 0 ≤ dt) :
    -MAX_SPEED / 2 ≤ frameSpeed k dt s ∧ frameSpeed k dt s ≤ MAX_SPEED ∧
    (-MAX_SPEED / 2 : α) = -7.5 ∧ (MAX_SPEED : α) = 15 := by
  have hc := clampSpeed_bounds (accelerate k dt s)
  have hf := friction_between dt (clampSpeed (accelerate k dt s)) hdt
  have hm : (MAX_SPEED : α) = 15 := by unfold MAX_SPEED; norm_num
  rw [hm]
  unfold frameSpeed processInputSpeed
  refine ⟨?_, ?_, by norm_num, rfl⟩
  · rcases le_total 0 (clampSpeed (accelerate k dt s)) with h | h
    · have := (hf.1 h).1
      linarith
    · have := (hf.2 h).1
      linarith
  · rcases le_total 0 (clampSpeed (accelerate k dt s)) with h | h
    · have := (hf.1 h).2
      linarith
    · have := (hf.2 h).2
      linarith

/-- Witness of C1: reversing from speed `-7` for a full second. -/
theorem C1_frameSpeed_in_range_witness :
    (0 : ℚ) ≤ 1 ∧
    (-MAX_SPEED / 2 ≤ frameSpeed ⟨false, true, false, false⟩ (1 : ℚ) (-7) ∧
      frameSpeed ⟨false, true, false, false⟩ (1 : ℚ) (-7) ≤ MAX_SPEED ∧
      (-MAX_SPEED / 2 : ℚ) = -7.5 ∧ (MAX_SPEED : ℚ) = 15) :=
  ⟨by norm_num, C1_frameSpeed_in_range ⟨false, true, false, false⟩ 1 (-7) (by norm_num)⟩

/-- C2 as stated fails: after 60 frames of `1/60` s with only forward held, starting
from rest, the speed is not `10`. -/
theorem C2_speed_after_one_second_ne_ten :
    runFrames (0 : ℚ) (List.replicate 60 (forwardOnly, 1 / 60)) ≠ 10 := by
  rw [runFrames_forward_sixtieth 60 (by norm_num)]
  norm_num

/-- C2 (amended): starting from speed 0, after 60 consecutive frames with
`dt = 1/60` in which only the forward key is held, the speed equals
`(ACCELERATION - FRICTION) * 1.0 = 6`, because the friction step of the main loop
also runs in frames where forward is held. -/
theorem C2_speed_after_one_second :
    runFrames (0 : α) (List.replicate 60 (forwardOnly, 1 / 60)) = 6 ∧
    (ACCELERATION - FRICTION : α) * 1.0 = 6 := by
  refine ⟨?_, by unfold ACCELERATION FRICTION; norm_num⟩
  rw [runFrames_forward_sixtieth 60 (by norm_num)]
  norm_num

/-- C3: for every speed `s` and every `dt ≥ 0`, one frame with no key held yields a
speed `s'` with `|s'| ≤ |s|` and `s' * s ≥ 0`; and the same holds for the speed after
any sequence of such frames (hence `|speed|` is non-increasing along the sequence and
never flips sign from friction alone). -/
theorem C3_no_input_speed_decays (s : α) :
    (∀ dt : α, 0 ≤ dt →
      |frameSpeed noKeys dt s| ≤ |s| ∧ 0 ≤ frameSpeed noKeys dt s * s) ∧
    (∀ dts : List α, (∀ dt ∈ dts, 0 ≤ dt) →
      |runFrames s (dts.map fun dt => (noKeys, dt))| ≤ |s| ∧
      0 ≤ runFrames s (dts.map fun dt => (noKeys, dt)) * s) :=
  ⟨fun dt hdt => abs_le_and_mul_nonneg_of_between s _ (frameSpeed_noKeys_between dt s hdt),
   fun dts hdts => abs_le_and_mul_nonneg_of_between s _ (runFrames_noKeys_between dts hdts s)⟩

/-- Witness of C3: coasting from speed `1` for one frame of `1/10` s, and for the
frame sequence `[1/10, 1]`. -/
theorem C3_no_input_speed_decays_witness :
    (0 : ℚ) ≤ 1 / 10 ∧ (∀ dt ∈ [(1 / 10 : ℚ), 1], 0 ≤ dt) ∧
    (|frameSpeed noKeys (1 / 10 : ℚ) 1| ≤ |1| ∧ 0 ≤ frameSpeed noKeys (1 / 10 : ℚ) 1 * 1) ∧
    (|runFrames (1 : ℚ) ([(1 / 10 : ℚ), 1].map fun dt => (noKeys, dt))| ≤ |1| ∧
      0 ≤ runFrames (1 : ℚ) ([(1 / 10 : ℚ), 1].map fun dt => (noKeys, dt)) * 1) :=
  ⟨by norm_num, by intro dt hdt; simp at hdt; rcases hdt with h | h <;> rw [h] <;> norm_num,
   (C3_no_input_speed_decays (1 : ℚ)).1 (1 / 10) (by norm_num),
   (C3_no_input_speed_decays (1 : ℚ)).2 [1 / 10, 1]
     (by intro dt hdt; simp at hdt; rcases hdt with h | h <;> rw [h] <;> norm_num)⟩

/-- Closed form of the friction step for `dt ≥ 0`, and when it leaves a speed unchanged. -/
theorem friction_closed_form (dt c : α) (hdt : 0 ≤ dt) :
    friction dt c =
      (if 0.01 < c then max (c - FRICTION * dt) 0
       else if c < -0.01 then min (c + FRICTION * dt) 0 else 0) ∧
    (friction dt c = c ↔ c = 0 ∨ (0.01 < |c| ∧ dt = 0)) := by
  have hF : (FRICTION : α) = 4 := by unfold FRICTION; norm_num
  rw [hF]
  rcases lt_or_le (0.01 : α) c with h | h
  · have h0 : (0 : α) < c := lt_trans (by norm_num) h
    rw [if_pos h, friction_of_pos dt c h, abs_of_pos h0]
    refine ⟨rfl, ?_⟩
    constructor
    · intro he
      right
      refine ⟨h, ?_⟩
      rcases le_total (c - 4 * dt) 0 with h1 | h1
      · rw [max_eq_right h1] at he
        linarith
      · rw [max_eq_left h1] at he
        linarith
    · rintro (hc | ⟨_, hd⟩)
      · linarith
      · rw [hd, mul_zero, sub_zero, max_eq_left h0.le]
  · rw [if_neg (not_lt.mpr h)]
    rcases lt_or_le c (-0.01 : α) with h2 | h2
    · have h0 : c < 0 := lt_trans h2 (by norm_num)
      rw [if_pos h2, friction_of_neg dt c h2, abs_of_neg h0]
      refine ⟨rfl, ?_⟩
      constructor
      · intro he
        right
        refine ⟨by linarith, ?_⟩
        rcases le_total (c + 4 * dt) 0 with h1 | h1
        · rw [min_eq_left h1] at he
          linarith
        · rw [min_eq_right h1] at he
          linarith
      · rintro (hc | ⟨_, hd⟩)
        · linarith
        · rw [hd, mul_zero, add_zero, min_eq_left h0.le]
    · have habs : |c| ≤ (0.01 : α) := abs_le.mpr ⟨h2, h⟩
      rw [if_neg (not_lt.mpr h2), friction_of_small dt c habs]
      refine ⟨rfl, ?_⟩
      constructor
      · intro he
        exact Or.inl he.symm
      · rintro (hc | ⟨hc, _⟩)
        · exact hc.symm
        · exact absurd hc (not_lt.mpr habs)

/-- C4 as stated fails: from rest, one frame of 1 s with forward held leaves
`processInput` with speed 10, and the friction step of the same frame lowers it to 6. -/
theorem C4_friction_applies_with_forward_held :
    forwardOnly.forward = true ∧ (0 : ℚ) ≤ 1 ∧
    processInputSpeed forwardOnly (1 : ℚ) 0 = 10 ∧
    frameSpeed forwardOnly (1 : ℚ) 0 = 6 ∧
    frameSpeed forwardOnly (1 : ℚ) 0 ≠ processInputSpeed forwardOnly (1 : ℚ) 0 := by
  have h1 : processInputSpeed forwardOnly (1 : ℚ) 0 = 10 := by
    norm_num [processInputSpeed, clampSpeed, accelerate, forwardOnly, MAX_SPEED, ACCELERATION]
  have h2 : frameSpeed forwardOnly (1 : ℚ) 0 = 6 := by
    unfold frameSpeed
    rw [h1]
    norm_num [friction, FRICTION]
  refine ⟨rfl, by norm_num, h1, h2, ?_⟩
  rw [h1, h2]
  norm_num

/-- C4 (amended): the friction step runs in every frame, also when the forward or the
backward key is held.  For every speed, every key combination and `dt ≥ 0`, the speed
at the end of the frame is the friction step applied to the clamped speed `c` that
`processInput` produced: `max (c - FRICTION*dt) 0` if `c > 0.01`,
`min (c + FRICTION*dt) 0` if `c < -0.01`, and `0` otherwise.  It equals `c` exactly
when `c = 0`, or `dt = 0` and `|c| > 0.01`. -/
theorem C4_friction_every_frame (k : Keys) (dt s : α) (hdt : 0 ≤ dt) :
    frameSpeed k dt s =
      (if 0.01 < processInputSpeed k dt s then max (processInputSpeed k dt s - FRICTION * dt) 0
       else if processInputSpeed k dt s < -0.01 then
         min (processInputSpeed k dt s + FRICTION * dt) 0
       else 0) ∧
    (frameSpeed k dt s = processInputSpeed k dt s ↔
      processInputSpeed k dt s = 0 ∨ (0.01 < |processInputSpeed k dt s| ∧ dt = 0)) :=
  friction_closed_form dt (processInputSpeed k dt s) hdt

/-- Witness of C4 (amended): braking from speed 5 for half a second. -/
theorem C4_friction_every_frame_witness :
    (0 : ℚ) ≤ 1 / 2 ∧
    (frameSpeed ⟨false, true, false, false⟩ (1 / 2 : ℚ) 5 =
      (if 0.01 < processInputSpeed ⟨false, true, false, false⟩ (1 / 2 : ℚ) 5 then
         max (processInputSpeed ⟨false, true, false, false⟩ (1 / 2 : ℚ) 5 - FRICTION * (1 / 2)) 0
       else if processInputSpeed ⟨false, true, false, false⟩ (1 / 2 : ℚ) 5 < -0.01 then
         min (processInputSpeed ⟨false, true, false, false⟩ (1 / 2 : ℚ) 5 + FRICTION * (1 / 2)) 0
       else 0) ∧
     (frameSpeed ⟨false, true, false, false⟩ (1 / 2 : ℚ) 5 =
        processInputSpeed ⟨false, true, false, false⟩ (1 / 2 : ℚ) 5 ↔
      processInputSpeed ⟨false, true, false, false⟩ (1 / 2 : ℚ) 5 = 0 ∨
        (0.01 < |processInputSpeed ⟨false, true, false, false⟩ (1 / 2 : ℚ) 5| ∧
          (1 / 2 : ℚ) = 0))) :=
  ⟨by norm_num,
   C4_friction_every_frame ⟨false, true, false, false⟩ (1 / 2) 5 (by norm_num)⟩

end Driving

namespace Combat

variable {α : Type} [LinearOrderedField α]

/-! ## Combat demo -/

theorem Vec3.add_def (u v : Vec3 α) : u + v = ⟨u.x + v.x, u.y + v.y, u.z + v.z⟩ := rfl

theorem Vec3.sub_def (u v : Vec3 α) : u - v = ⟨u.x - v.x, u.y - v.y, u.z - v.z⟩ := rfl

theorem Vec3.scale_def (v : Vec3 α) (c : α) : v * c = ⟨v.x * c, v.y * c, v.z * c⟩ := rfl

/-- Over the reals, `lengthLt v r` is the comparison of the Euclidean length with `r`. -/
theorem lengthLt_iff_sqrt_lt (v : Vec3 ℝ) (r : ℝ) :
    lengthLt v r ↔ Real.sqrt v.normSq < r := by
  unfold lengthLt
  constructor
  · rintro ⟨hr, h⟩
    rw [Real.sqrt_lt' hr, sq]
    exact h
  · intro h
    have hr : 0 < r := lt_of_le_of_lt (Real.sqrt_nonneg _) h
    refine ⟨hr, ?_⟩
    rw [Real.sqrt_lt' hr, sq] at h
    exact h

theorem removeFirstHit_length (b : Bullet α) (ts ts1 : List (Target α))
    (h : removeFirstHit b ts = some ts1) : ts1.length + 1 = ts.length := by
  induction ts generalizing ts1 with
  | nil => simp [removeFirstHit] at h
  | cons t ts ih =>
    unfold removeFirstHit at h
    split_ifs at h with hh
    · cases h
      rfl
    · cases hr : removeFirstHit b ts with
      | none => rw [hr] at h; simp at h
      | some r =>
        rw [hr] at h
        simp only [Option.map_some', Option.some.injEq] at h
        subst h
        simp only [List.length_cons]
        rw [ih r hr]

/-- The inner loop, started at index `j` with enough budget, removes the first target
at or after `j` that is within hit distance, together with the bullet. -/
theorem scanTargets_eq (bullets : List (Bullet α)) (i : Nat) (hi : i < bullets.length)
    (targets : List (Target α)) (fuel j : Nat) (hj : j ≤ targets.length)
    (hfuel : targets.length + 1 ≤ fuel + j) :
    scanTargets bullets i hi targets fuel j =
      some (match removeFirstHit (bullets.get ⟨i, hi⟩) (targets.drop j) with
        | some r => (bullets.eraseIdx i, targets.take j ++ r, true)
        | none => (bullets, targets, false)) := by
  induction fuel generalizing j with
  | zero => omega
  | succ fuel ih =>
    unfold scanTargets
    by_cases hlt : j < targets.length
    · rw [dif_pos hlt]
      have hd : targets.drop j = targets.get ⟨j, hlt⟩ :: targets.drop (j + 1) := by
        rw [List.get_eq_getElem]
        exact List.drop_eq_getElem_cons hlt
      by_cases hh : hit (bullets.get ⟨i, hi⟩) (targets.get ⟨j, hlt⟩)
      · rw [if_pos hh, hd]
        simp only [removeFirstHit, if_pos hh]
        rw [List.eraseIdx_eq_take_drop_succ targets j]
      · rw [if_neg hh, ih (j + 1) hlt (by omega), hd]
        simp only [removeFirstHit, if_neg hh]
        cases hr : removeFirstHit (bullets.get ⟨i, hi⟩) (targets.drop (j + 1)) with
        | none => simp
        | some r =>
          simp only [Option.map_some']
          have ht : targets.take (j + 1) = targets.take j ++ [targets.get ⟨j, hlt⟩] := by
            rw [List.take_succ, List.getElem?_eq_getElem hlt, List.get_eq_getElem]
            rfl
          rw [ht, List.append_assoc]
          rfl
    · rw [dif_neg hlt]
      have hj2 : targets.length ≤ j := Nat.le_of_not_lt hlt
      rw [List.drop_of_length_le hj2]
      simp [removeFirstHit]

/-- The index loops of the collision pass compute `collisionSpec` on the bullets from
index `i` on, and leave the bullets before `i` alone, whenever the budget is at least
`(bullets.length - i) + targets.length + 2`. -/
theorem collisionLoop_eq_spec (fuel : Nat) (bullets : List (Bullet α))
    (targets : List (Target α)) (i : Nat) (hi : i ≤ bullets.length)
    (hfuel : (bullets.length - i) + targets.length + 2 ≤ fuel) :
    collisionLoop fuel bullets targets i =
      some (bullets.take i ++ (collisionSpec (bullets.drop i) targets).1,
        (collisionSpec (bullets.drop i) targets).2) := by
  induction fuel generalizing bullets targets i with
  | zero => omega
  | succ fuel ih =>
    unfold collisionLoop
    by_cases hlt : i < bullets.length
    · rw [dif_pos hlt, scanTargets_eq bullets i hlt targets fuel 0 (Nat.zero_le _) (by omega)]
      have hd : bullets.drop i = bullets.get ⟨i, hlt⟩ :: bullets.drop (i + 1) := by
        rw [List.get_eq_getElem]
        exact List.drop_eq_getElem_cons hlt
      rw [hd, List.drop_zero, List.take_zero]
      cases hr : removeFirstHit (bullets.get ⟨i, hlt⟩) targets with
      | some r =>
        have hlen := removeFirstHit_length _ _ _ hr
        have hel : (bullets.eraseIdx i).length = bullets.length - 1 :=
          List.length_eraseIdx_of_lt hlt
        simp only [collisionSpec, hr, List.nil_append, Bool.not_true, Bool.false_eq_true,
          if_false]
        rw [ih (bullets.eraseIdx i) r i (by omega) (by omega)]
        have h1 : (bullets.eraseIdx i).take i = bullets.take i := by
          rw [List.eraseIdx_eq_take_drop_succ bullets i, List.take_append_of_le_length
            (by rw [List.length_take]; omega), List.take_take, Nat.min_self]
        have h2 : (bullets.eraseIdx i).drop i = bullets.drop (i + 1) := by
          rw [List.eraseIdx_eq_take_drop_succ bullets i]
          have hl : (bullets.take i).length = i := by rw [List.length_take]; omega
          have hdl := List.drop_left (bullets.take i) (bullets.drop (i + 1))
          rw [hl] at hdl
          exact hdl
        rw [h1, h2]
      | none =>
        simp only [collisionSpec, hr, Bool.not_false, if_true]
        rw [ih bullets targets (i + 1) hlt (by omega)]
        have ht : bullets.take (i + 1) = bullets.take i ++ [bullets.get ⟨i, hlt⟩] := by
          rw [List.take_succ, List.getElem?_eq_getElem hlt, List.get_eq_getElem]
          rfl
        rw [ht, List.append_assoc]
        rfl
    · rw [dif_neg hlt]
      have hi2 : bullets.length ≤ i := Nat.le_of_not_lt hlt
      rw [List.drop_of_length_le hi2, List.take_of_length_le hi2]
      simp [collisionSpec]

/-- The collision pass terminates and computes `collisionSpec`. -/
theorem collisionPass_eq_spec (bullets : List (Bullet α)) (targets : List (Target α)) :
    collisionPass bullets targets = some (collisionSpec bullets targets) := by
  unfold collisionPass
  rw [collisionLoop_eq_spec _ bullets targets 0 (Nat.zero_le _) (by omega)]
  simp

theorem removeFirstHit_none (b : Bullet α) (ts : List (Target α))
    (h : removeFirstHit b ts = none) : ∀ t ∈ ts, ¬ hit b t := by
  induction ts with
  | nil => intro t ht; simp at ht
  | cons t0 ts ih =>
    unfold removeFirstHit at h
    split_ifs at h with hh
    intro t ht
    rcases List.mem_cons.mp ht with h1 | h1
    · rw [h1]; exact hh
    · cases hr : removeFirstHit b ts with
      | none => exact ih hr t h1
      | some r => rw [hr] at h; simp at h

theorem removeFirstHit_some (b : Bullet α) (ts r : List (Target α))
    (h : removeFirstHit b ts = some r) :
    ∃ pre t post, ts = pre ++ t :: post ∧ (∀ u ∈ pre, ¬ hit b u) ∧ hit b t ∧
      r = pre ++ post := by
  induction ts generalizing r with
  | nil => simp [removeFirstHit] at h
  | cons t0 ts ih =>
    unfold removeFirstHit at h
    split_ifs at h with hh
    · cases h
      exact ⟨[], t0, ts, rfl, by simp, hh, rfl⟩
    · cases hr : removeFirstHit b ts with
      | none => rw [hr] at h; simp at h
      | some r1 =>
        rw [hr] at h
        simp only [Option.map_some', Option.some.injEq] at h
        obtain ⟨pre, t, post, h1, h2, h3, h4⟩ := ih r1 hr
        refine ⟨t0 :: pre, t, post, by rw [h1]; rfl, ?_, h3, by rw [← h, h4]; rfl⟩
        intro u hu
        rcases List.mem_cons.mp hu with h5 | h5
        · rw [h5]; exact hh
        · exact h2 u h5

theorem removeFirstHit_sublist (b : Bullet α) (ts r : List (Target α))
    (h : removeFirstHit b ts = some r) : r.Sublist ts := by
  obtain ⟨pre, t, post, h1, _, _, h4⟩ := removeFirstHit_some b ts r h
  rw [h1, h4]
  exact List.Sublist.append_left (List.sublist_cons_self t post) pre

theorem collisionSpec_sublist (bs : List (Bullet α)) (ts : List (Target α)) :
    (collisionSpec bs ts).1.Sublist bs ∧ (collisionSpec bs ts).2.Sublist ts := by
  induction bs generalizing ts with
  | nil => simp [collisionSpec]
  | cons b bs ih =>
    cases hr : removeFirstHit b ts with
    | some r =>
      simp only [collisionSpec, hr]
      exact ⟨(ih r).1.trans (List.sublist_cons_self b bs),
        (ih r).2.trans (removeFirstHit_sublist b ts r hr)⟩
    | none =>
      simp only [collisionSpec, hr]
      exact ⟨(ih ts).1.cons₂ b, (ih ts).2⟩

theorem collisionSpec_no_hit (bs : List (Bullet α)) (ts : List (Target α)) :
    ∀ b ∈ (collisionSpec bs ts).1, ∀ t ∈ (collisionSpec bs ts).2, ¬ hit b t := by
  induction bs generalizing ts with
  | nil => intro b hb; simp [collisionSpec] at hb
  | cons b0 bs ih =>
    cases hr : removeFirstHit b0 ts with
    | some r =>
      simp only [collisionSpec, hr]
      exact ih r
    | none =>
      simp only [collisionSpec, hr]
      intro b hb t ht
      rcases List.mem_cons.mp hb with h1 | h1
      · rw [h1]
        exact removeFirstHit_none b0 ts hr t ((collisionSpec_sublist bs ts).2.subset ht)
      · exact ih ts b h1 t ht

theorem collisionSpec_count (bs : List (Bullet α)) (ts : List (Target α)) :
    (collisionSpec bs ts).1.length + ts.length = bs.length + (collisionSpec bs ts).2.length := by
  induction bs generalizing ts with
  | nil => simp [collisionSpec]
  | cons b bs ih =>
    cases hr : removeFirstHit b ts with
    | some r =>
      simp only [collisionSpec, hr, List.length_cons]
      have := ih r
      have := removeFirstHit_length b ts r hr
      omega
    | none =>
      simp only [collisionSpec, hr, List.length_cons]
      have := ih ts
      omega

/-- One bullet and two targets, both within hit distance: the first target goes with
the bullet, the second stays. -/
theorem collisionPass_two_targets (b : Bullet α) (t1 t2 : Target α)
    (h1 : hit b t1) (_h2 : hit b t2) : collisionPass [b] [t1, t2] = some ([], [t2]) := by
  rw [collisionPass_eq_spec]
  simp [collisionSpec, removeFirstHit, h1]

/-- The hit test spelled out: the squared distance from the bullet to the target
centre is below `HIT_DISTANCE²`. -/
theorem hit_iff (b : Bullet α) (t : Target α) :
    hit b t ↔
      (b.position - (t.position + (⟨0, 0.75, 0⟩ : Vec3 α))).normSq
        < HIT_DISTANCE * HIT_DISTANCE := by
  unfold hit lengthLt
  have h : (0 : α) < HIT_DISTANCE := by unfold HIT_DISTANCE; norm_num
  have h0 : (0.0 : α) = 0 := by norm_num
  rw [h0]
  exact ⟨fun hh => hh.2, fun hh => ⟨h, hh⟩⟩

theorem sampleBullet_hits_nearTarget1 : hit sampleBullet nearTarget1 := by
  rw [hit_iff]
  norm_num [sampleBullet, nearTarget1, HIT_DISTANCE, Vec3.normSq, Vec3.sub_def, Vec3.add_def]

theorem sampleBullet_hits_nearTarget2 : hit sampleBullet nearTarget2 := by
  rw [hit_iff]
  norm_num [sampleBullet, nearTarget2, HIT_DISTANCE, Vec3.normSq, Vec3.sub_def, Vec3.add_def]

theorem nearTarget1_ne_nearTarget2 : nearTarget1 ≠ nearTarget2 := by
  intro h
  have hx : nearTarget1.position.x = nearTarget2.position.x := by rw [h]
  norm_num [nearTarget1, nearTarget2] at hx

/-! ### Claims C5 to C7 -/

/-- C5: the collision pass is, for every bullet list and target list, the pass in
which each bullet in turn removes at most one target, namely the first one in the
current target order whose centre (`position + (0, 0.75, 0)`) is at distance strictly
below `HIT_DISTANCE = 0.3` from the bullet (together with the bullet itself), and a
bullet with no such target stays.  In particular, with one bullet and two targets both
within hit distance, the pass ends with no bullets and exactly the second target. -/
theorem C5_bullet_removes_first_target_in_range (bullets : List (Bullet α))
    (targets : List (Target α)) :
    collisionPass bullets targets = some (collisionSpec bullets targets) ∧
    (∀ (b : Bullet α) (ts : List (Target α)),
      (removeFirstHit b ts = none ∧ ∀ t ∈ ts, ¬ hit b t) ∨
      ∃ pre t post, ts = pre ++ t :: post ∧ (∀ u ∈ pre, ¬ hit b u) ∧ hit b t ∧
        removeFirstHit b ts = some (pre ++ post)) ∧
    (∀ (b : Bullet α) (t : Target α), hit b t ↔
      (b.position - (t.position + (⟨0, 0.75, 0⟩ : Vec3 α))).normSq < 0.3 * 0.3) ∧
    (∀ (b : Bullet α) (t1 t2 : Target α), hit b t1 → hit b t2 →
      collisionPass [b] [t1, t2] = some ([], [t2])) := by
  refine ⟨collisionPass_eq_spec bullets targets, ?_, ?_, collisionPass_two_targets⟩
  · intro b ts
    cases hr : removeFirstHit b ts with
    | none => exact Or.inl ⟨rfl, removeFirstHit_none b ts hr⟩
    | some r =>
      obtain ⟨pre, t, post, h1, h2, h3, h4⟩ := removeFirstHit_some b ts r hr
      exact Or.inr ⟨pre, t, post, h1, h2, h3, by rw [h4]⟩
  · intro b t
    have h := hit_iff b t
    unfold HIT_DISTANCE at h
    exact h

/-- Witness of C5: `sampleBullet` with `nearTarget1` and `nearTarget2`. -/
theorem C5_bullet_removes_first_target_in_range_witness :
    hit sampleBullet nearTarget1 ∧ hit sampleBullet nearTarget2 ∧
    collisionPass [sampleBullet] [nearTarget1, nearTarget2] = some ([], [nearTarget2]) :=
  ⟨sampleBullet_hits_nearTarget1, sampleBullet_hits_nearTarget2,
   (C5_bullet_removes_first_target_in_range [sampleBullet] [nearTarget1, nearTarget2]).2.2.2
     sampleBullet nearTarget1 nearTarget2
     sampleBullet_hits_nearTarget1 sampleBullet_hits_nearTarget2⟩

/-- C6 as stated fails: `nearTarget2` is in the list when the pass starts and within
hit distance of `sampleBullet`, and it is still in the list when the pass ends, because
the bullet was removed together with `nearTarget1`. -/
theorem C6_target_in_range_survives :
    sampleBullet ∈ [sampleBullet] ∧ nearTarget2 ∈ [nearTarget1, nearTarget2] ∧
    nearTarget1 ≠ nearTarget2 ∧ hit sampleBullet nearTarget2 ∧
    ∃ r, collisionPass [sampleBullet] [nearTarget1, nearTarget2] = some r ∧
      ¬ (sampleBullet ∉ r.1 ∧ nearTarget2 ∉ r.2) := by
  refine ⟨List.mem_singleton_self _, by simp, nearTarget1_ne_nearTarget2,
    sampleBullet_hits_nearTarget2, ([], [nearTarget2]),
    collisionPass_two_targets _ _ _ sampleBullet_hits_nearTarget1
      sampleBullet_hits_nearTarget2, ?_⟩
  intro h
  exact h.2 (List.mem_singleton_self _)

/-- The defining equation of `removeFirstHit` on a non-empty list. -/
theorem removeFirstHit_cons (b : Bullet α) (t : Target α) (ts : List (Target α)) :
    removeFirstHit b (t :: ts) =
      if hit b t then some ts else (removeFirstHit b ts).map (t :: ·) := rfl

/-- A target within hit distance that follows only targets out of hit distance is the
one `removeFirstHit` removes. -/
theorem removeFirstHit_append_hit (b : Bullet α) (pre : List (Target α)) (t : Target α)
    (post : List (Target α)) (hpre : ∀ u ∈ pre, ¬ hit b u) (ht : hit b t) :
    removeFirstHit b (pre ++ t :: post) = some (pre ++ post) := by
  induction pre with
  | nil => rw [List.nil_append, removeFirstHit_cons, if_pos ht, List.nil_append]
  | cons u rest ih =>
    have hu : ¬ hit b u := hpre u (List.mem_cons_self _ _)
    have ih2 := ih (fun v hv => hpre v (List.mem_cons_of_mem _ hv))
    rw [List.cons_append, removeFirstHit_cons, if_neg hu, ih2]
    rfl

/-- A target out of hit distance of a bullet stays in place when that bullet removes
its first hit, and what is before and after it only shrinks. -/
theorem removeFirstHit_keeps_unhit (b0 : Bullet α) (tpre : List (Target α)) (t : Target α)
    (tpost r : List (Target α)) (h : ¬ hit b0 t)
    (hr : removeFirstHit b0 (tpre ++ t :: tpost) = some r) :
    ∃ p q, r = p ++ t :: q ∧ p.Sublist tpre ∧ q.Sublist tpost := by
  induction tpre generalizing r with
  | nil =>
    rw [List.nil_append, removeFirstHit_cons, if_neg h] at hr
    cases hq : removeFirstHit b0 tpost with
    | none => rw [hq] at hr; simp at hr
    | some q =>
      rw [hq] at hr
      simp only [Option.map_some', Option.some.injEq] at hr
      exact ⟨[], q, by rw [← hr]; rfl, List.Sublist.refl _, removeFirstHit_sublist b0 tpost q hq⟩
  | cons u rest ih =>
    rw [List.cons_append, removeFirstHit_cons] at hr
    by_cases hu : hit b0 u
    · rw [if_pos hu] at hr
      simp only [Option.some.injEq] at hr
      exact ⟨rest, tpost, hr.symm, List.sublist_cons_self u rest, List.Sublist.refl _⟩
    · rw [if_neg hu] at hr
      cases hq : removeFirstHit b0 (rest ++ t :: tpost) with
      | none => rw [hq] at hr; simp at hr
      | some r1 =>
        rw [hq] at hr
        simp only [Option.map_some', Option.some.injEq] at hr
        obtain ⟨p, q, e, hp, hq2⟩ := ih r1 hq
        exact ⟨u :: p, q, by rw [← hr, e]; rfl, hp.cons₂ u, hq2⟩

/-- The matched pair: when no bullet before `b` is within hit distance of `t` and no
target before `t` is within hit distance of `b`, the pass removes this bullet and this
target. -/
theorem collisionSpec_matched_pair (b : Bullet α) (t : Target α) (bpost : List (Bullet α))
    (hbt : hit b t) (bpre : List (Bullet α)) (tpre tpost : List (Target α))
    (hb : ∀ b' ∈ bpre, ¬ hit b' t) (ht : ∀ t' ∈ tpre, ¬ hit b t') :
    (collisionSpec (bpre ++ b :: bpost) (tpre ++ t :: tpost)).1.Sublist (bpre ++ bpost) ∧
    (collisionSpec (bpre ++ b :: bpost) (tpre ++ t :: tpost)).2.Sublist (tpre ++ tpost) := by
  induction bpre generalizing tpre tpost with
  | nil =>
    simp only [List.nil_append, collisionSpec, removeFirstHit_append_hit b tpre t tpost ht hbt]
    exact collisionSpec_sublist bpost (tpre ++ tpost)
  | cons b0 rest ih =>
    have h0 : ¬ hit b0 t := hb b0 (List.mem_cons_self _ _)
    have hrest : ∀ b' ∈ rest, ¬ hit b' t := fun b' h => hb b' (List.mem_cons_of_mem _ h)
    cases hr : removeFirstHit b0 (tpre ++ t :: tpost) with
    | none =>
      simp only [List.cons_append, collisionSpec, hr]
      obtain ⟨i1, i2⟩ := ih tpre tpost hrest ht
      exact ⟨i1.cons₂ b0, i2⟩
    | some r =>
      obtain ⟨p, q, e, hp, hq⟩ := removeFirstHit_keeps_unhit b0 tpre t tpost r h0 hr
      simp only [List.cons_append, collisionSpec, hr]
      rw [e]
      obtain ⟨i1, i2⟩ := ih p q hrest (fun t' h => ht t' (hp.subset h))
      exact ⟨i1.trans (List.sublist_cons_self b0 _), i2.trans (List.Sublist.append hp hq)⟩

/-- A target other than the removed one is still there after `removeFirstHit`. -/
theorem mem_of_removeFirstHit (b0 : Bullet α) (ts r : List (Target α)) (t : Target α)
    (hr : removeFirstHit b0 ts = some r) (ht : t ∈ ts) (hnot : ¬ hit b0 t) : t ∈ r := by
  obtain ⟨pre, u, post, e1, _, hu, e4⟩ := removeFirstHit_some b0 ts r hr
  rw [e4]
  rw [e1] at ht
  rcases List.mem_append.mp ht with h | h
  · exact List.mem_append_left _ h
  · rcases List.mem_cons.mp h with h | h
    · rw [h] at hnot
      exact absurd hu hnot
    · exact List.mem_append_right _ h

/-- In a duplicate-free bullet list, a bullet that is the only one within hit distance of
a target of the list is removed by the pass. -/
theorem collisionSpec_only_bullet_removed (b : Bullet α) (t : Target α) (hbt : hit b t)
    (bs : List (Bullet α)) :
    ∀ ts : List (Target α), bs.Nodup → b ∈ bs → t ∈ ts →
      (∀ b' ∈ bs, hit b' t → b' = b) → b ∉ (collisionSpec bs ts).1 := by
  induction bs with
  | nil =>
    intro ts _ hb
    simp at hb
  | cons b0 rest ih =>
    intro ts hnd hb ht huniq
    obtain ⟨h0, hrest⟩ := List.nodup_cons.mp hnd
    by_cases hb0 : b0 = b
    · rw [hb0] at h0 ⊢
      cases hr : removeFirstHit b ts with
      | none => exact absurd hbt (removeFirstHit_none b ts hr t ht)
      | some r =>
        simp only [collisionSpec, hr]
        intro hmem
        exact h0 ((collisionSpec_sublist rest r).1.subset hmem)
    · have hbr : b ∈ rest := by
        rcases List.mem_cons.mp hb with h | h
        · exact absurd h.symm hb0
        · exact h
      have hu : ∀ b' ∈ rest, hit b' t → b' = b :=
        fun b' h => huniq b' (List.mem_cons_of_mem _ h)
      have hnot : ¬ hit b0 t := fun h => hb0 (huniq b0 (List.mem_cons_self _ _) h)
      cases hr : removeFirstHit b0 ts with
      | none =>
        simp only [collisionSpec, hr]
        intro hmem
        rcases List.mem_cons.mp hmem with h | h
        · exact hb0 h.symm
        · exact ih ts hrest hbr ht hu h
      | some r =>
        simp only [collisionSpec, hr]
        exact ih r hrest hbr (mem_of_removeFirstHit b0 ts r t hr ht hnot) hu

/-- In a duplicate-free target list, a target that is the only one within hit distance of
a bullet of the list is removed by the pass. -/
theorem collisionSpec_only_target_removed (b : Bullet α) (t : Target α) (hbt : hit b t)
    (bs : List (Bullet α)) :
    ∀ ts : List (Target α), ts.Nodup → b ∈ bs → t ∈ ts →
      (∀ t' ∈ ts, hit b t' → t' = t) → t ∉ (collisionSpec bs ts).2 := by
  induction bs with
  | nil =>
    intro ts _ hb
    simp at hb
  | cons b0 rest ih =>
    intro ts hnd hb ht huniq
    cases hr : removeFirstHit b0 ts with
    | none =>
      have hb0 : b ≠ b0 := by
        intro h
        rw [← h] at hr
        exact removeFirstHit_none b ts hr t ht hbt
      have hbr : b ∈ rest := by
        rcases List.mem_cons.mp hb with h | h
        · exact absurd h hb0
        · exact h
      simp only [collisionSpec, hr]
      exact ih ts hnd hbr ht huniq
    | some r =>
      have hsub : r.Sublist ts := removeFirstHit_sublist b0 ts r hr
      simp only [collisionSpec, hr]
      by_cases hh : hit b0 t
      · by_cases hb0 : b = b0
        · obtain ⟨pre, u, post, e1, _, hu, e4⟩ := removeFirstHit_some b0 ts r hr
          have hut : u = t := huniq u (by rw [e1]; simp) (by rw [hb0]; exact hu)
          have htr : t ∉ r := by
            rw [e1, hut] at hnd
            rw [e4]
            exact (List.nodup_cons.mp (List.nodup_middle.mp hnd)).1
          intro hmem
          exact htr ((collisionSpec_sublist rest r).2.subset hmem)
        · have hbr : b ∈ rest := by
            rcases List.mem_cons.mp hb with h | h
            · exact absurd h hb0
            · exact h
          by_cases htr : t ∈ r
          · exact ih r (hnd.sublist hsub) hbr htr (fun t' h => huniq t' (hsub.subset h))
          · intro hmem
            exact htr ((collisionSpec_sublist rest r).2.subset hmem)
      · have hb0 : b ≠ b0 := by
          intro h
          rw [h] at hbt
          exact hh hbt
        have hbr : b ∈ rest := by
          rcases List.mem_cons.mp hb with h | h
          · exact absurd h hb0
          · exact h
        exact ih r (hnd.sublist hsub) hbr (mem_of_removeFirstHit b0 ts r t hr ht hh)
          (fun t' h => huniq t' (hsub.subset h))

/-- C6 (amended): for every bullet `b` and every target `t` that are in the lists when
the pass starts with `distance(b.position, t.position + (0, 0.75, 0)) < HIT_DISTANCE`, the
pass ends and at least one of `b` and `t` is absent from the lists when it ends; both
are absent when the pair is the matched one, that is when no bullet before `b` is within
hit distance of `t` and no target before `t` is within hit distance of `b` (the pass then
removes this bullet and this target); and, in duplicate-free lists, `b` is absent
whenever no other bullet is within hit distance of `t`, and `t` is absent whenever no
other target is within hit distance of `b`. -/
theorem C6_matched_pair_removed (bullets : List (Bullet α)) (targets : List (Target α)) :
    ∃ r, collisionPass bullets targets = some r ∧
      (∀ b ∈ bullets, ∀ t ∈ targets, hit b t →
        (b ∉ r.1 ∨ t ∉ r.2) ∧
        (bullets.Nodup → (∀ b' ∈ bullets, hit b' t → b' = b) → b ∉ r.1) ∧
        (targets.Nodup → (∀ t' ∈ targets, hit b t' → t' = t) → t ∉ r.2)) ∧
      (∀ (bpre : List (Bullet α)) (b : Bullet α) (bpost : List (Bullet α))
          (tpre : List (Target α)) (t : Target α) (tpost : List (Target α)),
        bullets = bpre ++ b :: bpost → targets = tpre ++ t :: tpost → hit b t →
        (∀ b' ∈ bpre, ¬ hit b' t) → (∀ t' ∈ tpre, ¬ hit b t') →
        r.1.Sublist (bpre ++ bpost) ∧ r.2.Sublist (tpre ++ tpost) ∧
        (bullets.Nodup → b ∉ r.1) ∧ (targets.Nodup → t ∉ r.2)) := by
  refine ⟨collisionSpec bullets targets, collisionPass_eq_spec bullets targets, ?_, ?_⟩
  · intro b hb t ht hbt
    refine ⟨?_, ?_, ?_⟩
    · by_contra hcon
      push_neg at hcon
      exact collisionSpec_no_hit bullets targets b hcon.1 t hcon.2 hbt
    · intro hnd huniq
      exact collisionSpec_only_bullet_removed b t hbt bullets targets hnd hb ht huniq
    · intro hnd huniq
      exact collisionSpec_only_target_removed b t hbt bullets targets hnd hb ht huniq
  · intro bpre b bpost tpre t tpost eb et hbt hb ht
    have hm := collisionSpec_matched_pair b t bpost hbt bpre tpre tpost hb ht
    rw [← eb, ← et] at hm
    refine ⟨hm.1, hm.2, ?_, ?_⟩
    · intro hnd hmem
      rw [eb] at hnd
      exact (List.nodup_cons.mp (List.nodup_middle.mp hnd)).1 (hm.1.subset hmem)
    · intro hnd hmem
      rw [et] at hnd
      exact (List.nodup_cons.mp (List.nodup_middle.mp hnd)).1 (hm.2.subset hmem)

/-- Witness of C6 (amended): `sampleBullet` with `nearTarget1` and `nearTarget2`.  The
pair `(sampleBullet, nearTarget1)` is the matched one and both are removed; for the pair
`(sampleBullet, nearTarget2)` the bullet, the only one in range, is removed. -/
theorem C6_matched_pair_removed_witness :
    ∃ r, collisionPass [sampleBullet] [nearTarget1, nearTarget2] = some r ∧
      (sampleBullet ∉ r.1 ∨ nearTarget2 ∉ r.2) ∧
      sampleBullet ∉ r.1 ∧
      (r.1.Sublist ([] ++ []) ∧ r.2.Sublist ([] ++ [nearTarget2]) ∧
        sampleBullet ∉ r.1 ∧ nearTarget1 ∉ r.2) := by
  have hndb : ([sampleBullet] : List (Bullet ℚ)).Nodup := List.nodup_singleton _
  have hndt : ([nearTarget1, nearTarget2] : List (Target ℚ)).Nodup := by
    simp [nearTarget1_ne_nearTarget2]
  obtain ⟨r, hr, h1, h2⟩ := C6_matched_pair_removed [sampleBullet] [nearTarget1, nearTarget2]
  have ha := h1 sampleBullet (List.mem_singleton_self _) nearTarget2 (by simp)
    sampleBullet_hits_nearTarget2
  have hb := h2 [] sampleBullet [] [] nearTarget1 [nearTarget2] rfl rfl
    sampleBullet_hits_nearTarget1 (by simp) (by simp)
  exact ⟨r, hr, ha.1,
    ha.2.1 hndb (fun b' hb' _ => List.mem_singleton.mp hb'),
    hb.1, hb.2.1, hb.2.2.1 hndb, hb.2.2.2 hndt⟩

/-- C7: for every bullet list and target list the nested collision loop terminates
(for every iteration budget from `bullets.length + targets.length + 2` on, with the same
result); afterwards every surviving bullet is at distance at least `HIT_DISTANCE` from
the centre of every surviving target, the survivors of each list keep their original
relative order, and as many bullets as targets were removed. -/
theorem C7_collision_pass_skips_no_pair (bullets : List (Bullet α))
    (targets : List (Target α)) :
    ∃ bs ts, collisionPass bullets targets = some (bs, ts) ∧
      (∀ fuel, bullets.length + targets.length + 2 ≤ fuel →
        collisionLoop fuel bullets targets 0 = some (bs, ts)) ∧
      (∀ b ∈ bs, ∀ t ∈ ts,
        HIT_DISTANCE * HIT_DISTANCE ≤
          (b.position - (t.position + (⟨0, 0.75, 0⟩ : Vec3 α))).normSq) ∧
      bs.Sublist bullets ∧ ts.Sublist targets ∧
      bullets.length - bs.length = targets.length - ts.length := by
  refine ⟨(collisionSpec bullets targets).1, (collisionSpec bullets targets).2,
    collisionPass_eq_spec bullets targets, ?_, ?_, (collisionSpec_sublist bullets targets).1,
    (collisionSpec_sublist bullets targets).2, ?_⟩
  · intro fuel hfuel
    rw [collisionLoop_eq_spec fuel bullets targets 0 (Nat.zero_le _) (by omega)]
    simp
  · intro b hb t ht
    have h := collisionSpec_no_hit bullets targets b hb t ht
    rw [hit_iff] at h
    exact not_lt.mp h
  · have h := collisionSpec_count bullets targets
    omega

/-- Witness of C7: `sampleBullet` with `nearTarget1` and `nearTarget2`. -/
theorem C7_collision_pass_skips_no_pair_witness :
    ∃ bs ts, collisionPass [sampleBullet] [nearTarget1, nearTarget2] = some (bs, ts) ∧
      (∀ fuel, [sampleBullet].length + [nearTarget1, nearTarget2].length + 2 ≤ fuel →
        collisionLoop fuel [sampleBullet] [nearTarget1, nearTarget2] 0 = some (bs, ts)) ∧
      (∀ b ∈ bs, ∀ t ∈ ts,
        HIT_DISTANCE * HIT_DISTANCE ≤
          (b.position - (t.position + (⟨0, 0.75, 0⟩ : Vec3 ℚ))).normSq) ∧
      bs.Sublist [sampleBullet] ∧ ts.Sublist [nearTarget1, nearTarget2] ∧
      [sampleBullet].length - bs.length = [nearTarget1, nearTarget2].length - ts.length :=
  C7_collision_pass_skips_no_pair [sampleBullet] [nearTarget1, nearTarget2]

/-! ### Bullet update -/

/-- The update loop, started at the end of an already processed prefix, leaves the
prefix alone and computes `updateBulletsSpec` on the rest. -/
theorem updateBulletsLoop_eq (dt : α) (rest pre : List (Bullet α)) (fuel : Nat)
    (hfuel : rest.length + 1 ≤ fuel) :
    updateBulletsLoop dt fuel (pre ++ rest) pre.length = some (pre ++ updateBulletsSpec dt rest) := by
  induction rest generalizing pre fuel with
  | nil =>
    cases fuel with
    | zero => simp at hfuel
    | succ fuel => simp [updateBulletsLoop, updateBulletsSpec]
  | cons b post ih =>
    cases fuel with
    | zero => simp at hfuel
    | succ fuel =>
      have hlt : pre.length < (pre ++ b :: post).length := by simp
      have hget : (pre ++ b :: post).get ⟨pre.length, hlt⟩ = b := by
        rw [List.get_eq_getElem, List.getElem_append_right (le_refl _)]
        simp
      have hset : (pre ++ b :: post).set pre.length (advanceBullet dt b)
          = pre ++ advanceBullet dt b :: post := by simp
      have hera : (pre ++ advanceBullet dt b :: post).eraseIdx pre.length = pre ++ post := by
        rw [List.eraseIdx_append_of_length_le (le_refl _)]
        simp
      have h0 : (0.0 : α) = 0 := by norm_num
      unfold updateBulletsLoop
      rw [dif_pos hlt]
      simp only [hget, hset, hera, h0]
      simp only [List.length_cons] at hfuel
      by_cases hl : (advanceBullet dt b).life ≤ 0
      · rw [if_pos hl, ih pre fuel (by omega)]
        simp [updateBulletsSpec, not_lt.mpr hl]
      · rw [if_neg hl]
        have h2 := ih (pre ++ [advanceBullet dt b]) fuel (by omega)
        simp only [List.length_append, List.length_singleton, List.append_assoc,
          List.singleton_append] at h2
        rw [h2]
        simp [updateBulletsSpec, not_le.mp hl]

/-- For a positive radius, "not closer than `r`" is `r² ≤ normSq`. -/
theorem not_lengthLt_iff (v : Vec3 α) (r : α) (hr : 0 < r) :
    ¬ lengthLt v r ↔ r * r ≤ v.normSq := by
  unfold lengthLt
  constructor
  · intro h
    by_contra hc
    exact h ⟨hr, not_le.mp hc⟩
  · intro h hc
    exact absurd hc.2 (not_lt.mpr h)

/-! ### Target spawn -/

/-- What the rejection loop returns is the first candidate that is not closer than 2.5
to the player; every candidate drawn before it was closer. -/
theorem spawnLoop_some (rand : Nat → Nat) (cp : Vec3 α) (fuel n : Nat) (p : Vec3 α) (m : Nat)
    (h : spawnLoop rand cp fuel n = some (p, m)) :
    ∃ k, k < fuel ∧ m = n + 2 * (k + 1) ∧
      p = spawnCandidate (rand (n + 2 * k)) (rand (n + 2 * k + 1)) ∧
      ¬ lengthLt (p - cp) 2.5 ∧
      ∀ j < k, lengthLt (spawnCandidate (rand (n + 2 * j)) (rand (n + 2 * j + 1)) - cp) 2.5 := by
  induction fuel generalizing n with
  | zero => simp [spawnLoop] at h
  | succ fuel ih =>
    unfold spawnLoop at h
    by_cases hc : lengthLt (spawnCandidate (rand n) (rand (n + 1)) - cp) 2.5
    · rw [if_pos hc] at h
      obtain ⟨k, hk, hm, hp, hacc, hrej⟩ := ih (n + 2) h
      refine ⟨k + 1, by omega, by omega, ?_, hacc, ?_⟩
      · rw [hp]
        have e1 : n + 2 + 2 * k = n + 2 * (k + 1) := by omega
        rw [e1]
      · intro j hj
        cases j with
        | zero => simpa using hc
        | succ j =>
          have e1 : n + 2 * (j + 1) = n + 2 + 2 * j := by omega
          rw [e1]
          exact hrej j (by omega)
    · rw [if_neg hc] at h
      simp only [Option.some.injEq, Prod.mk.injEq] at h
      refine ⟨0, by omega, by omega, ?_, ?_, ?_⟩
      · simpa using h.1.symm
      · rw [← h.1]; exact hc
      · intro j hj
        omega

/-- The rejection loop returns as soon as the budget covers the first acceptable
candidate. -/
theorem spawnLoop_returns (rand : Nat → Nat) (cp : Vec3 α) (k n fuel : Nat) (hk : k < fuel)
    (hacc : ¬ lengthLt (spawnCandidate (rand (n + 2 * k)) (rand (n + 2 * k + 1)) - cp) 2.5) :
    ∃ r, spawnLoop rand cp fuel n = some r := by
  induction k generalizing n fuel with
  | zero =>
    cases fuel with
    | zero => omega
    | succ fuel =>
      unfold spawnLoop
      rw [if_neg (by simpa using hacc)]
      exact ⟨_, rfl⟩
  | succ k ih =>
    cases fuel with
    | zero => omega
    | succ fuel =>
      unfold spawnLoop
      by_cases hc : lengthLt (spawnCandidate (rand n) (rand (n + 1)) - cp) 2.5
      · rw [if_pos hc]
        refine ih (n + 2) fuel (by omega) ?_
        have e1 : n + 2 + 2 * k = n + 2 * (k + 1) := by omega
        rw [e1]
        exact hacc
      · rw [if_neg hc]
        exact ⟨_, rfl⟩

/-! ### Claims C8 to C10 -/

/-- C8: for every bullet list and `dt ≥ 0`, the erase-while-iterating bullet update loop
returns (for every budget from `bullets.length + 1` on) exactly "advance every bullet
(`position + direction * speed * dt`, `life - dt`), then keep those whose new life is
`> 0`, in the original order"; no bullet's life increases, and a bullet is removed if
and only if its decremented life is `≤ 0`. -/
theorem C8_bullet_update_is_advance_then_filter (dt : α) (hdt : 0 ≤ dt)
    (bullets : List (Bullet α)) :
    updateBullets dt bullets =
      some ((bullets.map (advanceBullet dt)).filter (fun b => decide (0 < b.life))) ∧
    (∀ fuel, bullets.length + 1 ≤ fuel →
      updateBulletsLoop dt fuel bullets 0 = updateBullets dt bullets) ∧
    (∀ b : Bullet α,
      advanceBullet dt b =
        ⟨b.position + b.direction * b.speed * dt, b.direction, b.speed, b.life - dt⟩ ∧
      (advanceBullet dt b).life ≤ b.life) ∧
    (∀ r, updateBullets dt bullets = some r →
      (∀ b ∈ bullets, advanceBullet dt b ∉ r ↔ b.life - dt ≤ 0) ∧
      (∀ c ∈ r, ∃ b ∈ bullets, c = advanceBullet dt b) ∧
      r.length = bullets.countP (fun b => decide (¬ b.life - dt ≤ 0))) := by
  have hspec : ∀ fuel, bullets.length + 1 ≤ fuel →
      updateBulletsLoop dt fuel bullets 0 = some (updateBulletsSpec dt bullets) := by
    intro fuel hfuel
    have h := updateBulletsLoop_eq dt bullets [] fuel hfuel
    simpa using h
  have hpass : updateBullets dt bullets = some (updateBulletsSpec dt bullets) :=
    hspec _ (le_refl _)
  refine ⟨hpass, ?_, ?_, ?_⟩
  · intro fuel hfuel
    rw [hpass, hspec fuel hfuel]
  · intro b
    refine ⟨rfl, ?_⟩
    show b.life - dt ≤ b.life
    linarith
  · intro r hr
    rw [hpass] at hr
    cases hr
    refine ⟨?_, ?_, ?_⟩
    · intro b hb
      have hl : (advanceBullet dt b).life = b.life - dt := rfl
      constructor
      · intro hnot
        by_contra hc
        apply hnot
        unfold updateBulletsSpec
        rw [List.mem_filter]
        refine ⟨List.mem_map_of_mem _ hb, ?_⟩
        rw [decide_eq_true_iff, hl]
        exact not_le.mp hc
      · intro hle hmem
        unfold updateBulletsSpec at hmem
        rw [List.mem_filter, decide_eq_true_iff, hl] at hmem
        exact absurd hmem.2 (not_lt.mpr hle)
    · intro c hc
      unfold updateBulletsSpec at hc
      rw [List.mem_filter, List.mem_map] at hc
      obtain ⟨⟨b, hb, hbc⟩, _⟩ := hc
      exact ⟨b, hb, hbc.symm⟩
    · unfold updateBulletsSpec
      rw [← List.countP_eq_length_filter, List.countP_map]
      congr 1
      funext b
      simp only [Function.comp_apply]
      have hl : (advanceBullet dt b).life = b.life - dt := rfl
      rw [hl]
      simp only [not_le]

/-- Witness of C8: a frame of 1/60 s with a fresh bullet and one with 1/100 s left. -/
theorem C8_bullet_update_is_advance_then_filter_witness :
    (0 : ℚ) ≤ 1 / 60 ∧
    updateBullets (1 / 60) [sampleBullet, fadingBullet] =
      some [⟨⟨0, 0.75, 0.25⟩, ⟨0, 0, 1⟩, 15, 179 / 60⟩] := by
  refine ⟨by norm_num, ?_⟩
  rw [(C8_bullet_update_is_advance_then_filter (1 / 60 : ℚ) (by norm_num)
    [sampleBullet, fadingBullet]).1]
  norm_num [advanceBullet, sampleBullet, fadingBullet, List.filter, Vec3.add_def,
    Vec3.scale_def]

/-- C9: with the random source an arbitrary stream of draws, every candidate position
whose distance to the player is below 2.5 is rejected and a new candidate is drawn from
the following draws; whenever the spawn step appends a target, its position `p`
satisfies `distance(p, characterPosition) ≥ 2.5` (it is the first such candidate of the
stream, every earlier one having been closer); and the rejection loop does return
whenever the stream holds a candidate at distance `≥ 2.5` and the budget reaches it. -/
theorem C9_spawn_keeps_distance (rand : Nat → Nat) (characterPosition : Vec3 α)
    (deltaTime : α) (fuel : Nat) (st : SpawnState α) :
    (lengthLt (spawnCandidate (rand st.randCalls) (rand (st.randCalls + 1))
        - characterPosition) 2.5 →
      spawnLoop rand characterPosition (fuel + 1) st.randCalls =
        spawnLoop rand characterPosition fuel (st.randCalls + 2)) ∧
    (∀ st1, spawnStep rand characterPosition deltaTime fuel st = some st1 →
      st1.targets = st.targets ∨
      ∃ p k, st1.targets = st.targets ++ [⟨p, TARGET_SPEED⟩] ∧
        2.5 * 2.5 ≤ (p - characterPosition).normSq ∧
        p = spawnCandidate (rand (st.randCalls + 2 * k)) (rand (st.randCalls + 2 * k + 1)) ∧
        ∀ j < k, (spawnCandidate (rand (st.randCalls + 2 * j)) (rand (st.randCalls + 2 * j + 1))
          - characterPosition).normSq < 2.5 * 2.5) ∧
    (∀ k, k < fuel →
      2.5 * 2.5 ≤ (spawnCandidate (rand (st.randCalls + 2 * k)) (rand (st.randCalls + 2 * k + 1))
        - characterPosition).normSq →
      ∃ st1, spawnStep rand characterPosition deltaTime fuel st = some st1) := by
  have h25 : (0 : α) < 2.5 := by norm_num
  refine ⟨?_, ?_, ?_⟩
  · intro hc
    rw [spawnLoop, if_pos hc]
  · intro st1 h
    unfold spawnStep at h
    split_ifs at h with ht
    · cases hl : spawnLoop rand characterPosition fuel st.randCalls with
      | none => rw [hl] at h; simp at h
      | some r =>
        obtain ⟨p, m⟩ := r
        rw [hl] at h
        simp only [Option.some.injEq] at h
        obtain ⟨k, _, _, hp, hacc, hrej⟩ := spawnLoop_some rand characterPosition fuel _ p m hl
        right
        refine ⟨p, k, by rw [← h], (not_lengthLt_iff _ _ h25).mp hacc, hp, ?_⟩
        intro j hj
        exact (hrej j hj).2
    · simp only [Option.some.injEq] at h
      left
      rw [← h]
  · intro k hk hacc
    unfold spawnStep
    split_ifs with ht
    · obtain ⟨r, hr⟩ := spawnLoop_returns rand characterPosition k st.randCalls fuel hk
        ((not_lengthLt_iff _ _ h25).mpr hacc)
      rw [hr]
      exact ⟨_, rfl⟩
    · exact ⟨_, rfl⟩

/-- The first candidate of `sampleRand` is at distance exactly 2.4 from `samplePlayer`. -/
theorem sampleRand_first_candidate :
    (spawnCandidate (sampleRand 0) (sampleRand 1) - samplePlayer).normSq = 2.4 * 2.4 ∧
    lengthLt (spawnCandidate (sampleRand 0) (sampleRand 1) - samplePlayer) 2.5 := by
  have h : (spawnCandidate (sampleRand 0) (sampleRand 1) - samplePlayer).normSq
      = (2.4 * 2.4 : ℚ) := by
    norm_num [spawnCandidate, sampleRand, samplePlayer, Vec3.sub_def, Vec3.normSq]
  refine ⟨h, by norm_num, ?_⟩
  rw [h]
  norm_num

/-- The spawn step on `sampleRand` with the timer due: two candidates are drawn and
the second one, `(-4, 0.1, -4)`, becomes the new target. -/
theorem sampleRand_spawnStep :
    spawnStep sampleRand samplePlayer 3 2 ⟨0, [], 0⟩ =
      some ⟨0.0, [] ++ [⟨⟨-4, 0.1, -4⟩, TARGET_SPEED⟩], 4⟩ := by
  have h2 : ¬ lengthLt (spawnCandidate (sampleRand 2) (sampleRand (2 + 1)) - samplePlayer)
      (2.5 : ℚ) := by
    rw [not_lengthLt_iff _ _ (by norm_num)]
    norm_num [spawnCandidate, sampleRand, samplePlayer, Vec3.sub_def, Vec3.normSq]
  have hc : spawnCandidate (sampleRand 2) (sampleRand (2 + 1)) = (⟨-4, 0.1, -4⟩ : Vec3 ℚ) := by
    norm_num [spawnCandidate, sampleRand]
  have hl : spawnLoop sampleRand samplePlayer 2 0 = some (⟨-4, 0.1, -4⟩, 4) := by
    rw [spawnLoop, if_pos sampleRand_first_candidate.2, spawnLoop, if_neg h2, hc]
  have ht : (0 : ℚ) + 3 ≥ SPAWN_INTERVAL := by norm_num [SPAWN_INTERVAL]
  unfold spawnStep
  rw [if_pos ht]
  simp only [hl]

/-- Witness of C9: a first candidate at distance 2.4 from the player is rejected, the
next candidate `(-4, 0.1, -4)` is drawn and spawned. -/
theorem C9_spawn_keeps_distance_witness :
    lengthLt (spawnCandidate (sampleRand 0) (sampleRand 1) - samplePlayer) 2.5 ∧
    (spawnCandidate (sampleRand 0) (sampleRand 1) - samplePlayer).normSq = 2.4 * 2.4 ∧
    spawnLoop sampleRand samplePlayer (1 + 1) 0 = spawnLoop sampleRand samplePlayer 1 (0 + 2) ∧
    spawnStep sampleRand samplePlayer 3 2 ⟨0, [], 0⟩ =
      some ⟨0.0, [] ++ [⟨⟨-4, 0.1, -4⟩, TARGET_SPEED⟩], 4⟩ ∧
    (([] ++ [⟨⟨-4, 0.1, -4⟩, TARGET_SPEED⟩] : List (Target ℚ)) = [] ∨
      ∃ p k, ([] ++ [⟨⟨-4, 0.1, -4⟩, TARGET_SPEED⟩] : List (Target ℚ))
          = [] ++ [⟨p, TARGET_SPEED⟩] ∧
        2.5 * 2.5 ≤ (p - samplePlayer).normSq ∧
        p = spawnCandidate (sampleRand (0 + 2 * k)) (sampleRand (0 + 2 * k + 1)) ∧
        ∀ j < k, (spawnCandidate (sampleRand (0 + 2 * j)) (sampleRand (0 + 2 * j + 1))
          - samplePlayer).normSq < 2.5 * 2.5) :=
  ⟨sampleRand_first_candidate.2, sampleRand_first_candidate.1,
   (C9_spawn_keeps_distance sampleRand samplePlayer 3 1 ⟨0, [], 0⟩).1
     sampleRand_first_candidate.2,
   sampleRand_spawnStep,
   (C9_spawn_keeps_distance sampleRand samplePlayer 3 2 ⟨0, [], 0⟩).2.1 _ sampleRand_spawnStep⟩

/-- C10: for every prior state (any previous pitch, also outside the range, any
previous cursor position, first call or not) and every new cursor position,
`cameraPitch` lies in `[-45, 45]` after `mouse_callback` returns. -/
theorem C10_mouse_callback_pitch_clamped (st : MouseState α) (xpos ypos : α) :
    -45 ≤ (mouse_callback st xpos ypos).cameraPitch ∧
    (mouse_callback st xpos ypos).cameraPitch ≤ 45 := by
  simp only [mouse_callback]
  norm_num
  split_ifs <;> constructor <;> norm_num at * <;> linarith

end Combat

namespace Driving

variable {α : Type} [LinearOrderedField α]

/-! ## Driving demo: heading, steering and position -/

/-- The speed left by the full `processInput` is `processInputSpeed`. -/
theorem processInput_carSpeed (G : Combat.Glm α) (k : Keys) (dt : α) (st : DrivingState α) :
    (processInput G k dt st).carSpeed = processInputSpeed k dt st.carSpeed := rfl

/-- The speed at the end of `frame` is `frameSpeed`. -/
theorem frame_carSpeed (G : Combat.Glm α) (k : Keys) (dt : α) (st : DrivingState α) :
    (frame G k dt st).carSpeed = frameSpeed k dt st.carSpeed := rfl

/-- The heading at the end of `frame` is the one `processInput` left. -/
theorem frame_carRotation (G : Combat.Glm α) (k : Keys) (dt : α) (st : DrivingState α) :
    (frame G k dt st).carRotation = (processInput G k dt st).carRotation := rfl

theorem steerDirection_eq (k : Keys) :
    (steerDirection k : α) = if k.right then -1 else if k.left then 1 else 0 := by
  unfold steerDirection
  norm_num

theorem processInput_carRotation (G : Combat.Glm α) (k : Keys) (dt : α) (st : DrivingState α) :
    (processInput G k dt st).carRotation =
      if |processInputSpeed k dt st.carSpeed| > 0.01 then
        st.carRotation + 90 * (processInputSpeed k dt st.carSpeed / 15) * steerDirection k * dt
      else st.carRotation + 90 * 0.6 * steerDirection k * dt := by
  simp only [processInput, processInputSpeed, TURN_SPEED, MAX_SPEED]
  norm_num

/-! ### Claims C13 to C16 -/

/-- C13 as stated fails: with heading and camera yaw both 0, a cursor movement of 10
pixels turns the camera yaw to 1 and leaves the heading at 0, and the frame that
follows does not bring them together. -/
theorem C13_heading_not_locked_to_yaw :
    (restingCar : DrivingState ℝ).carRotation = (restingCar : DrivingState ℝ).cameraYaw ∧
    (mouse_callback ⟨Real.sin, Real.cos, Real.sqrt, fun d => d * (Real.pi / 180)⟩
      (restingCar : DrivingState ℝ) 10).cameraYaw = 1 ∧
    (mouse_callback ⟨Real.sin, Real.cos, Real.sqrt, fun d => d * (Real.pi / 180)⟩
      (restingCar : DrivingState ℝ) 10).carRotation = 0 ∧
    (frame ⟨Real.sin, Real.cos, Real.sqrt, fun d => d * (Real.pi / 180)⟩ noKeys (1 / 60)
      (mouse_callback ⟨Real.sin, Real.cos, Real.sqrt, fun d => d * (Real.pi / 180)⟩
        (restingCar : DrivingState ℝ) 10)).carRotation ≠
    (frame ⟨Real.sin, Real.cos, Real.sqrt, fun d => d * (Real.pi / 180)⟩ noKeys (1 / 60)
      (mouse_callback ⟨Real.sin, Real.cos, Real.sqrt, fun d => d * (Real.pi / 180)⟩
        (restingCar : DrivingState ℝ) 10)).cameraYaw := by
  refine ⟨rfl, ?_, rfl, ?_⟩
  · norm_num [mouse_callback, restingCar]
  · have h1 : (frame ⟨Real.sin, Real.cos, Real.sqrt, fun d => d * (Real.pi / 180)⟩ noKeys
        (1 / 60) (mouse_callback ⟨Real.sin, Real.cos, Real.sqrt, fun d => d * (Real.pi / 180)⟩
          (restingCar : DrivingState ℝ) 10)).cameraYaw = 1 := by
      norm_num [frame, followCamera, processInput, mouse_callback, restingCar]
    have h2 : (frame ⟨Real.sin, Real.cos, Real.sqrt, fun d => d * (Real.pi / 180)⟩ noKeys
        (1 / 60) (mouse_callback ⟨Real.sin, Real.cos, Real.sqrt, fun d => d * (Real.pi / 180)⟩
          (restingCar : DrivingState ℝ) 10)).carRotation = 0 := by
      rw [frame_carRotation, processInput_carRotation, steerDirection_eq]
      norm_num [noKeys, mouse_callback, restingCar]
    rw [h1, h2]
    norm_num

/-- C13 (amended): the vehicle heading is not tied to the camera yaw.  A pointer-motion
update adds `0.1 * (xpos - lastX)` to `camera.Yaw` and leaves `carRotation` unchanged;
`processInput` and the rest of the frame leave `camera.Yaw` unchanged, and the heading
after a frame is the one `processInput` computed from the steering keys. -/
theorem C13_heading_independent_of_yaw (G : Combat.Glm α) (k : Keys) (dt xposIn : α)
    (st : DrivingState α) :
    (mouse_callback G st xposIn).carRotation = st.carRotation ∧
    (mouse_callback G st xposIn).cameraYaw =
      st.cameraYaw + (xposIn - (if st.firstMouse then xposIn else st.lastX)) * 0.1 ∧
    (processInput G k dt st).cameraYaw = st.cameraYaw ∧
    (frame G k dt st).cameraYaw = st.cameraYaw ∧
    (frame G k dt st).carRotation =
      (if |processInputSpeed k dt st.carSpeed| > 0.01 then
        st.carRotation + 90 * (processInputSpeed k dt st.carSpeed / 15) * steerDirection k * dt
      else st.carRotation + 90 * 0.6 * steerDirection k * dt) :=
  ⟨rfl, rfl, rfl, rfl, (frame_carRotation G k dt st).trans (processInput_carRotation G k dt st)⟩

/-- C14: for every speed `s` and frame time `dt`, the speed `processInput` leaves
(before friction) is `clamp(s + ACCELERATION*dt)` if forward is held (also when backward
is held too); otherwise, if backward is held, `clamp(s - BRAKE*dt)` when `s > 0` and
`clamp(s - ACCELERATION*dt)` when `s ≤ 0`; otherwise `clamp(s)`; where `clamp` is to
`[-7.5, 15]`, `ACCELERATION = 10` and `BRAKE = 12`. -/
theorem C14_acceleration_rule (G : Combat.Glm α) (k : Keys) (dt : α) (st : DrivingState α) :
    (processInput G k dt st).carSpeed =
      (if k.forward then max (-7.5) (min (st.carSpeed + ACCELERATION * dt) 15)
       else if k.backward then
         if st.carSpeed > 0 then max (-7.5) (min (st.carSpeed - BRAKE * dt) 15)
         else max (-7.5) (min (st.carSpeed - ACCELERATION * dt) 15)
       else max (-7.5) (min st.carSpeed 15)) ∧
    (ACCELERATION : α) = 10 ∧ (BRAKE : α) = 12 := by
  have h75 : (-7.5 : α) = -(15 / 2) := by norm_num
  have h0 : (0.0 : α) = 0 := by norm_num
  refine ⟨?_, by unfold ACCELERATION; norm_num, by unfold BRAKE; norm_num⟩
  show clampSpeed (accelerate k dt st.carSpeed) = _
  rw [clampSpeed_eq, h75]
  unfold accelerate
  rw [h0]
  split_ifs <;> rfl

/-- C15: with `s'` the speed after the acceleration and clamp steps and `steer = -1` if
right is held, `+1` if only left is held, `0` if neither, `processInput` sets
`heading' = heading + 90*(s'/15)*steer*dt` when `|s'| > 0.01` and
`heading' = heading + 90*0.6*steer*dt` otherwise.  The heading is unchanged whenever no
steering key is held, and for `dt > 0` and a steering key held, a frame with
`s' < -0.01` turns the heading the opposite way to a frame with `s' > 0.01`. -/
theorem C15_steering_rule (G : Combat.Glm α) (k : Keys) (dt : α) (st : DrivingState α) :
    (processInput G k dt st).carRotation =
      (if |(processInput G k dt st).carSpeed| > 0.01 then
        st.carRotation + 90 * ((processInput G k dt st).carSpeed / 15)
          * (if k.right then -1 else if k.left then 1 else 0) * dt
      else
        st.carRotation + 90 * 0.6 * (if k.right then -1 else if k.left then 1 else 0) * dt) ∧
    (k.left = false → k.right = false → (processInput G k dt st).carRotation = st.carRotation) ∧
    (∀ st2 : DrivingState α, 0 < dt → (k.left = true ∨ k.right = true) →
      0.01 < (processInput G k dt st).carSpeed →
      (processInput G k dt st2).carSpeed < -0.01 →
      ((processInput G k dt st).carRotation - st.carRotation) *
        ((processInput G k dt st2).carRotation - st2.carRotation) < 0) := by
  have hrot : ∀ s : DrivingState α, (processInput G k dt s).carRotation =
      (if |(processInput G k dt s).carSpeed| > 0.01 then
        s.carRotation + 90 * ((processInput G k dt s).carSpeed / 15)
          * (if k.right then -1 else if k.left then 1 else 0) * dt
      else
        s.carRotation + 90 * 0.6 * (if k.right then -1 else if k.left then 1 else 0) * dt) := by
    intro s
    rw [processInput_carRotation, processInput_carSpeed, steerDirection_eq]
  refine ⟨hrot st, ?_, ?_⟩
  · intro hl hr
    rw [hrot st, hl, hr]
    simp
  · intro st2 hdt hkey hpos hneg
    have e1 := hrot st
    have e2 := hrot st2
    have p1 : (0 : α) < (processInput G k dt st).carSpeed := lt_trans (by norm_num) hpos
    have n2 : (processInput G k dt st2).carSpeed < 0 := lt_trans hneg (by norm_num)
    have a1 : |(processInput G k dt st).carSpeed| > 0.01 := by rwa [abs_of_pos p1]
    have a2 : |(processInput G k dt st2).carSpeed| > 0.01 := by
      rw [abs_of_neg n2]
      linarith
    rw [if_pos a1] at e1
    rw [if_pos a2] at e2
    rw [e1, e2]
    have hsq : (if k.right then (-1 : α) else if k.left then 1 else 0)
        * (if k.right then (-1 : α) else if k.left then 1 else 0) = 1 := by
      rcases hkey with h | h
      · by_cases hr : k.right = true
        · simp [hr]
        · simp [hr, h]
      · simp [h]
    have hprod : (processInput G k dt st).carSpeed * (processInput G k dt st2).carSpeed < 0 :=
      mul_neg_of_pos_of_neg p1 n2
    have key : (st.carRotation + 90 * ((processInput G k dt st).carSpeed / 15)
          * (if k.right then -1 else if k.left then 1 else 0) * dt - st.carRotation) *
        (st2.carRotation + 90 * ((processInput G k dt st2).carSpeed / 15)
          * (if k.right then -1 else if k.left then 1 else 0) * dt - st2.carRotation)
        = 36 * (dt * dt) * ((if k.right then (-1 : α) else if k.left then 1 else 0)
          * (if k.right then (-1 : α) else if k.left then 1 else 0))
          * ((processInput G k dt st).carSpeed * (processInput G k dt st2).carSpeed) := by
      ring
    rw [key, hsq]
    have hdt2 : 0 < dt * dt := mul_pos hdt hdt
    nlinarith

theorem processInputSpeed_leftOnly_cruising :
    processInputSpeed leftOnly (1 : ℝ) (cruisingCar : DrivingState ℝ).carSpeed = 5 := by
  norm_num [processInputSpeed, clampSpeed, accelerate, leftOnly, MAX_SPEED, cruisingCar,
    restingCar]

theorem processInputSpeed_leftOnly_reversing :
    processInputSpeed leftOnly (1 : ℝ) (reversingCar : DrivingState ℝ).carSpeed = -5 := by
  norm_num [processInputSpeed, clampSpeed, accelerate, leftOnly, MAX_SPEED, reversingCar,
    restingCar]

/-- Witness of C15: with only left held for one second, the car cruising at speed 5 and
the car reversing at speed 5 turn opposite ways; with no key held the heading stays. -/
theorem C15_steering_rule_witness :
    (noKeys.left = false ∧ noKeys.right = false ∧
      (processInput ⟨Real.sin, Real.cos, Real.sqrt, fun d => d * (Real.pi / 180)⟩ noKeys 1
        (cruisingCar : DrivingState ℝ)).carRotation = (cruisingCar : DrivingState ℝ).carRotation) ∧
    ((0 : ℝ) < 1 ∧ (leftOnly.left = true ∨ leftOnly.right = true) ∧
      0.01 < (processInput ⟨Real.sin, Real.cos, Real.sqrt, fun d => d * (Real.pi / 180)⟩
        leftOnly 1 (cruisingCar : DrivingState ℝ)).carSpeed ∧
      (processInput ⟨Real.sin, Real.cos, Real.sqrt, fun d => d * (Real.pi / 180)⟩
        leftOnly 1 (reversingCar : DrivingState ℝ)).carSpeed < -0.01 ∧
      ((processInput ⟨Real.sin, Real.cos, Real.sqrt, fun d => d * (Real.pi / 180)⟩
          leftOnly 1 (cruisingCar : DrivingState ℝ)).carRotation
          - (cruisingCar : DrivingState ℝ).carRotation) *
        ((processInput ⟨Real.sin, Real.cos, Real.sqrt, fun d => d * (Real.pi / 180)⟩
          leftOnly 1 (reversingCar : DrivingState ℝ)).carRotation
          - (reversingCar : DrivingState ℝ).carRotation) < 0) := by
  have hp : (0.01 : ℝ) < (processInput ⟨Real.sin, Real.cos, Real.sqrt,
      fun d => d * (Real.pi / 180)⟩ leftOnly 1 (cruisingCar : DrivingState ℝ)).carSpeed := by
    rw [processInput_carSpeed, processInputSpeed_leftOnly_cruising]
    norm_num
  have hn : (processInput ⟨Real.sin, Real.cos, Real.sqrt,
      fun d => d * (Real.pi / 180)⟩ leftOnly 1 (reversingCar : DrivingState ℝ)).carSpeed
      < -0.01 := by
    rw [processInput_carSpeed, processInputSpeed_leftOnly_reversing]
    norm_num
  exact ⟨⟨rfl, rfl, (C15_steering_rule _ noKeys 1 cruisingCar).2.1 rfl rfl⟩,
    by norm_num, Or.inl rfl, hp, hn,
    (C15_steering_rule _ leftOnly 1 cruisingCar).2.2 reversingCar (by norm_num) (Or.inl rfl)
      hp hn⟩

/-- C16: for every state and input, `processInput` sets `(x, z)` to the componentwise
clamp to `[-500, 500]` of `(x, z) + (sin h', cos h') * s' * dt`, where `h'` is the
already-updated heading (converted from degrees to radians) and `s'` the
already-updated speed, and leaves `y` unchanged; so after every update `|x| ≤ 500` and
`|z| ≤ 500`. -/
theorem C16_position_update (G : Combat.Glm α) (k : Keys) (dt : α) (st : DrivingState α) :
    (processInput G k dt st).carPosition.x =
      min (max (st.carPosition.x +
        G.sin (G.radians (processInput G k dt st).carRotation)
          * (processInput G k dt st).carSpeed * dt) (-500)) 500 ∧
    (processInput G k dt st).carPosition.z =
      min (max (st.carPosition.z +
        G.cos (G.radians (processInput G k dt st).carRotation)
          * (processInput G k dt st).carSpeed * dt) (-500)) 500 ∧
    (processInput G k dt st).carPosition.y = st.carPosition.y ∧
    |(processInput G k dt st).carPosition.x| ≤ 500 ∧
    |(processInput G k dt st).carPosition.z| ≤ 500 := by
  have h500 : (500.0 : α) = 500 := by norm_num
  have hx : (processInput G k dt st).carPosition.x =
      min (max (st.carPosition.x +
        G.sin (G.radians (processInput G k dt st).carRotation)
          * (processInput G k dt st).carSpeed * dt) (-500)) 500 := by
    simp only [processInput, Combat.glmClamp, Combat.Vec3.add_def, Combat.Vec3.scale_def, h500]
  have hz : (processInput G k dt st).carPosition.z =
      min (max (st.carPosition.z +
        G.cos (G.radians (processInput G k dt st).carRotation)
          * (processInput G k dt st).carSpeed * dt) (-500)) 500 := by
    simp only [processInput, Combat.glmClamp, Combat.Vec3.add_def, Combat.Vec3.scale_def, h500]
  have hy : (processInput G k dt st).carPosition.y = st.carPosition.y := by
    simp only [processInput, Combat.Vec3.add_def, Combat.Vec3.scale_def]
    norm_num
  have hb : ∀ t : α, |min (max t (-500)) 500| ≤ 500 := by
    intro t
    rw [abs_le]
    exact ⟨le_min (le_max_right _ _) (by norm_num), min_le_right _ _⟩
  refine ⟨hx, hz, hy, ?_, ?_⟩
  · rw [hx]
    exact hb _
  · rw [hz]
    exact hb _

end Driving

namespace Combat

variable {α : Type} [LinearOrderedField α]

/-! ## Combat demo: math library laws -/

/-- The real functions satisfy the laws of `Glm.Lawful`. -/
theorem real_glm_lawful :
    Glm.Lawful (⟨Real.sin, Real.cos, Real.sqrt, fun d => d * (Real.pi / 180)⟩ : Glm ℝ) where
  sin_sq_add_cos_sq := by
    intro x
    have h := Real.sin_sq_add_cos_sq x
    simp only
    nlinarith [h]
  sqrt_nonneg := fun x => Real.sqrt_nonneg x
  sqrt_mul_self := fun x hx => Real.mul_self_sqrt hx

theorem Glm.Lawful.sqrt_eq_of_mul_self (G : Glm α) (hG : G.Lawful) (x y : α) (hy : 0 ≤ y)
    (h : y * y = x) : G.sqrt x = y := by
  have hx : 0 ≤ x := by rw [← h]; exact mul_self_nonneg y
  have h1 := hG.sqrt_mul_self x hx
  have h2 := hG.sqrt_nonneg x
  have h3 : (G.sqrt x - y) * (G.sqrt x + y) = 0 := by
    have : (G.sqrt x - y) * (G.sqrt x + y) = G.sqrt x * G.sqrt x - y * y := by ring
    rw [this, h1, h]
    ring
  rcases mul_eq_zero.mp h3 with h4 | h4
  · linarith
  · have h5 : G.sqrt x = 0 := by linarith
    have h6 : y = 0 := by linarith
    rw [h5, h6]

theorem Glm.Lawful.sqrt_one (G : Glm α) (hG : G.Lawful) : G.sqrt 1 = 1 :=
  hG.sqrt_eq_of_mul_self G 1 1 zero_le_one (one_mul 1)

theorem Glm.Lawful.sqrt_zero (G : Glm α) (hG : G.Lawful) : G.sqrt 0 = 0 :=
  hG.sqrt_eq_of_mul_self G 0 0 (le_refl 0) (zero_mul 0)

theorem Glm.Lawful.sqrt_mul_self_eq_abs (G : Glm α) (hG : G.Lawful) (x : α) :
    G.sqrt (x * x) = |x| :=
  hG.sqrt_eq_of_mul_self G (x * x) |x| (abs_nonneg x) (abs_mul_abs_self x)

theorem Glm.Lawful.sqrt_pos (G : Glm α) (hG : G.Lawful) (x : α) (hx : 0 < x) : 0 < G.sqrt x := by
  rcases lt_or_eq_of_le (hG.sqrt_nonneg x) with h | h
  · exact h
  · have h1 := hG.sqrt_mul_self x hx.le
    rw [← h] at h1
    linarith

/-- A square root is at least 1 as soon as its argument is. -/
theorem Glm.Lawful.one_le_sqrt (G : Glm α) (hG : G.Lawful) (x : α) (hx : 1 ≤ x) :
    1 ≤ G.sqrt x := by
  by_contra hc
  have h0 := hG.sqrt_nonneg x
  have h1 := hG.sqrt_mul_self x (le_trans zero_le_one hx)
  have h2 : G.sqrt x < 1 := not_le.mp hc
  nlinarith

/-- Two vectors are equal exactly when their three components are. -/
theorem Vec3.ext_iff3 {β : Type} (u v : Vec3 β) :
    u = v ↔ u.x = v.x ∧ u.y = v.y ∧ u.z = v.z := by
  cases u
  cases v
  simp

/-- Normalising a vector of length 1 leaves it unchanged. -/
theorem Glm.Lawful.normalize_unit (G : Glm α) (hG : G.Lawful) (v : Vec3 α)
    (hv : v.normSq = 1) : G.normalize v = v := by
  unfold Glm.normalize
  rw [hv, hG.sqrt_one, Vec3.scale_def, Vec3.ext_iff3]
  simp

/-- A normalised non-zero vector has length 1. -/
theorem Glm.Lawful.normSq_normalize (G : Glm α) (hG : G.Lawful) (v : Vec3 α)
    (hv : 0 < v.normSq) : (G.normalize v).normSq = 1 := by
  have hs := hG.sqrt_pos G v.normSq hv
  have hm := hG.sqrt_mul_self v.normSq hv.le
  unfold Glm.normalize
  rw [Vec3.scale_def]
  have e : (Vec3.mk (v.x * (1 / G.sqrt v.normSq)) (v.y * (1 / G.sqrt v.normSq))
      (v.z * (1 / G.sqrt v.normSq))).normSq
      = v.normSq / (G.sqrt v.normSq * G.sqrt v.normSq) := by
    simp only [Vec3.normSq]
    field_simp
  rw [e, hm]
  exact div_self (ne_of_gt hv)

/-! ## Combat demo: shooting, camera, animation -/

theorem processInput_bullets (G : Glm α) (k : PlayerKeys) (dt : α) (st : CombatState α) :
    (processInput G k dt st).bullets =
      if (k.j || k.mouseLeft) && !st.shootPressedLastFrame then
        st.bullets ++ [newBullet G (movePlayer G st.cameraYaw k dt st.characterPosition)
          st.cameraFront]
      else st.bullets := rfl

theorem processInput_shootPressedLastFrame (G : Glm α) (k : PlayerKeys) (dt : α)
    (st : CombatState α) :
    (processInput G k dt st).shootPressedLastFrame = (k.j || k.mouseLeft) := rfl

/-- Over a sequence of frames, `processInput` adds as many bullets as the shoot input
has rising edges. -/
theorem runProcessInput_bullets_length (G : Glm α) (frames : List (PlayerKeys × α))
    (st : CombatState α) :
    (runProcessInput G frames st).bullets.length =
      st.bullets.length +
        risingEdges st.shootPressedLastFrame (frames.map fun f => f.1.j || f.1.mouseLeft) := by
  induction frames generalizing st with
  | nil => simp [runProcessInput, risingEdges]
  | cons f rest ih =>
    have h := ih (processInput G f.1 f.2 st)
    simp only [runProcessInput, List.foldl_cons, List.map_cons, risingEdges] at h ⊢
    rw [h, processInput_bullets, processInput_shootPressedLastFrame]
    by_cases hc : ((f.1.j || f.1.mouseLeft) && !st.shootPressedLastFrame) = true
    · rw [if_pos hc, if_pos hc, List.length_append, List.length_singleton]
      omega
    · rw [if_neg hc, if_neg hc]
      omega

/-- While the shoot input stays held there is no further rising edge. -/
theorem risingEdges_replicate_true (n : Nat) :
    risingEdges true (List.replicate n true) = 0 := by
  induction n with
  | zero => rfl
  | succ n ih => simp [List.replicate_succ, risingEdges, ih]

/-! ### Claims C11, C19 and C20 -/

/-- C11: shooting is edge-triggered.  In every frame `processInput` appends exactly one
bullet if the shoot input (J key or left mouse button) is held and was not held in the
previous frame, and leaves the bullets unchanged otherwise, and it records the input
for the next frame; over any sequence of frames the number of bullets added is the
number of such rising edges; so holding the input continuously for `n ≥ 1` frames
creates exactly one bullet. -/
theorem C11_shooting_edge_triggered (G : Glm α) (st : CombatState α) :
    (∀ (k : PlayerKeys) (dt : α),
      ((k.j || k.mouseLeft) = true → st.shootPressedLastFrame = false →
        (processInput G k dt st).bullets =
          st.bullets ++ [newBullet G (processInput G k dt st).characterPosition st.cameraFront]) ∧
      (¬ ((k.j || k.mouseLeft) = true ∧ st.shootPressedLastFrame = false) →
        (processInput G k dt st).bullets = st.bullets) ∧
      (processInput G k dt st).shootPressedLastFrame = (k.j || k.mouseLeft)) ∧
    (∀ frames : List (PlayerKeys × α),
      (runProcessInput G frames st).bullets.length =
        st.bullets.length +
          risingEdges st.shootPressedLastFrame (frames.map fun f => f.1.j || f.1.mouseLeft)) ∧
    (∀ (n : Nat) (frames : List (PlayerKeys × α)), 1 ≤ n → frames.length = n →
      (∀ f ∈ frames, (f.1.j || f.1.mouseLeft) = true) → st.shootPressedLastFrame = false →
      (runProcessInput G frames st).bullets.length = st.bullets.length + 1) := by
  refine ⟨?_, fun frames => runProcessInput_bullets_length G frames st, ?_⟩
  · intro k dt
    refine ⟨?_, ?_, rfl⟩
    · intro hs hl
      rw [processInput_bullets, hs, hl]
      rfl
    · intro hn
      rw [processInput_bullets]
      by_cases hs : (k.j || k.mouseLeft) = true
      · have hl : st.shootPressedLastFrame = true := by
          by_contra hc
          exact hn ⟨hs, by simpa using hc⟩
        rw [hs, hl]
        rfl
      · have hs2 : (k.j || k.mouseLeft) = false := by simpa using hs
        rw [hs2]
        rfl
  · intro n frames hn hlen hall hlast
    rw [runProcessInput_bullets_length, hlast]
    have hmap : (frames.map fun f => f.1.j || f.1.mouseLeft) = List.replicate n true := by
      rw [List.eq_replicate_iff]
      refine ⟨by rw [List.length_map, hlen], ?_⟩
      intro b hb
      obtain ⟨f, hf, hfb⟩ := List.mem_map.mp hb
      rw [← hfb]
      exact hall f hf
    rw [hmap]
    obtain ⟨m, rfl⟩ : ∃ m, n = m + 1 := ⟨n - 1, by omega⟩
    simp [List.replicate_succ, risingEdges, risingEdges_replicate_true]

/-- Witness of C11: from the initial state, `J` held for three frames of 1/60 s. -/
theorem C11_shooting_edge_triggered_witness :
    (1 ≤ 3 ∧ (List.replicate 3 (shootOnly, (1 / 60 : ℝ))).length = 3 ∧
      (∀ f ∈ List.replicate 3 (shootOnly, (1 / 60 : ℝ)), (f.1.j || f.1.mouseLeft) = true) ∧
      (idlePlayer : CombatState ℝ).shootPressedLastFrame = false) ∧
    (runProcessInput ⟨Real.sin, Real.cos, Real.sqrt, fun d => d * (Real.pi / 180)⟩
      (List.replicate 3 (shootOnly, (1 / 60 : ℝ))) idlePlayer).bullets.length
      = (idlePlayer : CombatState ℝ).bullets.length + 1 := by
  have hall : ∀ f ∈ List.replicate 3 (shootOnly, (1 / 60 : ℝ)),
      (f.1.j || f.1.mouseLeft) = true := by
    intro f hf
    rw [List.eq_of_mem_replicate hf]
    rfl
  exact ⟨⟨by norm_num, by simp, hall, rfl⟩,
    (C11_shooting_edge_triggered _ idlePlayer).2.2 3 _ (by norm_num) (by simp) hall rfl⟩

/-- The square of a sine is at most 1. -/
theorem Glm.Lawful.neg_one_le_sin (G : Glm α) (hG : G.Lawful) (x : α) : -1 ≤ G.sin x := by
  have h := hG.sin_sq_add_cos_sq x
  nlinarith [mul_self_nonneg (G.cos x), mul_self_nonneg (G.sin x + 1)]

/-- C19: for every player position, yaw and pitch, `updateCamera` sets
`camera.Position - characterPosition =
 (D*sin(yaw)*cos(pitch), H + D*sin(pitch), D*cos(yaw)*cos(pitch))` with
`D = CAMERA_DISTANCE = 3` and `H = CAMERA_HEIGHT = 1.5` (angles converted from degrees to
radians); consequently the camera lies at distance exactly `D` from the point
`characterPosition + (0, H, 0)`. -/
theorem C19_orbit_camera_offset (G : Glm α) (hG : G.Lawful) (st : CombatState α) :
    (updateCamera G st).cameraPosition - st.characterPosition =
      ⟨3 * G.sin (G.radians st.cameraYaw) * G.cos (G.radians st.cameraPitch),
       1.5 + 3 * G.sin (G.radians st.cameraPitch),
       3 * G.cos (G.radians st.cameraYaw) * G.cos (G.radians st.cameraPitch)⟩ ∧
    (CAMERA_DISTANCE : α) = 3 ∧ (CAMERA_HEIGHT : α) = 1.5 ∧
    G.length ((updateCamera G st).cameraPosition
      - (st.characterPosition + (⟨0, CAMERA_HEIGHT, 0⟩ : Vec3 α))) = CAMERA_DISTANCE := by
  have hD : (CAMERA_DISTANCE : α) = 3 := by unfold CAMERA_DISTANCE; norm_num
  have hH : (CAMERA_HEIGHT : α) = 1.5 := by unfold CAMERA_HEIGHT; norm_num
  refine ⟨?_, hD, hH, ?_⟩
  · simp only [updateCamera, Vec3.add_def, Vec3.sub_def, hD, hH, Vec3.ext_iff3]
    refine ⟨by ring, by ring, by ring⟩
  · have hy := hG.sin_sq_add_cos_sq (G.radians st.cameraYaw)
    have hp := hG.sin_sq_add_cos_sq (G.radians st.cameraPitch)
    have hn : ((updateCamera G st).cameraPosition
        - (st.characterPosition + (⟨0, CAMERA_HEIGHT, 0⟩ : Vec3 α))).normSq = 3 * 3 := by
      simp only [updateCamera, Vec3.add_def, Vec3.sub_def, Vec3.normSq, hD, hH]
      have e : (st.characterPosition.x
            + 3 * G.sin (G.radians st.cameraYaw) * G.cos (G.radians st.cameraPitch)
            - (st.characterPosition.x + 0)) *
          (st.characterPosition.x
            + 3 * G.sin (G.radians st.cameraYaw) * G.cos (G.radians st.cameraPitch)
            - (st.characterPosition.x + 0)) +
          (st.characterPosition.y + (1.5 + 3 * G.sin (G.radians st.cameraPitch))
            - (st.characterPosition.y + 1.5)) *
          (st.characterPosition.y + (1.5 + 3 * G.sin (G.radians st.cameraPitch))
            - (st.characterPosition.y + 1.5)) +
          (st.characterPosition.z
            + 3 * G.cos (G.radians st.cameraYaw) * G.cos (G.radians st.cameraPitch)
            - (st.characterPosition.z + 0)) *
          (st.characterPosition.z
            + 3 * G.cos (G.radians st.cameraYaw) * G.cos (G.radians st.cameraPitch)
            - (st.characterPosition.z + 0))
          = 9 * ((G.sin (G.radians st.cameraYaw) * G.sin (G.radians st.cameraYaw)
              + G.cos (G.radians st.cameraYaw) * G.cos (G.radians st.cameraYaw))
              * (G.cos (G.radians st.cameraPitch) * G.cos (G.radians st.cameraPitch))
            + G.sin (G.radians st.cameraPitch) * G.sin (G.radians st.cameraPitch)) := by
        ring
      rw [e, hy, one_mul, add_comm, hp]
      norm_num
    unfold Glm.length
    rw [hn, hG.sqrt_mul_self_eq_abs G 3, hD]
    norm_num

/-- Witness of C19: the real math library and the initial state of the program. -/
theorem C19_orbit_camera_offset_witness :
    Glm.Lawful (⟨Real.sin, Real.cos, Real.sqrt, fun d => d * (Real.pi / 180)⟩ : Glm ℝ) ∧
    Glm.length ⟨Real.sin, Real.cos, Real.sqrt, fun d => d * (Real.pi / 180)⟩
      ((updateCamera ⟨Real.sin, Real.cos, Real.sqrt, fun d => d * (Real.pi / 180)⟩
          (idlePlayer : CombatState ℝ)).cameraPosition
        - ((idlePlayer : CombatState ℝ).characterPosition + (⟨0, CAMERA_HEIGHT, 0⟩ : Vec3 ℝ)))
      = CAMERA_DISTANCE :=
  ⟨real_glm_lawful, (C19_orbit_camera_offset _ real_glm_lawful idlePlayer).2.2.2⟩

/-- The squared length of `moveDir`: opposing keys cancel, and `camForward` and
`camRight` are orthogonal unit vectors. -/
theorem moveDir_normSq (G : Glm α) (hG : G.Lawful) (yaw : α) (k : PlayerKeys) :
    (moveDir G yaw k).normSq =
      ((if k.w then 1 else 0) - (if k.s then 1 else 0))
        * ((if k.w then 1 else 0) - (if k.s then 1 else 0))
      + ((if k.d then 1 else 0) - (if k.a then 1 else 0))
        * ((if k.d then 1 else 0) - (if k.a then 1 else 0)) := by
  have h := hG.sin_sq_add_cos_sq (G.radians yaw)
  have h0 : (0.0 : α) = 0 := by norm_num
  have hcf : G.normalize ⟨-G.sin (G.radians yaw), 0, -G.cos (G.radians yaw)⟩
      = ⟨-G.sin (G.radians yaw), 0, -G.cos (G.radians yaw)⟩ := by
    apply hG.normalize_unit
    simp only [Vec3.normSq]
    linear_combination h
  have hcr : G.normalize ⟨G.cos (G.radians yaw), 0, -G.sin (G.radians yaw)⟩
      = ⟨G.cos (G.radians yaw), 0, -G.sin (G.radians yaw)⟩ := by
    apply hG.normalize_unit
    simp only [Vec3.normSq]
    linear_combination h
  obtain ⟨w, s, a, d, j, m⟩ := k
  simp only [moveDir, h0, hcf, hcr]
  cases w <;> cases s <;> cases a <;> cases d <;>
    simp only [Vec3.add_def, Vec3.sub_def, Vec3.normSq, if_true, if_false, Bool.false_eq_true] <;>
    first
    | linear_combination (0 : α) * h
    | linear_combination h
    | linear_combination 2 * h

/-- The squared length of `moveDir` is 0 when the held keys cancel and at least 1
otherwise. -/
theorem key_sum_cases (w s a d : Bool) :
    (w = s ∧ a = d →
      (((if w then 1 else 0) - (if s then 1 else 0))
        * ((if w then 1 else 0) - (if s then 1 else 0))
      + ((if d then 1 else 0) - (if a then 1 else 0))
        * ((if d then 1 else 0) - (if a then 1 else 0)) : α) = 0) ∧
    (¬ (w = s ∧ a = d) →
      (1 : α) ≤ ((if w then 1 else 0) - (if s then 1 else 0))
        * ((if w then 1 else 0) - (if s then 1 else 0))
      + ((if d then 1 else 0) - (if a then 1 else 0))
        * ((if d then 1 else 0) - (if a then 1 else 0))) := by
  cases w <;> cases s <;> cases a <;> cases d <;> norm_num

/-- The player moves exactly when the held keys do not cancel. -/
theorem moving_iff (G : Glm α) (hG : G.Lawful) (yaw : α) (k : PlayerKeys) :
    moving G yaw k = true ↔ ¬ (k.w = k.s ∧ k.a = k.d) := by
  unfold moving Glm.length
  rw [decide_eq_true_iff, moveDir_normSq G hG yaw k]
  have hk := @key_sum_cases α _ k.w k.s k.a k.d
  by_cases hc : k.w = k.s ∧ k.a = k.d
  · rw [hk.1 hc, hG.sqrt_zero]
    constructor
    · intro h
      norm_num at h
    · intro h
      exact absurd hc h
  · have h1 := hG.one_le_sqrt G _ (hk.2 hc)
    constructor
    · intro _
      exact hc
    · intro _
      have h2 : (0.01 : α) < 1 := by norm_num
      exact lt_of_lt_of_le h2 h1

/-- C20: the animation selected by `processInput` is determined by the held-key
combination `(w, s, a, d)` alone, whatever the yaw, the position and `dt`: idle is
selected exactly when `w = s` and `a = d` (opposing keys cancel, and the player then
does not move: the position is only clamped); each single key and each non-opposing pair
selects its own category; every other moving combination selects forward. -/
theorem C20_animation_from_keys (G : Glm α) (hG : G.Lawful) (k : PlayerKeys) (dt : α)
    (st : CombatState α) :
    (processInput G k dt st).currentAnim =
      (if k.w = k.s ∧ k.a = k.d then Anim.idle
       else
        match k.w, k.s, k.a, k.d with
        | true, false, false, false => Anim.runForward
        | false, true, false, false => Anim.runBack
        | false, false, true, false => Anim.runLeft
        | false, false, false, true => Anim.runRight
        | true, false, true, false => Anim.runForwardLeft
        | true, false, false, true => Anim.runForwardRight
        | false, true, true, false => Anim.runBackLeft
        | false, true, false, true => Anim.runBackRight
        | _, _, _, _ => Anim.runForward) ∧
    ((processInput G k dt st).currentAnim = Anim.idle ↔ (k.w = k.s ∧ k.a = k.d)) ∧
    (k.w = k.s ∧ k.a = k.d →
      (processInput G k dt st).characterPosition =
        ⟨min (max st.characterPosition.x (-4.5)) 4.5, st.characterPosition.y,
         min (max st.characterPosition.z (-4.5)) 4.5⟩) := by
  have hm := moving_iff G hG st.cameraYaw k
  have hcur : (processInput G k dt st).currentAnim
      = pickAnimation (moving G st.cameraYaw k) k := rfl
  have hpos : (processInput G k dt st).characterPosition
      = movePlayer G st.cameraYaw k dt st.characterPosition := rfl
  obtain ⟨w, s, a, d, j, m⟩ := k
  by_cases hc : w = s ∧ a = d
  · have hmv : moving G st.cameraYaw ⟨w, s, a, d, j, m⟩ = false := by
      cases hmov : moving G st.cameraYaw ⟨w, s, a, d, j, m⟩ with
      | false => rfl
      | true => exact absurd hc (hm.mp hmov)
    refine ⟨?_, ?_, ?_⟩
    · rw [hcur, hmv, if_pos hc]
      rfl
    · rw [hcur, hmv]
      exact ⟨fun _ => hc, fun _ => rfl⟩
    · intro _
      rw [hpos]
      simp only [movePlayer, hmv, glmClamp]
      simp
  · have hmv : moving G st.cameraYaw ⟨w, s, a, d, j, m⟩ = true := hm.mpr hc
    rw [hcur, hmv, if_neg hc]
    refine ⟨?_, ?_, fun h => absurd h hc⟩
    · revert hc
      cases w <;> cases s <;> cases a <;> cases d <;> intro hc <;>
        rfl
    · constructor
      · intro h
        exfalso
        revert hc h
        cases w <;> cases s <;> cases a <;> cases d <;> intro hc h <;>
          first
          | exact hc ⟨rfl, rfl⟩
          | exact Anim.noConfusion h
      · intro h
        exact absurd h hc

/-- Witness of C20: the real math library, the initial state, all four movement keys
held (they cancel). -/
theorem C20_animation_from_keys_witness :
    Glm.Lawful (⟨Real.sin, Real.cos, Real.sqrt, fun d => d * (Real.pi / 180)⟩ : Glm ℝ) ∧
    ((⟨true, true, true, true, false, false⟩ : PlayerKeys).w
        = (⟨true, true, true, true, false, false⟩ : PlayerKeys).s ∧
      (⟨true, true, true, true, false, false⟩ : PlayerKeys).a
        = (⟨true, true, true, true, false, false⟩ : PlayerKeys).d) ∧
    (processInput ⟨Real.sin, Real.cos, Real.sqrt, fun d => d * (Real.pi / 180)⟩
      ⟨true, true, true, true, false, false⟩ (1 / 60) (idlePlayer : CombatState ℝ)).currentAnim
      = Anim.idle ∧
    (processInput ⟨Real.sin, Real.cos, Real.sqrt, fun d => d * (Real.pi / 180)⟩
      ⟨true, true, true, true, false, false⟩ (1 / 60)
      (idlePlayer : CombatState ℝ)).characterPosition =
        ⟨min (max (idlePlayer : CombatState ℝ).characterPosition.x (-4.5)) 4.5,
         (idlePlayer : CombatState ℝ).characterPosition.y,
         min (max (idlePlayer : CombatState ℝ).characterPosition.z (-4.5)) 4.5⟩ :=
  ⟨real_glm_lawful, ⟨rfl, rfl⟩,
   ((C20_animation_from_keys _ real_glm_lawful ⟨true, true, true, true, false, false⟩
      (1 / 60) idlePlayer).2.1).mpr ⟨rfl, rfl⟩,
   (C20_animation_from_keys _ real_glm_lawful ⟨true, true, true, true, false, false⟩
      (1 / 60) idlePlayer).2.2 ⟨rfl, rfl⟩⟩

/-! ### Claim C12 -/

/-- When the held movement keys cancel, `processInput` only clamps the position. -/
theorem movePlayer_of_cancel (G : Glm α) (hG : G.Lawful) (yaw : α) (k : PlayerKeys) (dt : α)
    (p : Vec3 α) (hc : k.w = k.s ∧ k.a = k.d) :
    movePlayer G yaw k dt p = ⟨min (max p.x (-4.5)) 4.5, p.y, min (max p.z (-4.5)) 4.5⟩ := by
  have hmv : moving G yaw k = false := by
    cases hmov : moving G yaw k with
    | false => rfl
    | true => exact absurd hc ((moving_iff G hG yaw k).mp hmov)
  simp only [movePlayer, hmv, glmClamp]
  simp

/-- The vector from the camera to the look-at point after `updateCamera`, for a player
at the origin and a yaw with `sin = 0`, `cos = -1`. -/
theorem updateCamera_front_facing_plusZ (G : Glm α) (hG : G.Lawful) (st : CombatState α)
    (hpos : st.characterPosition = ⟨0, 0, 0⟩)
    (hsy : G.sin (G.radians st.cameraYaw) = 0) (hcy : G.cos (G.radians st.cameraYaw) = -1) :
    0 < G.sqrt (9.25 + 3 * G.sin (G.radians st.cameraPitch)) ∧
    (updateCamera G st).cameraFront =
      ⟨0, (-0.5 - 3 * G.sin (G.radians st.cameraPitch))
            / G.sqrt (9.25 + 3 * G.sin (G.radians st.cameraPitch)),
          3 * G.cos (G.radians st.cameraPitch)
            / G.sqrt (9.25 + 3 * G.sin (G.radians st.cameraPitch))⟩ ∧
    (updateCamera G st).cameraFront.normSq = 1 := by
  have hp := hG.sin_sq_add_cos_sq (G.radians st.cameraPitch)
  have hs1 := hG.neg_one_le_sin G (G.radians st.cameraPitch)
  have hD : (CAMERA_DISTANCE : α) = 3 := by unfold CAMERA_DISTANCE; norm_num
  have hH : (CAMERA_HEIGHT : α) = 1.5 := by unfold CAMERA_HEIGHT; norm_num
  have hv : st.characterPosition + (⟨0.0, 1.0, 0.0⟩ : Vec3 α)
      - (st.characterPosition
        + ⟨CAMERA_DISTANCE * G.sin (G.radians st.cameraYaw) * G.cos (G.radians st.cameraPitch),
           CAMERA_HEIGHT + CAMERA_DISTANCE * G.sin (G.radians st.cameraPitch),
           CAMERA_DISTANCE * G.cos (G.radians st.cameraYaw) * G.cos (G.radians st.cameraPitch)⟩)
      = ⟨0, -0.5 - 3 * G.sin (G.radians st.cameraPitch),
          3 * G.cos (G.radians st.cameraPitch)⟩ := by
    rw [hpos, hsy, hcy, hD, hH]
    simp only [Vec3.add_def, Vec3.sub_def, Vec3.ext_iff3]
    refine ⟨by norm_num, by norm_num; ring, by norm_num⟩
  have hn : (⟨0, -0.5 - 3 * G.sin (G.radians st.cameraPitch),
      3 * G.cos (G.radians st.cameraPitch)⟩ : Vec3 α).normSq
      = 9.25 + 3 * G.sin (G.radians st.cameraPitch) := by
    simp only [Vec3.normSq]
    norm_num
    linear_combination 9 * hp
  have hpos2 : (0 : α) < 9.25 + 3 * G.sin (G.radians st.cameraPitch) := by
    norm_num
    linarith
  have hL := hG.sqrt_pos G _ hpos2
  have hfront : (updateCamera G st).cameraFront
      = G.normalize ⟨0, -0.5 - 3 * G.sin (G.radians st.cameraPitch),
          3 * G.cos (G.radians st.cameraPitch)⟩ := by
    show G.normalize _ = _
    rw [hv]
  refine ⟨hL, ?_, ?_⟩
  · rw [hfront]
    unfold Glm.normalize
    rw [hn, Vec3.scale_def, Vec3.ext_iff3]
    refine ⟨by simp, by simp only [mul_one_div], by simp only [mul_one_div]⟩
  · rw [hfront]
    apply hG.normSq_normalize
    rw [hn]
    exact hpos2

/-- The single shot of the scenario of C12, for any pitch. -/
theorem single_shot_facing_plusZ (G : Glm α) (hG : G.Lawful) (st : CombatState α)
    (k : PlayerKeys) (dt : α)
    (hpos : st.characterPosition = ⟨0, 0, 0⟩)
    (hsy : G.sin (G.radians st.cameraYaw) = 0) (hcy : G.cos (G.radians st.cameraYaw) = -1)
    (hkeys : k.w = false ∧ k.s = false ∧ k.a = false ∧ k.d = false)
    (hshoot : (k.j || k.mouseLeft) = true) (hlast : st.shootPressedLastFrame = false) :
    ∃ b : Bullet α,
      (processInput G k dt (updateCamera G st)).bullets = st.bullets ++ [b] ∧
      b.position = ⟨-0.1, 0.8, 0⟩ ∧
      b.direction = (updateCamera G st).cameraFront ∧
      b.direction =
        ⟨0, (-0.5 - 3 * G.sin (G.radians st.cameraPitch))
              / G.sqrt (9.25 + 3 * G.sin (G.radians st.cameraPitch)),
            3 * G.cos (G.radians st.cameraPitch)
              / G.sqrt (9.25 + 3 * G.sin (G.radians st.cameraPitch))⟩ ∧
      b.direction.normSq = 1 ∧
      (b.direction = ⟨0, 0, 1⟩ → G.sin (G.radians st.cameraPitch) = -1 / 6) := by
  obtain ⟨hL, hfront, hunit⟩ := updateCamera_front_facing_plusZ G hG st hpos hsy hcy
  obtain ⟨hw, hs, ha, hd⟩ := hkeys
  have hcancel : k.w = k.s ∧ k.a = k.d := ⟨by rw [hw, hs], by rw [ha, hd]⟩
  have hlast2 : (updateCamera G st).shootPressedLastFrame = false := hlast
  have hcp : (updateCamera G st).characterPosition = ⟨0, 0, 0⟩ := hpos
  have hbul : (updateCamera G st).bullets = st.bullets := rfl
  have hdir : G.normalize ⟨(updateCamera G st).cameraFront.x,
      (updateCamera G st).cameraFront.y, (updateCamera G st).cameraFront.z⟩
      = (updateCamera G st).cameraFront := hG.normalize_unit G _ hunit
  refine ⟨newBullet G (movePlayer G (updateCamera G st).cameraYaw k dt
    (updateCamera G st).characterPosition) (updateCamera G st).cameraFront, ?_, ?_, hdir, ?_,
    ?_, ?_⟩
  · rw [processInput_bullets, hshoot, hlast2, hbul]
    rfl
  · rw [movePlayer_of_cancel G hG _ k dt _ hcancel, hcp]
    simp only [newBullet, Vec3.add_def, Vec3.ext_iff3]
    refine ⟨by norm_num, by norm_num, by norm_num⟩
  · show G.normalize _ = _
    rw [hdir, hfront]
  · show (G.normalize _).normSq = 1
    rw [hdir]
    exact hunit
  · intro h
    have h2 : G.normalize ⟨(updateCamera G st).cameraFront.x,
        (updateCamera G st).cameraFront.y, (updateCamera G st).cameraFront.z⟩
        = (⟨0, 0, 1⟩ : Vec3 α) := h
    rw [hdir, hfront, Vec3.ext_iff3] at h2
    have hy := h2.2.1
    simp only at hy
    rw [div_eq_zero_iff] at hy
    rcases hy with hy | hy
    · linarith
    · exact absurd hy (ne_of_gt hL)

theorem real_sin_cos_radians_180 :
    Real.sin ((180 : ℝ) * (Real.pi / 180)) = 0 ∧ Real.cos ((180 : ℝ) * (Real.pi / 180)) = -1 := by
  have e : (180 : ℝ) * (Real.pi / 180) = Real.pi := by ring
  rw [e]
  exact ⟨Real.sin_pi, Real.cos_pi⟩

/-- C12 as stated fails: with the player at the origin facing `+Z` (yaw 180, so that
`sin = 0` and `cos = -1`), pitch 0 and a single press of `J`, `processInput` creates one
bullet, and its direction is not `(0, 0, 1)`: it is `camera.Front`, which looks down
from the camera to the look-at point. -/
theorem C12_direction_not_plusZ :
    (playerFacingPlusZ : CombatState ℝ).characterPosition = ⟨0, 0, 0⟩ ∧
    Real.sin ((playerFacingPlusZ : CombatState ℝ).cameraYaw * (Real.pi / 180)) = 0 ∧
    Real.cos ((playerFacingPlusZ : CombatState ℝ).cameraYaw * (Real.pi / 180)) = -1 ∧
    ∃ b : Bullet ℝ,
      (processInput ⟨Real.sin, Real.cos, Real.sqrt, fun d => d * (Real.pi / 180)⟩ shootOnly
        (1 / 60) (updateCamera ⟨Real.sin, Real.cos, Real.sqrt, fun d => d * (Real.pi / 180)⟩
          playerFacingPlusZ)).bullets = [b] ∧
      b.direction ≠ ⟨0, 0, 1⟩ := by
  refine ⟨rfl, real_sin_cos_radians_180.1, real_sin_cos_radians_180.2, ?_⟩
  obtain ⟨b, hb, _, _, _, _, hdir⟩ :=
    single_shot_facing_plusZ ⟨Real.sin, Real.cos, Real.sqrt, fun d => d * (Real.pi / 180)⟩
      real_glm_lawful (playerFacingPlusZ : CombatState ℝ) shootOnly (1 / 60) rfl
      real_sin_cos_radians_180.1 real_sin_cos_radians_180.2 ⟨rfl, rfl, rfl, rfl⟩ rfl rfl
  refine ⟨b, hb, ?_⟩
  intro h
  have h2 := hdir h
  have h3 : Real.sin ((playerFacingPlusZ : CombatState ℝ).cameraPitch * (Real.pi / 180))
      = 0 := by
    have e : (playerFacingPlusZ : CombatState ℝ).cameraPitch = 0 := by
      norm_num [playerFacingPlusZ, idlePlayer]
    rw [e, zero_mul, Real.sin_zero]
  simp only at h2
  rw [h3] at h2
  norm_num at h2

/-- C12 (amended): with the player at the origin facing `+Z` (camera state as
`updateCamera` produces it for a yaw with `sin = 0`, `cos = -1`) and the shoot input
pressed for a single edge with no movement key held, exactly one bullet is created; its
position is the player position plus the fixed offset `(-0.1, 0.8, 0)`; its direction
is `camera.Front`, the unit vector
`(0, -0.5 - 3 sin(pitch), 3 cos(pitch)) / sqrt(9.25 + 3 sin(pitch))`, which can be
`(0, 0, 1)` only when `sin(pitch) = -1/6`. -/
theorem C12_single_shot_along_camera_front (G : Glm α) (hG : G.Lawful) (st : CombatState α)
    (k : PlayerKeys) (dt : α)
    (hpos : st.characterPosition = ⟨0, 0, 0⟩)
    (hsy : G.sin (G.radians st.cameraYaw) = 0) (hcy : G.cos (G.radians st.cameraYaw) = -1)
    (hkeys : k.w = false ∧ k.s = false ∧ k.a = false ∧ k.d = false)
    (hshoot : (k.j || k.mouseLeft) = true) (hlast : st.shootPressedLastFrame = false) :
    ∃ b : Bullet α,
      (processInput G k dt (updateCamera G st)).bullets = st.bullets ++ [b] ∧
      b.position = ⟨-0.1, 0.8, 0⟩ ∧
      b.direction = (updateCamera G st).cameraFront ∧
      b.direction =
        ⟨0, (-0.5 - 3 * G.sin (G.radians st.cameraPitch))
              / G.sqrt (9.25 + 3 * G.sin (G.radians st.cameraPitch)),
            3 * G.cos (G.radians st.cameraPitch)
              / G.sqrt (9.25 + 3 * G.sin (G.radians st.cameraPitch))⟩ ∧
      b.direction.normSq = 1 ∧
      (b.direction = ⟨0, 0, 1⟩ → G.sin (G.radians st.cameraPitch) = -1 / 6) :=
  single_shot_facing_plusZ G hG st k dt hpos hsy hcy hkeys hshoot hlast

/-- Witness of C12 (amended): the real math library, `playerFacingPlusZ`, `J` pressed. -/
theorem C12_single_shot_along_camera_front_witness :
    Glm.Lawful (⟨Real.sin, Real.cos, Real.sqrt, fun d => d * (Real.pi / 180)⟩ : Glm ℝ) ∧
    (playerFacingPlusZ : CombatState ℝ).characterPosition = ⟨0, 0, 0⟩ ∧
    Real.sin ((playerFacingPlusZ : CombatState ℝ).cameraYaw * (Real.pi / 180)) = 0 ∧
    Real.cos ((playerFacingPlusZ : CombatState ℝ).cameraYaw * (Real.pi / 180)) = -1 ∧
    (shootOnly.w = false ∧ shootOnly.s = false ∧ shootOnly.a = false ∧ shootOnly.d = false) ∧
    (shootOnly.j || shootOnly.mouseLeft) = true ∧
    (playerFacingPlusZ : CombatState ℝ).shootPressedLastFrame = false ∧
    ∃ b : Bullet ℝ,
      (processInput ⟨Real.sin, Real.cos, Real.sqrt, fun d => d * (Real.pi / 180)⟩ shootOnly
        (1 / 60) (updateCamera ⟨Real.sin, Real.cos, Real.sqrt, fun d => d * (Real.pi / 180)⟩
          playerFacingPlusZ)).bullets = (playerFacingPlusZ : CombatState ℝ).bullets ++ [b] ∧
      b.position = ⟨-0.1, 0.8, 0⟩ ∧ b.direction.normSq = 1 := by
  obtain ⟨b, hb, hp, _, _, hn, _⟩ :=
    C12_single_shot_along_camera_front
      ⟨Real.sin, Real.cos, Real.sqrt, fun d => d * (Real.pi / 180)⟩
      real_glm_lawful (playerFacingPlusZ : CombatState ℝ) shootOnly (1 / 60) rfl
      real_sin_cos_radians_180.1 real_sin_cos_radians_180.2 ⟨rfl, rfl, rfl, rfl⟩ rfl rfl
  exact ⟨real_glm_lawful, rfl, real_sin_cos_radians_180.1, real_sin_cos_radians_180.2,
    ⟨rfl, rfl, rfl, rfl⟩, rfl, rfl, b, hb, hp, hn⟩

/-! ### Claim C17 -/

theorem Vec3.normSq_nonneg (v : Vec3 α) : 0 ≤ v.normSq := by
  unfold Vec3.normSq
  nlinarith [mul_self_nonneg v.x, mul_self_nonneg v.y, mul_self_nonneg v.z]

/-- With a frame time of 0 a target stays where it is. -/
theorem updateTarget_dt_zero (G : Glm α) (cp : Vec3 α) (t : Target α) :
    (updateTarget G cp 0 t).position = t.position := by
  simp only [updateTarget, Vec3.add_def, Vec3.scale_def, Vec3.ext_iff3]
  refine ⟨by ring, by ring, by ring⟩

/-- The vector from the moved target to the player is the old one, scaled by
`1 - speed*dt/d`. -/
theorem updateTarget_diff (G : Glm α) (cp : Vec3 α) (t : Target α) (dt : α) :
    cp - (updateTarget G cp dt t).position =
      (cp - t.position) * (1 - t.speed * dt / G.length (cp - t.position)) := by
  simp only [updateTarget, Glm.normalize, Glm.length, Vec3.add_def, Vec3.sub_def,
    Vec3.scale_def, Vec3.ext_iff3]
  refine ⟨by ring, by ring, by ring⟩

/-- The distance from the moved target to the player. -/
theorem updateTarget_distance (G : Glm α) (hG : G.Lawful) (cp : Vec3 α) (t : Target α)
    (dt : α) (hd : 0 < G.length (cp - t.position)) :
    G.length (cp - (updateTarget G cp dt t).position) =
      |G.length (cp - t.position) - t.speed * dt| := by
  have hsq : G.length (cp - t.position) * G.length (cp - t.position)
      = (cp - t.position).normSq := hG.sqrt_mul_self _ (Vec3.normSq_nonneg _)
  have hne : G.length (cp - t.position) ≠ 0 := ne_of_gt hd
  have hn : (cp - (updateTarget G cp dt t).position).normSq =
      (G.length (cp - t.position) - t.speed * dt)
        * (G.length (cp - t.position) - t.speed * dt) := by
    rw [updateTarget_diff]
    have e : ((cp - t.position) * (1 - t.speed * dt / G.length (cp - t.position))).normSq
        = (cp - t.position).normSq
          * ((1 - t.speed * dt / G.length (cp - t.position))
            * (1 - t.speed * dt / G.length (cp - t.position))) := by
      simp only [Vec3.scale_def, Vec3.normSq]
      ring
    rw [e, ← hsq]
    field_simp
  show G.sqrt _ = _
  rw [hn]
  exact hG.sqrt_mul_self_eq_abs G _

/-- C17 as stated fails: with `dt = 0` the target at distance 1 has `speed*dt = 0 < 2d`
and does not get closer, its distance stays 1. -/
theorem C17_no_approach_at_dt_zero :
    (0 : ℝ) ≤ 0 ∧
    Glm.length ⟨Real.sin, Real.cos, Real.sqrt, fun d => d * (Real.pi / 180)⟩
      ((⟨0, 0, 0⟩ : Vec3 ℝ) - (pursuer : Target ℝ).position) = 1 ∧
    (pursuer : Target ℝ).speed * 0 <
      2 * Glm.length ⟨Real.sin, Real.cos, Real.sqrt, fun d => d * (Real.pi / 180)⟩
        ((⟨0, 0, 0⟩ : Vec3 ℝ) - (pursuer : Target ℝ).position) ∧
    ¬ (Glm.length ⟨Real.sin, Real.cos, Real.sqrt, fun d => d * (Real.pi / 180)⟩
        ((⟨0, 0, 0⟩ : Vec3 ℝ)
          - (updateTarget ⟨Real.sin, Real.cos, Real.sqrt, fun d => d * (Real.pi / 180)⟩
              ⟨0, 0, 0⟩ 0 (pursuer : Target ℝ)).position) <
      Glm.length ⟨Real.sin, Real.cos, Real.sqrt, fun d => d * (Real.pi / 180)⟩
        ((⟨0, 0, 0⟩ : Vec3 ℝ) - (pursuer : Target ℝ).position)) := by
  have hd : Glm.length ⟨Real.sin, Real.cos, Real.sqrt, fun d => d * (Real.pi / 180)⟩
      ((⟨0, 0, 0⟩ : Vec3 ℝ) - (pursuer : Target ℝ).position) = 1 := by
    have hn : ((⟨0, 0, 0⟩ : Vec3 ℝ) - (pursuer : Target ℝ).position).normSq = 1 := by
      norm_num [pursuer, Vec3.sub_def, Vec3.normSq]
    unfold Glm.length
    rw [hn]
    exact Real.sqrt_one
  refine ⟨le_refl 0, hd, ?_, ?_⟩
  · rw [hd]
    norm_num
  · rw [updateTarget_dt_zero]
    exact lt_irrefl _

/-- C17 (amended): for every target at distance `d > 0` from the player and every `dt`,
the target update moves it by `speed*dt` along the unit vector from the target to the
current player position, so its new distance to the player is `|d - speed*dt|`; it
gets closer whenever `0 < speed*dt < 2d`, stays at distance `d` when `speed*dt = 0`, and
passes the player when `speed*dt > d` (the vector to the player is then reversed). -/
theorem C17_target_pursuit (G : Glm α) (hG : G.Lawful) (cp : Vec3 α) (t : Target α) (dt : α)
    (hd : 0 < G.length (cp - t.position)) :
    (updateTarget G cp dt t).position =
      t.position + G.normalize (cp - t.position) * (t.speed * dt) ∧
    (G.normalize (cp - t.position)).normSq = 1 ∧
    G.length (cp - (updateTarget G cp dt t).position) =
      |G.length (cp - t.position) - t.speed * dt| ∧
    (0 < t.speed * dt → t.speed * dt < 2 * G.length (cp - t.position) →
      G.length (cp - (updateTarget G cp dt t).position) < G.length (cp - t.position)) ∧
    (t.speed * dt = 0 →
      G.length (cp - (updateTarget G cp dt t).position) = G.length (cp - t.position)) ∧
    (G.length (cp - t.position) < t.speed * dt →
      ∃ c : α, c < 0 ∧
        cp - (updateTarget G cp dt t).position = (cp - t.position) * c) := by
  have hdist := updateTarget_distance G hG cp t dt hd
  have hpos : 0 < (cp - t.position).normSq := by
    rcases lt_or_eq_of_le (Vec3.normSq_nonneg (cp - t.position)) with h | h
    · exact h
    · exfalso
      unfold Glm.length at hd
      rw [← h, hG.sqrt_zero] at hd
      exact lt_irrefl _ hd
  refine ⟨?_, hG.normSq_normalize G _ hpos, hdist, ?_, ?_, ?_⟩
  · simp only [updateTarget, Vec3.add_def, Vec3.scale_def, Vec3.ext_iff3]
    refine ⟨by ring, by ring, by ring⟩
  · intro h1 h2
    rw [hdist, abs_lt]
    constructor <;> linarith
  · intro h0
    rw [hdist, h0, sub_zero, abs_of_pos hd]
  · intro h
    refine ⟨1 - t.speed * dt / G.length (cp - t.position), ?_, updateTarget_diff G cp t dt⟩
    have : 1 < t.speed * dt / G.length (cp - t.position) := by
      rw [lt_div_iff₀ hd]
      linarith
    linarith

/-- Witness of C17 (amended): the real math library, the player at the origin and the
target `pursuer` at distance 1, one frame of 1/2 s. -/
theorem C17_target_pursuit_witness :
    Glm.Lawful (⟨Real.sin, Real.cos, Real.sqrt, fun d => d * (Real.pi / 180)⟩ : Glm ℝ) ∧
    0 < Glm.length ⟨Real.sin, Real.cos, Real.sqrt, fun d => d * (Real.pi / 180)⟩
      ((⟨0, 0, 0⟩ : Vec3 ℝ) - (pursuer : Target ℝ).position) ∧
    Glm.length ⟨Real.sin, Real.cos, Real.sqrt, fun d => d * (Real.pi / 180)⟩
        ((⟨0, 0, 0⟩ : Vec3 ℝ)
          - (updateTarget ⟨Real.sin, Real.cos, Real.sqrt, fun d => d * (Real.pi / 180)⟩
              ⟨0, 0, 0⟩ (1 / 2) (pursuer : Target ℝ)).position) =
      |Glm.length ⟨Real.sin, Real.cos, Real.sqrt, fun d => d * (Real.pi / 180)⟩
        ((⟨0, 0, 0⟩ : Vec3 ℝ) - (pursuer : Target ℝ).position)
        - (pursuer : Target ℝ).speed * (1 / 2)| := by
  have hd : Glm.length ⟨Real.sin, Real.cos, Real.sqrt, fun d => d * (Real.pi / 180)⟩
      ((⟨0, 0, 0⟩ : Vec3 ℝ) - (pursuer : Target ℝ).position) = 1 := by
    have hn : ((⟨0, 0, 0⟩ : Vec3 ℝ) - (pursuer : Target ℝ).position).normSq = 1 := by
      norm_num [pursuer, Vec3.sub_def, Vec3.normSq]
    unfold Glm.length
    rw [hn]
    exact Real.sqrt_one
  have hpos : 0 < Glm.length ⟨Real.sin, Real.cos, Real.sqrt, fun d => d * (Real.pi / 180)⟩
      ((⟨0, 0, 0⟩ : Vec3 ℝ) - (pursuer : Target ℝ).position) := by
    rw [hd]
    exact one_pos
  exact ⟨real_glm_lawful, hpos,
    (C17_target_pursuit _ real_glm_lawful ⟨0, 0, 0⟩ pursuer (1 / 2) hpos).2.2.1⟩

/-! ### Claim C18 -/

/-- The spawn block when the timer is not yet due. -/
theorem spawnStep_not_due (rand : Nat → Nat) (cp : Vec3 α) (dt : α) (fuel : Nat)
    (st : SpawnState α) (h : st.timeSinceLastSpawn + dt < SPAWN_INTERVAL) :
    spawnStep rand cp dt fuel st = some ⟨st.timeSinceLastSpawn + dt, st.targets, st.randCalls⟩ := by
  unfold spawnStep
  rw [if_neg (not_le.mpr h)]

/-- The spawn block when the timer is due and the rejection loop returns. -/
theorem spawnStep_due (rand : Nat → Nat) (cp : Vec3 α) (dt : α) (fuel : Nat)
    (st st1 : SpawnState α) (h : ¬ st.timeSinceLastSpawn + dt < SPAWN_INTERVAL)
    (hs : spawnStep rand cp dt fuel st = some st1) :
    st1.timeSinceLastSpawn = 0 ∧ ∃ p, st1.targets = st.targets ++ [⟨p, TARGET_SPEED⟩] := by
  unfold spawnStep at hs
  rw [if_pos (not_lt.mp h)] at hs
  cases hl : spawnLoop rand cp fuel st.randCalls with
  | none => rw [hl] at hs; simp at hs
  | some r =>
    obtain ⟨p, m⟩ := r
    rw [hl] at hs
    simp only [Option.some.injEq] at hs
    rw [← hs]
    exact ⟨by norm_num, p, rfl⟩

/-- One spawn block keeps the timer in `[0, 3)` and adds at most one target. -/
theorem spawnStep_invariant (rand : Nat → Nat) (cp : Vec3 α) (dt : α) (fuel : Nat)
    (st st1 : SpawnState α) (h0 : 0 ≤ st.timeSinceLastSpawn) (hdt : 0 ≤ dt)
    (hs : spawnStep rand cp dt fuel st = some st1) :
    0 ≤ st1.timeSinceLastSpawn ∧ st1.timeSinceLastSpawn < 3 ∧
      st1.targets.length ≤ st.targets.length + 1 := by
  have h3 : (SPAWN_INTERVAL : α) = 3 := by unfold SPAWN_INTERVAL; norm_num
  by_cases h : st.timeSinceLastSpawn + dt < SPAWN_INTERVAL
  · rw [spawnStep_not_due rand cp dt fuel st h] at hs
    simp only [Option.some.injEq] at hs
    rw [← hs]
    rw [h3] at h
    exact ⟨add_nonneg h0 hdt, h, Nat.le_succ _⟩
  · obtain ⟨ht, p, hp⟩ := spawnStep_due rand cp dt fuel st st1 h hs
    rw [ht, hp]
    exact ⟨le_refl 0, by norm_num, by simp⟩

/-- Any number of spawn blocks keeps the timer in `[0, 3)` and adds at most one target
per frame. -/
theorem spawnFrames_invariant (rand : Nat → Nat) (cp : Vec3 α) (fuel : Nat) (dts : List α)
    (st st2 : SpawnState α) (hdts : ∀ d ∈ dts, 0 ≤ d)
    (h0 : 0 ≤ st.timeSinceLastSpawn) (h3 : st.timeSinceLastSpawn < 3)
    (hs : spawnFrames rand cp fuel dts st = some st2) :
    0 ≤ st2.timeSinceLastSpawn ∧ st2.timeSinceLastSpawn < 3 ∧
      st2.targets.length ≤ st.targets.length + dts.length := by
  induction dts generalizing st with
  | nil =>
    simp only [spawnFrames, Option.some.injEq] at hs
    rw [← hs]
    exact ⟨h0, h3, le_refl _⟩
  | cons dt rest ih =>
    unfold spawnFrames at hs
    cases h1 : spawnStep rand cp dt fuel st with
    | none => rw [h1] at hs; simp at hs
    | some st1 =>
      rw [h1] at hs
      obtain ⟨a, b, c⟩ := spawnStep_invariant rand cp dt fuel st st1 h0
        (hdts dt (List.mem_cons_self _ _)) h1
      obtain ⟨a2, b2, c2⟩ := ih st1 (fun d hd => hdts d (List.mem_cons_of_mem _ hd)) a b hs
      refine ⟨a2, b2, ?_⟩
      simp only [List.length_cons]
      omega

/-- C18: in each frame, if `timer + dt < SPAWN_INTERVAL` (3.0) the timer becomes
`timer + dt` and no target is added; otherwise, when the spawn block completes (which
it does as soon as the random stream holds a candidate at distance `≥ 2.5` within the
budget), the timer becomes 0 and exactly one target (speed `TARGET_SPEED = 1.2`) is
appended.  Hence, starting from `0 ≤ timer < 3` with `dt ≥ 0`, the timer stays in
`[0, 3)` after every frame and at most one target is spawned per frame, however large
`dt` is. -/
theorem C18_spawn_timer (rand : Nat → Nat) (cp : Vec3 α) (dt : α) (fuel : Nat)
    (st : SpawnState α) :
    ((SPAWN_INTERVAL : α) = 3 ∧ (TARGET_SPEED : α) = 1.2) ∧
    (st.timeSinceLastSpawn + dt < 3 →
      spawnStep rand cp dt fuel st =
        some ⟨st.timeSinceLastSpawn + dt, st.targets, st.randCalls⟩) ∧
    (¬ st.timeSinceLastSpawn + dt < 3 →
      (∀ st1, spawnStep rand cp dt fuel st = some st1 →
        st1.timeSinceLastSpawn = 0 ∧ ∃ p, st1.targets = st.targets ++ [⟨p, 1.2⟩]) ∧
      (∀ k, k < fuel →
        2.5 * 2.5 ≤ (spawnCandidate (rand (st.randCalls + 2 * k))
          (rand (st.randCalls + 2 * k + 1)) - cp).normSq →
        ∃ st1, spawnStep rand cp dt fuel st = some st1)) ∧
    (0 ≤ st.timeSinceLastSpawn → st.timeSinceLastSpawn < 3 → 0 ≤ dt →
      ∀ st1, spawnStep rand cp dt fuel st = some st1 →
        0 ≤ st1.timeSinceLastSpawn ∧ st1.timeSinceLastSpawn < 3 ∧
        st1.targets.length ≤ st.targets.length + 1) ∧
    (∀ (dts : List α) (st2 : SpawnState α), (∀ d ∈ dts, 0 ≤ d) →
      0 ≤ st.timeSinceLastSpawn → st.timeSinceLastSpawn < 3 →
      spawnFrames rand cp fuel dts st = some st2 →
        0 ≤ st2.timeSinceLastSpawn ∧ st2.timeSinceLastSpawn < 3 ∧
        st2.targets.length ≤ st.targets.length + dts.length) := by
  have h3 : (SPAWN_INTERVAL : α) = 3 := by unfold SPAWN_INTERVAL; norm_num
  have h12 : (TARGET_SPEED : α) = 1.2 := by unfold TARGET_SPEED; norm_num
  refine ⟨⟨h3, h12⟩, ?_, ?_, ?_, ?_⟩
  · intro h
    exact spawnStep_not_due rand cp dt fuel st (by rw [h3]; exact h)
  · intro h
    constructor
    · intro st1 hs
      have := spawnStep_due rand cp dt fuel st st1 (by rw [h3]; exact h) hs
      rw [h12] at this
      exact this
    · intro k hk hacc
      unfold spawnStep
      rw [if_pos (by rw [h3]; exact not_lt.mp h)]
      obtain ⟨r, hr⟩ := spawnLoop_returns rand cp k st.randCalls fuel hk
        ((not_lengthLt_iff _ _ (by norm_num)).mpr hacc)
      rw [hr]
      exact ⟨_, rfl⟩
  · intro h0 _ hdt st1 hs
    exact spawnStep_invariant rand cp dt fuel st st1 h0 hdt hs
  · intro dts st2 hdts h0 hlt hs
    exact spawnFrames_invariant rand cp fuel dts st st2 hdts h0 hlt hs

/-- Witness of C18: from timer 0 with `sampleRand`, a frame of 1 s only advances the
timer, and a frame of 3 s resets it and appends one target. -/
theorem C18_spawn_timer_witness :
    ((0 : ℚ) + 1 < 3 ∧
      spawnStep sampleRand samplePlayer 1 2 ⟨0, [], 0⟩ = some ⟨0 + 1, [], 0⟩) ∧
    (¬ (0 : ℚ) + 3 < 3 ∧
      spawnStep sampleRand samplePlayer 3 2 ⟨0, [], 0⟩ =
        some ⟨0.0, [] ++ [⟨⟨-4, 0.1, -4⟩, TARGET_SPEED⟩], 4⟩ ∧
      ((0.0 : ℚ) = 0 ∧
        ∃ p, ([] ++ [⟨⟨-4, 0.1, -4⟩, TARGET_SPEED⟩] : List (Target ℚ)) = [] ++ [⟨p, 1.2⟩])) ∧
    ((0 : ℚ) ≤ 0 ∧ (0 : ℚ) < 3 ∧ (0 : ℚ) ≤ 3 ∧
      ((0 : ℚ) ≤ 0.0 ∧ (0.0 : ℚ) < 3 ∧
        ([] ++ [⟨⟨-4, 0.1, -4⟩, TARGET_SPEED⟩] : List (Target ℚ)).length
          ≤ ([] : List (Target ℚ)).length + 1)) := by
  have hnd : ¬ (0 : ℚ) + 3 < 3 := by norm_num
  exact ⟨⟨by norm_num,
      (C18_spawn_timer sampleRand samplePlayer 1 2 ⟨0, [], 0⟩).2.1 (by norm_num)⟩,
    ⟨hnd, sampleRand_spawnStep,
      ((C18_spawn_timer sampleRand samplePlayer 3 2 ⟨0, [], 0⟩).2.2.1 hnd).1 _
        sampleRand_spawnStep⟩,
    ⟨le_refl 0, by norm_num, by norm_num,
      (C18_spawn_timer sampleRand samplePlayer 3 2 ⟨0, [], 0⟩).2.2.2.1 (le_refl 0)
        (by norm_num) (by norm_num) _ sampleRand_spawnStep⟩⟩

end Combat

namespace Driving

variable {α : Type} [LinearOrderedField α]

/-! ## Driving demo: small frame times -/

/-- From rest, a frame of at most 1/1000 s with forward held ends at rest again. -/
theorem frameSpeed_forward_small (k : Keys) (hk : k.forward = true) (dt : α) (h0 : 0 ≤ dt)
    (h1 : dt ≤ 0.001) : frameSpeed k dt 0 = 0 := by
  have hp : processInputSpeed k dt (0 : α) = 10 * dt := by
    simp only [processInputSpeed, accelerate, hk, if_true, ACCELERATION]
    rw [clampSpeed_eq, min_eq_left (by norm_num at h1 ⊢; linarith),
      max_eq_right (by norm_num; linarith)]
    norm_num
  unfold frameSpeed
  rw [hp]
  apply friction_of_small
  rw [abs_of_nonneg (by linarith)]
  norm_num at h1 ⊢
  linarith

/-! ### Claim C26 -/

/-- C26: for every `dt` with `0 ≤ dt ≤ 0.001`, a vehicle with speed 0 and the forward key
held has speed exactly 0 again at the end of the frame: the gain
`ACCELERATION*dt ≤ 0.01` that `processInput` leaves is zeroed by the `|speed| ≤ 0.01`
branch of the friction step; so over any number of such frames the speed never leaves
0. -/
theorem C26_small_frames_never_start (k : Keys) (hk : k.forward = true) :
    (∀ dt : α, 0 ≤ dt → dt ≤ 0.001 →
      processInputSpeed k dt 0 = ACCELERATION * dt ∧ ACCELERATION * dt ≤ (0.01 : α) ∧
      frameSpeed k dt 0 = 0) ∧
    (∀ dts : List α, (∀ dt ∈ dts, 0 ≤ dt ∧ dt ≤ 0.001) →
      runFrames (0 : α) (dts.map fun dt => (k, dt)) = 0) := by
  constructor
  · intro dt h0 h1
    refine ⟨?_, ?_, frameSpeed_forward_small k hk dt h0 h1⟩
    · simp only [processInputSpeed, accelerate, hk, if_true, ACCELERATION]
      rw [clampSpeed_eq, min_eq_left (by norm_num at h1 ⊢; linarith),
        max_eq_right (by norm_num; linarith)]
      norm_num
    · unfold ACCELERATION
      norm_num at h1 ⊢
      linarith
  · intro dts
    induction dts with
    | nil => intro _; rfl
    | cons dt rest ih =>
      intro h
      have hd := h dt (List.mem_cons_self _ _)
      have hr := ih (fun d hdm => h d (List.mem_cons_of_mem _ hdm))
      simp only [runFrames, List.map_cons, List.foldl_cons] at hr ⊢
      rw [frameSpeed_forward_small k hk dt hd.1 hd.2]
      exact hr

/-- Witness of C26: only forward held, a frame of 1/1000 s and the frame sequence
`[1/1000, 1/2000]`. -/
theorem C26_small_frames_never_start_witness :
    forwardOnly.forward = true ∧ (0 : ℚ) ≤ 1 / 1000 ∧ (1 / 1000 : ℚ) ≤ 0.001 ∧
    frameSpeed forwardOnly (1 / 1000 : ℚ) 0 = 0 ∧
    (∀ dt ∈ [(1 / 1000 : ℚ), 1 / 2000], 0 ≤ dt ∧ dt ≤ 0.001) ∧
    runFrames (0 : ℚ) ([(1 / 1000 : ℚ), 1 / 2000].map fun dt => (forwardOnly, dt)) = 0 := by
  have hall : ∀ dt ∈ [(1 / 1000 : ℚ), 1 / 2000], 0 ≤ dt ∧ dt ≤ 0.001 := by
    intro dt hdt
    simp only [List.mem_cons, List.mem_singleton, List.not_mem_nil, or_false] at hdt
    rcases hdt with h | h <;> rw [h] <;> norm_num
  exact ⟨rfl, by norm_num, by norm_num,
    ((C26_small_frames_never_start forwardOnly rfl).1 (1 / 1000) (by norm_num)
      (by norm_num)).2.2,
    hall, (C26_small_frames_never_start forwardOnly rfl).2 _ hall⟩

end Driving

namespace Combat

variable {α : Type} [LinearOrderedField α]

/-! ## Combat demo: spawn region, planar movement, camera normalisation -/

/-- The candidates of the two opposite corners of the spawn square, for the residues
`(0, 0)` and `(99, 99)`. -/
theorem spawnCandidate_corners :
    (spawnCandidate 0 0 : Vec3 α) = ⟨-4, 0.1, -4⟩ ∧
    (spawnCandidate 99 99 : Vec3 α) = ⟨3.92, 0.1, 3.92⟩ := by
  constructor <;>
    · simp only [spawnCandidate, Vec3.ext_iff3]
      norm_num

/-- No point is closer than 2.5 to both corner candidates. -/
theorem corner_candidate_far (cp : Vec3 α) :
    2.5 * 2.5 ≤ ((spawnCandidate 0 0 : Vec3 α) - cp).normSq ∨
    2.5 * 2.5 ≤ ((spawnCandidate 99 99 : Vec3 α) - cp).normSq := by
  by_contra hc
  rw [not_or, not_le, not_le] at hc
  obtain ⟨h1, h2⟩ := hc
  rw [spawnCandidate_corners.1] at h1
  rw [spawnCandidate_corners.2] at h2
  simp only [Vec3.sub_def, Vec3.normSq] at h1 h2
  norm_num at h1 h2
  nlinarith [mul_self_nonneg (cp.x + 1 / 25), mul_self_nonneg (0.1 - cp.y),
    mul_self_nonneg (-4 - cp.z), mul_self_nonneg (3.92 - cp.z),
    mul_self_nonneg (1 / 10 - cp.y), mul_self_nonneg (98 / 25 - cp.z)]

/-- The candidate depends on the draws only through their residues modulo 100. -/
theorem spawnCandidate_mod (r1 r2 : Nat) :
    (spawnCandidate r1 r2 : Vec3 α) = spawnCandidate (r1 % 100) (r2 % 100) := by
  simp only [spawnCandidate, Nat.mod_mod]

/-! ### Claim C24 -/

/-- C24: with `range = 4` and minimum distance 2.5, for every player position (anywhere,
not only inside the play area) there is a pair of random residues `(a, b)` in `0..99`,
namely `(0, 0)` or `(99, 99)`, whose candidate `((a/100 - 0.5)*8, 0.1, (b/100 - 0.5)*8)`
is at distance `≥ 2.5` from the player; so the acceptance set of the `do ... while`
loop is never empty, and the loop returns as soon as the random source delivers such a
pair within the budget. -/
theorem C24_spawn_acceptance_never_empty (cp : Vec3 α) :
    ∃ a b : Nat, a < 100 ∧ b < 100 ∧
      (spawnCandidate a b : Vec3 α) =
        ⟨(((a : Nat) : α) / 100 - 0.5) * 8, 0.1, (((b : Nat) : α) / 100 - 0.5) * 8⟩ ∧
      2.5 * 2.5 ≤ ((spawnCandidate a b : Vec3 α) - cp).normSq ∧
      ¬ lengthLt ((spawnCandidate a b : Vec3 α) - cp) 2.5 ∧
      ∀ (rand : Nat → Nat) (n k fuel : Nat), k < fuel →
        rand (n + 2 * k) % 100 = a → rand (n + 2 * k + 1) % 100 = b →
        ∃ r, spawnLoop rand cp fuel n = some r := by
  have key : ∀ a b : Nat, a < 100 → b < 100 →
      2.5 * 2.5 ≤ ((spawnCandidate a b : Vec3 α) - cp).normSq →
      (spawnCandidate a b : Vec3 α) =
        ⟨(((a : Nat) : α) / 100 - 0.5) * 8, 0.1, (((b : Nat) : α) / 100 - 0.5) * 8⟩ ∧
      2.5 * 2.5 ≤ ((spawnCandidate a b : Vec3 α) - cp).normSq ∧
      ¬ lengthLt ((spawnCandidate a b : Vec3 α) - cp) 2.5 ∧
      ∀ (rand : Nat → Nat) (n k fuel : Nat), k < fuel →
        rand (n + 2 * k) % 100 = a → rand (n + 2 * k + 1) % 100 = b →
        ∃ r, spawnLoop rand cp fuel n = some r := by
    intro a b ha hb hfar
    have hnot : ¬ lengthLt ((spawnCandidate a b : Vec3 α) - cp) 2.5 :=
      (not_lengthLt_iff _ _ (by norm_num)).mpr hfar
    refine ⟨?_, hfar, hnot, ?_⟩
    · simp only [spawnCandidate, Vec3.ext_iff3, Nat.mod_eq_of_lt ha, Nat.mod_eq_of_lt hb]
      refine ⟨by norm_num; ring, trivial, by norm_num; ring⟩
    · intro rand n k fuel hk h1 h2
      apply spawnLoop_returns rand cp k n fuel hk
      rw [spawnCandidate_mod, h1, h2]
      exact hnot
  rcases corner_candidate_far cp with h | h
  · exact ⟨0, 0, by norm_num, by norm_num, key 0 0 (by norm_num) (by norm_num) h⟩
  · exact ⟨99, 99, by norm_num, by norm_num, key 99 99 (by norm_num) (by norm_num) h⟩

/-- Witness of C24: for `samplePlayer`, some constant pair of residues is accepted by
the loop at once. -/
theorem C24_spawn_acceptance_never_empty_witness :
    ∃ a b : Nat, a < 100 ∧ b < 100 ∧
      ∃ r, spawnLoop (fun i => if i % 2 = 0 then a else b) samplePlayer 1 0 = some r := by
  obtain ⟨a, b, ha, hb, _, _, _, hloop⟩ := C24_spawn_acceptance_never_empty samplePlayer
  refine ⟨a, b, ha, hb, hloop (fun i => if i % 2 = 0 then a else b) 0 0 1 (by norm_num) ?_ ?_⟩
  · simp [Nat.mod_eq_of_lt ha]
  · simp [Nat.mod_eq_of_lt hb]

/-! ### Claim C21 -/

/-- The vector `moveDir` has no vertical component. -/
theorem moveDir_y (G : Glm α) (yaw : α) (k : PlayerKeys) : (moveDir G yaw k).y = 0 := by
  have h0 : (0.0 : α) = 0 := by norm_num
  obtain ⟨w, s, a, d, j, m⟩ := k
  cases w <;> cases s <;> cases a <;> cases d <;>
    simp [moveDir, Glm.normalize, Vec3.add_def, Vec3.sub_def, Vec3.scale_def, h0]

/-- The displacement of a moving player has length `|CHARACTER_SPEED * dt|`. -/
theorem displacement_length (G : Glm α) (hG : G.Lawful) (yaw : α) (k : PlayerKeys) (dt : α)
    (hm : moving G yaw k = true) :
    G.length (G.normalize (moveDir G yaw k) * (CHARACTER_SPEED : α) * dt)
      = |CHARACTER_SPEED * dt| := by
  have hk := (moving_iff G hG yaw k).mp hm
  have hone : (1 : α) ≤ (moveDir G yaw k).normSq := by
    rw [moveDir_normSq G hG yaw k]
    exact (@key_sum_cases α _ k.w k.s k.a k.d).2 hk
  have hunit := hG.normSq_normalize G (moveDir G yaw k) (lt_of_lt_of_le one_pos hone)
  have hn : (G.normalize (moveDir G yaw k) * (CHARACTER_SPEED : α) * dt).normSq
      = (CHARACTER_SPEED * dt) * (CHARACTER_SPEED * dt) := by
    have e : (G.normalize (moveDir G yaw k) * (CHARACTER_SPEED : α) * dt).normSq
        = (G.normalize (moveDir G yaw k)).normSq
          * ((CHARACTER_SPEED * dt) * (CHARACTER_SPEED * dt)) := by
      simp only [Vec3.scale_def, Vec3.normSq]
      ring
    rw [e, hunit, one_mul]
  unfold Glm.length
  rw [hn]
  exact hG.sqrt_mul_self_eq_abs G _

/-- C21: player movement is planar and ignores pitch.  For every key combination, yaw,
pitch and `dt`, `processInput` leaves `characterPosition.y` unchanged and produces the
same new position for any two values of `cameraPitch`; whenever the player moves, the
displacement applied before clamping has length `|CHARACTER_SPEED*dt|`, that is
`2.5*dt` for a frame time `dt ≥ 0`, whichever keys are held (diagonals are not faster);
and `x` and `z` end within `[-4.5, 4.5]`. -/
theorem C21_movement_planar (G : Glm α) (hG : G.Lawful) (k : PlayerKeys) (dt : α)
    (st : CombatState α) :
    (processInput G k dt st).characterPosition.y = st.characterPosition.y ∧
    (∀ pitch : α,
      (processInput G k dt { st with cameraPitch := pitch }).characterPosition
        = (processInput G k dt st).characterPosition) ∧
    (moving G st.cameraYaw k = true →
      (processInput G k dt st).characterPosition =
        ⟨min (max (st.characterPosition
            + G.normalize (moveDir G st.cameraYaw k) * (CHARACTER_SPEED : α) * dt).x (-4.5)) 4.5,
         (st.characterPosition
            + G.normalize (moveDir G st.cameraYaw k) * (CHARACTER_SPEED : α) * dt).y,
         min (max (st.characterPosition
            + G.normalize (moveDir G st.cameraYaw k) * (CHARACTER_SPEED : α) * dt).z (-4.5)) 4.5⟩ ∧
      G.length (G.normalize (moveDir G st.cameraYaw k) * (CHARACTER_SPEED : α) * dt)
        = |CHARACTER_SPEED * dt| ∧
      (0 ≤ dt →
        G.length (G.normalize (moveDir G st.cameraYaw k) * (CHARACTER_SPEED : α) * dt)
          = 2.5 * dt)) ∧
    (-4.5 ≤ (processInput G k dt st).characterPosition.x ∧
      (processInput G k dt st).characterPosition.x ≤ 4.5 ∧
      -4.5 ≤ (processInput G k dt st).characterPosition.z ∧
      (processInput G k dt st).characterPosition.z ≤ 4.5) := by
  have hpos : (processInput G k dt st).characterPosition
      = movePlayer G st.cameraYaw k dt st.characterPosition := rfl
  have hb : ∀ t : α, -4.5 ≤ min (max t (-4.5)) 4.5 ∧ min (max t (-4.5)) 4.5 ≤ 4.5 := by
    intro t
    exact ⟨le_min (le_max_right _ _) (by norm_num), min_le_right _ _⟩
  refine ⟨?_, fun _ => rfl, ?_, ?_⟩
  · rw [hpos]
    simp only [movePlayer]
    split_ifs
    · simp only [Vec3.add_def, Vec3.scale_def, Glm.normalize, moveDir_y]
      ring
    · rfl
  · intro hm
    refine ⟨?_, displacement_length G hG st.cameraYaw k dt hm, ?_⟩
    · rw [hpos]
      simp only [movePlayer, hm, if_true, glmClamp]
    · intro hdt
      rw [displacement_length G hG st.cameraYaw k dt hm]
      have h25 : (CHARACTER_SPEED : α) = 2.5 := rfl
      rw [h25, abs_of_nonneg (mul_nonneg (by norm_num) hdt)]
  · rw [hpos]
    simp only [movePlayer, glmClamp]
    exact ⟨(hb _).1, (hb _).2, (hb _).1, (hb _).2⟩

/-- Witness of C21: the real math library, the initial state, `W` and `D` held
(a diagonal) for 1/60 s. -/
theorem C21_movement_planar_witness :
    Glm.Lawful (⟨Real.sin, Real.cos, Real.sqrt, fun d => d * (Real.pi / 180)⟩ : Glm ℝ) ∧
    moving ⟨Real.sin, Real.cos, Real.sqrt, fun d => d * (Real.pi / 180)⟩
      (idlePlayer : CombatState ℝ).cameraYaw ⟨true, false, false, true, false, false⟩ = true ∧
    (0 : ℝ) ≤ 1 / 60 ∧
    Glm.length ⟨Real.sin, Real.cos, Real.sqrt, fun d => d * (Real.pi / 180)⟩
      (Glm.normalize ⟨Real.sin, Real.cos, Real.sqrt, fun d => d * (Real.pi / 180)⟩
        (moveDir ⟨Real.sin, Real.cos, Real.sqrt, fun d => d * (Real.pi / 180)⟩
          (idlePlayer : CombatState ℝ).cameraYaw ⟨true, false, false, true, false, false⟩)
        * (CHARACTER_SPEED : ℝ) * (1 / 60 : ℝ))
      = 2.5 * (1 / 60) := by
  have hm : moving ⟨Real.sin, Real.cos, Real.sqrt, fun d => d * (Real.pi / 180)⟩
      (idlePlayer : CombatState ℝ).cameraYaw ⟨true, false, false, true, false, false⟩
      = true :=
    (moving_iff _ real_glm_lawful _ _).mpr (by simp)
  exact ⟨real_glm_lawful, hm, by norm_num,
    ((C21_movement_planar _ real_glm_lawful ⟨true, false, false, true, false, false⟩ (1 / 60)
      idlePlayer).2.2.1 hm).2.2 (by norm_num)⟩

/-! ### Claim C25 -/

/-- The vector from the camera to the look-at point after `updateCamera`, for every
position, yaw and pitch, and its squared length. -/
theorem updateCamera_look_vector (G : Glm α) (hG : G.Lawful) (st : CombatState α) :
    st.characterPosition + (⟨0.0, 1.0, 0.0⟩ : Vec3 α) - (updateCamera G st).cameraPosition =
      ⟨-(3 * G.sin (G.radians st.cameraYaw) * G.cos (G.radians st.cameraPitch)),
       -0.5 - 3 * G.sin (G.radians st.cameraPitch),
       -(3 * G.cos (G.radians st.cameraYaw) * G.cos (G.radians st.cameraPitch))⟩ ∧
    (st.characterPosition + (⟨0.0, 1.0, 0.0⟩ : Vec3 α)
      - (updateCamera G st).cameraPosition).normSq
      = 9.25 + 3 * G.sin (G.radians st.cameraPitch) ∧
    (6.25 : α) ≤ 9.25 + 3 * G.sin (G.radians st.cameraPitch) := by
  have hy := hG.sin_sq_add_cos_sq (G.radians st.cameraYaw)
  have hp := hG.sin_sq_add_cos_sq (G.radians st.cameraPitch)
  have hs1 := hG.neg_one_le_sin G (G.radians st.cameraPitch)
  have hD : (CAMERA_DISTANCE : α) = 3 := by unfold CAMERA_DISTANCE; norm_num
  have hH : (CAMERA_HEIGHT : α) = 1.5 := by unfold CAMERA_HEIGHT; norm_num
  have hv : st.characterPosition + (⟨0.0, 1.0, 0.0⟩ : Vec3 α)
      - (updateCamera G st).cameraPosition =
      ⟨-(3 * G.sin (G.radians st.cameraYaw) * G.cos (G.radians st.cameraPitch)),
       -0.5 - 3 * G.sin (G.radians st.cameraPitch),
       -(3 * G.cos (G.radians st.cameraYaw) * G.cos (G.radians st.cameraPitch))⟩ := by
    simp only [updateCamera, Vec3.add_def, Vec3.sub_def, Vec3.ext_iff3, hD, hH]
    refine ⟨by norm_num, by norm_num; ring, by norm_num⟩
  refine ⟨hv, ?_, by norm_num; linarith⟩
  rw [hv]
  simp only [Vec3.normSq]
  norm_num
  linear_combination
    9 * (G.cos (G.radians st.cameraPitch) * G.cos (G.radians st.cameraPitch)) * hy + 9 * hp

/-- The front vector after `updateCamera` is the normalised look vector. -/
theorem updateCamera_cameraFront (G : Glm α) (st : CombatState α) :
    (updateCamera G st).cameraFront =
      G.normalize (st.characterPosition + (⟨0.0, 1.0, 0.0⟩ : Vec3 α)
        - (updateCamera G st).cameraPosition) := rfl

/-- The right vector after `updateCamera` is the normalised cross product of the front
vector with the up axis. -/
theorem updateCamera_cameraRight (G : Glm α) (st : CombatState α) :
    (updateCamera G st).cameraRight =
      G.normalize ((updateCamera G st).cameraFront.cross ⟨0.0, 1.0, 0.0⟩) := rfl

/-- The cross product with the up axis keeps the horizontal part, rotated. -/
theorem cross_up_normSq (f : Vec3 α) :
    (f.cross ⟨0.0, 1.0, 0.0⟩).normSq = f.x * f.x + f.z * f.z := by
  simp only [Vec3.cross, Vec3.normSq]
  norm_num
  ring

/-- The real cosine is positive on the clamped pitch range. -/
theorem real_cos_pos_of_pitch_range (p : ℝ) (h1 : -45 ≤ p) (h2 : p ≤ 45) :
    0 < Real.cos (p * (Real.pi / 180)) := by
  apply Real.cos_pos_of_mem_Ioo
  have hpi := Real.pi_pos
  constructor
  · nlinarith
  · nlinarith

/-- C25: the camera normalisations never divide by zero.  For every player position, yaw
and pitch, the vector from `camera.Position` to the look-at point
`characterPosition + (0, 1, 0)` has squared length `9.25 + 3*sin(pitch) ≥ 6.25`, so
`camera.Front` (and the direction of any bullet created from it) is a unit vector; and
for every pitch in the clamped range `[-45, 45]`, where the cosine is positive, the
horizontal part of `camera.Front` is non-zero, so `cross(Front, (0,1,0))` is non-zero
and `camera.Right` is a unit vector. -/
theorem C25_camera_normalisations_defined (G : Glm α) (hG : G.Lawful) (st : CombatState α) :
    ((st.characterPosition + (⟨0, 1, 0⟩ : Vec3 α) - (updateCamera G st).cameraPosition).normSq
        = 9.25 + 3 * G.sin (G.radians st.cameraPitch) ∧
      (6.25 : α) ≤ 9.25 + 3 * G.sin (G.radians st.cameraPitch) ∧
      0 < G.sqrt (9.25 + 3 * G.sin (G.radians st.cameraPitch))) ∧
    (updateCamera G st).cameraFront.normSq = 1 ∧
    (∀ cp : Vec3 α, (newBullet G cp (updateCamera G st).cameraFront).direction.normSq = 1) ∧
    ((∀ p : α, -45 ≤ p → p ≤ 45 → 0 < G.cos (G.radians p)) →
      -45 ≤ st.cameraPitch → st.cameraPitch ≤ 45 →
      0 < (updateCamera G st).cameraFront.x * (updateCamera G st).cameraFront.x
        + (updateCamera G st).cameraFront.z * (updateCamera G st).cameraFront.z ∧
      0 < ((updateCamera G st).cameraFront.cross ⟨0, 1, 0⟩).normSq ∧
      (updateCamera G st).cameraRight.normSq = 1) := by
  have h0 : (0.0 : α) = 0 := by norm_num
  have h1 : (1.0 : α) = 1 := by norm_num
  obtain ⟨hv, hn, h625⟩ := updateCamera_look_vector G hG st
  rw [h0, h1] at hv hn
  have hpos : (0 : α) < 9.25 + 3 * G.sin (G.radians st.cameraPitch) :=
    lt_of_lt_of_le (by norm_num) h625
  have hL := hG.sqrt_pos G _ hpos
  have hfront : (updateCamera G st).cameraFront =
      G.normalize (st.characterPosition + (⟨0, 1, 0⟩ : Vec3 α)
        - (updateCamera G st).cameraPosition) := by
    rw [updateCamera_cameraFront, h0, h1]
  have hunit : (updateCamera G st).cameraFront.normSq = 1 := by
    rw [hfront]
    apply hG.normSq_normalize
    rw [hn]
    exact hpos
  refine ⟨⟨hn, h625, hL⟩, hunit, ?_, ?_⟩
  · intro cp
    show (G.normalize ⟨(updateCamera G st).cameraFront.x, (updateCamera G st).cameraFront.y,
      (updateCamera G st).cameraFront.z⟩).normSq = 1
    exact hG.normSq_normalize G _ (by
      have e : (⟨(updateCamera G st).cameraFront.x, (updateCamera G st).cameraFront.y,
          (updateCamera G st).cameraFront.z⟩ : Vec3 α) = (updateCamera G st).cameraFront := rfl
      rw [e, hunit]
      exact one_pos)
  · intro hcos hlo hhi
    have hc := hcos st.cameraPitch hlo hhi
    have hy := hG.sin_sq_add_cos_sq (G.radians st.cameraYaw)
    have hLne : G.sqrt (9.25 + 3 * G.sin (G.radians st.cameraPitch)) ≠ 0 := ne_of_gt hL
    have hhor : (updateCamera G st).cameraFront.x * (updateCamera G st).cameraFront.x
        + (updateCamera G st).cameraFront.z * (updateCamera G st).cameraFront.z
        = 9 * (G.cos (G.radians st.cameraPitch) * G.cos (G.radians st.cameraPitch))
          / (G.sqrt (9.25 + 3 * G.sin (G.radians st.cameraPitch))
            * G.sqrt (9.25 + 3 * G.sin (G.radians st.cameraPitch))) := by
      rw [hfront]
      unfold Glm.normalize
      rw [hn, hv]
      simp only [Vec3.scale_def]
      field_simp
      linear_combination
        9 * (G.cos (G.radians st.cameraPitch) * G.cos (G.radians st.cameraPitch)) * hy
    have hhorpos : 0 < (updateCamera G st).cameraFront.x * (updateCamera G st).cameraFront.x
        + (updateCamera G st).cameraFront.z * (updateCamera G st).cameraFront.z := by
      rw [hhor]
      exact div_pos (mul_pos (by norm_num) (mul_pos hc hc)) (mul_pos hL hL)
    have hcross : 0 < ((updateCamera G st).cameraFront.cross ⟨0, 1, 0⟩).normSq := by
      have e := cross_up_normSq (updateCamera G st).cameraFront
      rw [h0, h1] at e
      rw [e]
      exact hhorpos
    refine ⟨hhorpos, hcross, ?_⟩
    rw [updateCamera_cameraRight, h0, h1]
    exact hG.normSq_normalize G _ hcross

/-- Witness of C25: the real math library and the initial state (pitch 0). -/
theorem C25_camera_normalisations_defined_witness :
    Glm.Lawful (⟨Real.sin, Real.cos, Real.sqrt, fun d => d * (Real.pi / 180)⟩ : Glm ℝ) ∧
    (∀ p : ℝ, -45 ≤ p → p ≤ 45 → 0 < Real.cos (p * (Real.pi / 180))) ∧
    -45 ≤ (idlePlayer : CombatState ℝ).cameraPitch ∧
    (idlePlayer : CombatState ℝ).cameraPitch ≤ 45 ∧
    (updateCamera ⟨Real.sin, Real.cos, Real.sqrt, fun d => d * (Real.pi / 180)⟩
      (idlePlayer : CombatState ℝ)).cameraFront.normSq = 1 ∧
    (updateCamera ⟨Real.sin, Real.cos, Real.sqrt, fun d => d * (Real.pi / 180)⟩
      (idlePlayer : CombatState ℝ)).cameraRight.normSq = 1 := by
  have hlo : (-45 : ℝ) ≤ (idlePlayer : CombatState ℝ).cameraPitch := by
    norm_num [idlePlayer]
  have hhi : (idlePlayer : CombatState ℝ).cameraPitch ≤ 45 := by
    norm_num [idlePlayer]
  exact ⟨real_glm_lawful, real_cos_pos_of_pitch_range, hlo, hhi,
    (C25_camera_normalisations_defined _ real_glm_lawful idlePlayer).2.1,
    ((C25_camera_normalisations_defined _ real_glm_lawful idlePlayer).2.2.2
      real_cos_pos_of_pitch_range hlo hhi).2.2⟩

end Combat

namespace Driving

variable {α : Type} [LinearOrderedField α]

/-! ## Driving demo: model normalisation -/

theorem vec4_add_eq (u v : Vec4 α) :
    u + v = ⟨u.x + v.x, u.y + v.y, u.z + v.z, u.w + v.w⟩ := rfl

theorem vec4_scale_eq (v : Vec4 α) (c : α) : v * c = ⟨v.x * c, v.y * c, v.z * c, v.w * c⟩ := rfl

/-- What the matrix built by `getNormalizationTransform` does to a point: it adds
`worldPos`, then scales, then subtracts the centre. -/
theorem getNormalizationTransform_apply (meshes : List (List (Combat.Vec3 α)))
    (targetSize : α) (worldPos p : Combat.Vec3 α) :
    (getNormalizationTransform meshes targetSize worldPos).transformPoint p =
      ⟨normalizationScale meshes targetSize * (p.x + worldPos.x) - (boxCenter meshes).x,
       normalizationScale meshes targetSize * (p.y + worldPos.y) - (boxCenter meshes).y,
       normalizationScale meshes targetSize * (p.z + worldPos.z) - (boxCenter meshes).z⟩ := by
  simp only [getNormalizationTransform, Mat4.transformPoint, Mat4.mulVec, glmTranslate,
    glmScale, Mat4.identity, vec4_add_eq, vec4_scale_eq, Combat.Vec3.ext_iff3]
  refine ⟨by ring, by ring, by ring⟩

/-- The bounding box of `sampleModel`. -/
theorem boundingBox_sampleModel :
    boundingBox (sampleModel : List (List (Combat.Vec3 α))) = (⟨0, 0, 0⟩, ⟨2, 0, 0⟩) := by
  have h1 : min (FLT_MAX : α) 0 = 0 := min_eq_right (by unfold FLT_MAX; norm_num)
  have h2 : max (-FLT_MAX : α) 0 = 0 := max_eq_right (by unfold FLT_MAX; norm_num)
  simp only [boundingBox, sampleModel, List.foldl_cons, List.foldl_nil, growBox, h1, h2,
    min_self, max_self]
  norm_num

theorem maxDim_sampleModel : maxDim (sampleModel : List (List (Combat.Vec3 α))) = 2 := by
  simp only [maxDim, boundingBox_sampleModel, Combat.Vec3.sub_def]
  norm_num

theorem normalizationScale_sampleModel :
    normalizationScale (sampleModel : List (List (Combat.Vec3 α))) 10 = 5 := by
  simp only [normalizationScale, maxDim_sampleModel]
  norm_num

theorem boxCenter_sampleModel :
    boxCenter (sampleModel : List (List (Combat.Vec3 α))) = ⟨1, 0, 0⟩ := by
  simp only [boxCenter, boundingBox_sampleModel, Combat.Vec3.add_def, Combat.Vec3.scale_def,
    Combat.Vec3.ext_iff3]
  norm_num

/-! ### Claim C22 -/

/-- C22 fails on the code: for `sampleModel` (bounding-box centre `(1, 0, 0)`, largest
extent 2), `targetSize = 10` and `worldPos = (0, 0, 0)`, the scale is 5 and the returned
matrix maps the bounding-box centre to `(4, 0, 0)`, not to `worldPos`; in general it
maps `p` to `(p + worldPos) * scale - center` instead of `(p - center) * scale + worldPos`,
because `glm::translate` and `glm::scale` multiply on the right. -/
theorem C22_transform_does_not_centre :
    maxDim (sampleModel : List (List (Combat.Vec3 ℚ))) = 2 ∧
    normalizationScale (sampleModel : List (List (Combat.Vec3 ℚ))) 10 = 5 ∧
    boxCenter (sampleModel : List (List (Combat.Vec3 ℚ))) = ⟨1, 0, 0⟩ ∧
    (getNormalizationTransform (sampleModel : List (List (Combat.Vec3 ℚ))) 10
      ⟨0, 0, 0⟩).transformPoint ⟨1, 0, 0⟩ = ⟨4, 0, 0⟩ ∧
    (getNormalizationTransform (sampleModel : List (List (Combat.Vec3 ℚ))) 10
      ⟨0, 0, 0⟩).transformPoint ⟨1, 0, 0⟩ ≠ ⟨0, 0, 0⟩ ∧
    (∀ (meshes : List (List (Combat.Vec3 ℚ))) (targetSize : ℚ) (worldPos p : Combat.Vec3 ℚ),
      (getNormalizationTransform meshes targetSize worldPos).transformPoint p =
        (p + worldPos) * normalizationScale meshes targetSize - boxCenter meshes) := by
  have h4 : (getNormalizationTransform (sampleModel : List (List (Combat.Vec3 ℚ))) 10
      ⟨0, 0, 0⟩).transformPoint ⟨1, 0, 0⟩ = ⟨4, 0, 0⟩ := by
    rw [getNormalizationTransform_apply, normalizationScale_sampleModel,
      boxCenter_sampleModel, Combat.Vec3.ext_iff3]
    norm_num
  refine ⟨maxDim_sampleModel, normalizationScale_sampleModel, boxCenter_sampleModel, h4, ?_, ?_⟩
  · rw [h4, Ne, Combat.Vec3.ext_iff3]
    norm_num
  · intro meshes targetSize worldPos p
    rw [getNormalizationTransform_apply]
    simp only [Combat.Vec3.add_def, Combat.Vec3.sub_def, Combat.Vec3.scale_def,
      Combat.Vec3.ext_iff3]
    refine ⟨by ring, by ring, by ring⟩

/-! ### Bounding box -/

/-- A running minimum started at `a` is below `a` and below every element, and it is
`a` or one of the elements. -/
theorem foldl_min_spec (l : List α) (a : α) :
    l.foldl min a ≤ a ∧ (∀ x ∈ l, l.foldl min a ≤ x) ∧ (l.foldl min a = a ∨ l.foldl min a ∈ l) := by
  induction l generalizing a with
  | nil => simp
  | cons b rest ih =>
    obtain ⟨h1, h2, h3⟩ := ih (min a b)
    simp only [List.foldl_cons]
    refine ⟨le_trans h1 (min_le_left _ _), ?_, ?_⟩
    · intro x hx
      rcases List.mem_cons.mp hx with hx | hx
      · rw [hx]
        exact le_trans h1 (min_le_right _ _)
      · exact h2 x hx
    · rcases h3 with h3 | h3
      · rcases min_choice a b with hc | hc
        · left
          rw [h3, hc]
        · right
          rw [h3, hc]
          exact List.mem_cons_self _ _
      · right
        exact List.mem_cons_of_mem _ h3

/-- A running maximum started at `a` is above `a` and above every element, and it is
`a` or one of the elements. -/
theorem foldl_max_spec (l : List α) (a : α) :
    a ≤ l.foldl max a ∧ (∀ x ∈ l, x ≤ l.foldl max a) ∧ (l.foldl max a = a ∨ l.foldl max a ∈ l) := by
  induction l generalizing a with
  | nil => simp
  | cons b rest ih =>
    obtain ⟨h1, h2, h3⟩ := ih (max a b)
    simp only [List.foldl_cons]
    refine ⟨le_trans (le_max_left _ _) h1, ?_, ?_⟩
    · intro x hx
      rcases List.mem_cons.mp hx with hx | hx
      · rw [hx]
        exact le_trans (le_max_right _ _) h1
      · exact h2 x hx
    · rcases h3 with h3 | h3
      · rcases max_choice a b with hc | hc
        · left
          rw [h3, hc]
        · right
          rw [h3, hc]
          exact List.mem_cons_self _ _
      · right
        exact List.mem_cons_of_mem _ h3

/-- A running minimum over a non-empty list whose elements are all below the start
value is attained by an element. -/
theorem foldl_min_attained (l : List α) (a : α) (hne : l ≠ []) (hle : ∀ x ∈ l, x ≤ a) :
    l.foldl min a ∈ l ∧ ∀ x ∈ l, l.foldl min a ≤ x := by
  obtain ⟨_, h2, h3⟩ := foldl_min_spec l a
  refine ⟨?_, h2⟩
  rcases h3 with h3 | h3
  · obtain ⟨x, hx⟩ := List.exists_mem_of_ne_nil l hne
    have e : x = l.foldl min a := le_antisymm (by rw [h3]; exact hle x hx) (h2 x hx)
    rw [← e]
    exact hx
  · exact h3

/-- A running maximum over a non-empty list whose elements are all above the start
value is attained by an element. -/
theorem foldl_max_attained (l : List α) (a : α) (hne : l ≠ []) (hle : ∀ x ∈ l, a ≤ x) :
    l.foldl max a ∈ l ∧ ∀ x ∈ l, x ≤ l.foldl max a := by
  obtain ⟨_, h2, h3⟩ := foldl_max_spec l a
  refine ⟨?_, h2⟩
  rcases h3 with h3 | h3
  · obtain ⟨x, hx⟩ := List.exists_mem_of_ne_nil l hne
    have e : x = l.foldl max a := le_antisymm (h2 x hx) (by rw [h3]; exact hle x hx)
    rw [← e]
    exact hx
  · exact h3

/-- The vertex loop computes, in each of the six components, a running minimum or
maximum of the corresponding coordinate. -/
theorem foldl_growBox (vs : List (Combat.Vec3 α)) (box : Combat.Vec3 α × Combat.Vec3 α) :
    vs.foldl growBox box =
      (⟨(vs.map fun p => p.x).foldl min box.1.x, (vs.map fun p => p.y).foldl min box.1.y,
        (vs.map fun p => p.z).foldl min box.1.z⟩,
       ⟨(vs.map fun p => p.x).foldl max box.2.x, (vs.map fun p => p.y).foldl max box.2.y,
        (vs.map fun p => p.z).foldl max box.2.z⟩) := by
  induction vs generalizing box with
  | nil => rfl
  | cons p rest ih =>
    simp only [List.foldl_cons, List.map_cons]
    rw [ih]
    rfl

/-- The nested loops over meshes and vertices are one loop over all vertices. -/
theorem boundingBox_flatten (meshes : List (List (Combat.Vec3 α))) :
    boundingBox meshes =
      meshes.flatten.foldl growBox
        (⟨FLT_MAX, FLT_MAX, FLT_MAX⟩, ⟨-FLT_MAX, -FLT_MAX, -FLT_MAX⟩) := by
  unfold boundingBox
  rw [List.foldl_flatten]

/-- For a coordinate function `c` bounded by `FLT_MAX` in absolute value on a non-empty
vertex list, the running minimum from `FLT_MAX` and the running maximum from `-FLT_MAX`
are attained by vertices and bound every vertex. -/
theorem coordinate_range (vs : List (Combat.Vec3 α)) (c : Combat.Vec3 α → α) (hne : vs ≠ [])
    (hb : ∀ p ∈ vs, -FLT_MAX ≤ c p ∧ c p ≤ FLT_MAX) :
    (∀ p ∈ vs, (vs.map c).foldl min FLT_MAX ≤ c p ∧ c p ≤ (vs.map c).foldl max (-FLT_MAX)) ∧
    (∃ p ∈ vs, c p = (vs.map c).foldl min FLT_MAX) ∧
    (∃ p ∈ vs, c p = (vs.map c).foldl max (-FLT_MAX)) := by
  have hne2 : vs.map c ≠ [] := by
    intro h
    exact hne (List.map_eq_nil_iff.mp h)
  have hmin := foldl_min_attained (vs.map c) FLT_MAX hne2 (by
    intro x hx
    obtain ⟨p, hp, hpx⟩ := List.mem_map.mp hx
    rw [← hpx]
    exact (hb p hp).2)
  have hmax := foldl_max_attained (vs.map c) (-FLT_MAX) hne2 (by
    intro x hx
    obtain ⟨p, hp, hpx⟩ := List.mem_map.mp hx
    rw [← hpx]
    exact (hb p hp).1)
  refine ⟨?_, ?_, ?_⟩
  · intro p hp
    exact ⟨hmin.2 _ (List.mem_map_of_mem c hp), hmax.2 _ (List.mem_map_of_mem c hp)⟩
  · obtain ⟨p, hp, hpx⟩ := List.mem_map.mp hmin.1
    exact ⟨p, hp, hpx⟩
  · obtain ⟨p, hp, hpx⟩ := List.mem_map.mp hmax.1
    exact ⟨p, hp, hpx⟩

/-- The components of the bounding box as running minima and maxima over all vertices. -/
theorem boundingBox_components (meshes : List (List (Combat.Vec3 α))) :
    (boundingBox meshes).1.x = (meshes.flatten.map fun p => p.x).foldl min FLT_MAX ∧
    (boundingBox meshes).1.y = (meshes.flatten.map fun p => p.y).foldl min FLT_MAX ∧
    (boundingBox meshes).1.z = (meshes.flatten.map fun p => p.z).foldl min FLT_MAX ∧
    (boundingBox meshes).2.x = (meshes.flatten.map fun p => p.x).foldl max (-FLT_MAX) ∧
    (boundingBox meshes).2.y = (meshes.flatten.map fun p => p.y).foldl max (-FLT_MAX) ∧
    (boundingBox meshes).2.z = (meshes.flatten.map fun p => p.z).foldl max (-FLT_MAX) := by
  rw [boundingBox_flatten, foldl_growBox]
  exact ⟨rfl, rfl, rfl, rfl, rfl, rfl⟩

/-- The difference of the images of two points under the normalisation matrix is the
difference of the points times the scale. -/
theorem getNormalizationTransform_diff (meshes : List (List (Combat.Vec3 α)))
    (targetSize : α) (worldPos p q : Combat.Vec3 α) :
    ((getNormalizationTransform meshes targetSize worldPos).transformPoint p).x
      - ((getNormalizationTransform meshes targetSize worldPos).transformPoint q).x
      = normalizationScale meshes targetSize * (p.x - q.x) ∧
    ((getNormalizationTransform meshes targetSize worldPos).transformPoint p).y
      - ((getNormalizationTransform meshes targetSize worldPos).transformPoint q).y
      = normalizationScale meshes targetSize * (p.y - q.y) ∧
    ((getNormalizationTransform meshes targetSize worldPos).transformPoint p).z
      - ((getNormalizationTransform meshes targetSize worldPos).transformPoint q).z
      = normalizationScale meshes targetSize * (p.z - q.z) := by
  rw [getNormalizationTransform_apply, getNormalizationTransform_apply]
  refine ⟨by ring, by ring, by ring⟩

/-- The largest extent bounds the spread of every coordinate over the vertices, and it
is the spread of one coordinate between two vertices. -/
theorem maxDim_spec (meshes : List (List (Combat.Vec3 α))) (hne : meshes.flatten ≠ [])
    (hb : ∀ p ∈ meshes.flatten, (-FLT_MAX ≤ p.x ∧ p.x ≤ FLT_MAX) ∧
      (-FLT_MAX ≤ p.y ∧ p.y ≤ FLT_MAX) ∧ (-FLT_MAX ≤ p.z ∧ p.z ≤ FLT_MAX)) :
    (∀ p ∈ meshes.flatten, ∀ q ∈ meshes.flatten,
      p.x - q.x ≤ maxDim meshes ∧ p.y - q.y ≤ maxDim meshes ∧ p.z - q.z ≤ maxDim meshes) ∧
    (∃ p ∈ meshes.flatten, ∃ q ∈ meshes.flatten,
      p.x - q.x = maxDim meshes ∨ p.y - q.y = maxDim meshes ∨ p.z - q.z = maxDim meshes) := by
  obtain ⟨c1x, c1y, c1z, c2x, c2y, c2z⟩ := boundingBox_components meshes
  obtain ⟨bx, ⟨px, hpx, epx⟩, ⟨qx, hqx, eqx⟩⟩ :=
    coordinate_range meshes.flatten (fun p => p.x) hne (fun p hp => (hb p hp).1)
  obtain ⟨by1, ⟨py, hpy, epy⟩, ⟨qy, hqy, eqy⟩⟩ :=
    coordinate_range meshes.flatten (fun p => p.y) hne (fun p hp => (hb p hp).2.1)
  obtain ⟨bz, ⟨pz, hpz, epz⟩, ⟨qz, hqz, eqz⟩⟩ :=
    coordinate_range meshes.flatten (fun p => p.z) hne (fun p hp => (hb p hp).2.2)
  rw [← c1x, ← c2x] at bx
  rw [← c1y, ← c2y] at by1
  rw [← c1z, ← c2z] at bz
  rw [← c1x] at epx
  rw [← c2x] at eqx
  rw [← c1y] at epy
  rw [← c2y] at eqy
  rw [← c1z] at epz
  rw [← c2z] at eqz
  have hmd : maxDim meshes =
      max ((boundingBox meshes).2.x - (boundingBox meshes).1.x)
        (max ((boundingBox meshes).2.y - (boundingBox meshes).1.y)
          ((boundingBox meshes).2.z - (boundingBox meshes).1.z)) := rfl
  have hX : (boundingBox meshes).2.x - (boundingBox meshes).1.x ≤ maxDim meshes := by
    rw [hmd]
    exact le_max_left _ _
  have hY : (boundingBox meshes).2.y - (boundingBox meshes).1.y ≤ maxDim meshes := by
    rw [hmd]
    exact le_trans (le_max_left _ _) (le_max_right _ _)
  have hZ : (boundingBox meshes).2.z - (boundingBox meshes).1.z ≤ maxDim meshes := by
    rw [hmd]
    exact le_trans (le_max_right _ _) (le_max_right _ _)
  constructor
  · intro p hp q hq
    have h1 := bx p hp
    have h2 := bx q hq
    have h3 := by1 p hp
    have h4 := by1 q hq
    have h5 := bz p hp
    have h6 := bz q hq
    refine ⟨by linarith, by linarith, by linarith⟩
  · rcases max_choice ((boundingBox meshes).2.x - (boundingBox meshes).1.x)
        (max ((boundingBox meshes).2.y - (boundingBox meshes).1.y)
          ((boundingBox meshes).2.z - (boundingBox meshes).1.z)) with h | h
    · exact ⟨qx, hqx, px, hpx, Or.inl (by rw [hmd, h, eqx, epx])⟩
    · rcases max_choice ((boundingBox meshes).2.y - (boundingBox meshes).1.y)
          ((boundingBox meshes).2.z - (boundingBox meshes).1.z) with h2 | h2
      · exact ⟨qy, hqy, py, hpy, Or.inr (Or.inl (by rw [hmd, h, h2, eqy, epy]))⟩
      · exact ⟨qz, hqz, pz, hpz, Or.inr (Or.inr (by rw [hmd, h, h2, eqz, epz]))⟩

/-! ### Claim C23 -/

/-- C23: for every model with at least one vertex (coordinates within the `float` range)
whose bounding box has largest extent `maxDim > 0` and every `targetSize > 0`, the scale
is `targetSize / maxDim` and the axis-aligned bounding box of the transformed vertices
has largest extent exactly `targetSize`: no two transformed vertices differ by more than
`targetSize` in any coordinate, and two of them differ by exactly `targetSize` in some
coordinate; when `maxDim` is 0 the scale factor is 1. -/
theorem C23_scaled_to_target_size (meshes : List (List (Combat.Vec3 α))) (targetSize : α)
    (worldPos : Combat.Vec3 α) :
    (meshes.flatten ≠ [] →
      (∀ p ∈ meshes.flatten, (-FLT_MAX ≤ p.x ∧ p.x ≤ FLT_MAX) ∧
        (-FLT_MAX ≤ p.y ∧ p.y ≤ FLT_MAX) ∧ (-FLT_MAX ≤ p.z ∧ p.z ≤ FLT_MAX)) →
      0 < maxDim meshes → 0 < targetSize →
      normalizationScale meshes targetSize = targetSize / maxDim meshes ∧
      (∀ p ∈ meshes.flatten, ∀ q ∈ meshes.flatten,
        ((getNormalizationTransform meshes targetSize worldPos).transformPoint p).x
          - ((getNormalizationTransform meshes targetSize worldPos).transformPoint q).x
          ≤ targetSize ∧
        ((getNormalizationTransform meshes targetSize worldPos).transformPoint p).y
          - ((getNormalizationTransform meshes targetSize worldPos).transformPoint q).y
          ≤ targetSize ∧
        ((getNormalizationTransform meshes targetSize worldPos).transformPoint p).z
          - ((getNormalizationTransform meshes targetSize worldPos).transformPoint q).z
          ≤ targetSize) ∧
      (∃ p ∈ meshes.flatten, ∃ q ∈ meshes.flatten,
        ((getNormalizationTransform meshes targetSize worldPos).transformPoint p).x
          - ((getNormalizationTransform meshes targetSize worldPos).transformPoint q).x
          = targetSize ∨
        ((getNormalizationTransform meshes targetSize worldPos).transformPoint p).y
          - ((getNormalizationTransform meshes targetSize worldPos).transformPoint q).y
          = targetSize ∨
        ((getNormalizationTransform meshes targetSize worldPos).transformPoint p).z
          - ((getNormalizationTransform meshes targetSize worldPos).transformPoint q).z
          = targetSize)) ∧
    (maxDim meshes = 0 → normalizationScale meshes targetSize = 1) := by
  have h0 : (0.0 : α) = 0 := by norm_num
  have h1 : (1.0 : α) = 1 := by norm_num
  constructor
  · intro hne hb hmax htarget
    obtain ⟨hle, p, hp, q, hq, heq⟩ := maxDim_spec meshes hne hb
    have hs : normalizationScale meshes targetSize = targetSize / maxDim meshes := by
      unfold normalizationScale
      rw [h0, if_pos hmax]
    have hspos : 0 < normalizationScale meshes targetSize := by
      rw [hs]
      exact div_pos htarget hmax
    have hsm : normalizationScale meshes targetSize * maxDim meshes = targetSize := by
      rw [hs]
      exact div_mul_cancel₀ targetSize (ne_of_gt hmax)
    refine ⟨hs, ?_, ?_⟩
    · intro a ha b hb2
      obtain ⟨dx, dy, dz⟩ := getNormalizationTransform_diff meshes targetSize worldPos a b
      obtain ⟨lx, ly, lz⟩ := hle a ha b hb2
      have mx := mul_le_mul_of_nonneg_left lx hspos.le
      have my := mul_le_mul_of_nonneg_left ly hspos.le
      have mz := mul_le_mul_of_nonneg_left lz hspos.le
      rw [hsm] at mx my mz
      rw [dx, dy, dz]
      exact ⟨mx, my, mz⟩
    · obtain ⟨dx, dy, dz⟩ := getNormalizationTransform_diff meshes targetSize worldPos p q
      refine ⟨p, hp, q, hq, ?_⟩
      rw [dx, dy, dz]
      rcases heq with h | h | h
      · exact Or.inl (by rw [h, hsm])
      · exact Or.inr (Or.inl (by rw [h, hsm]))
      · exact Or.inr (Or.inr (by rw [h, hsm]))
  · intro hz
    unfold normalizationScale
    rw [h0, hz, if_neg (lt_irrefl 0), h1]

theorem sampleModel_within_float_range :
    ∀ p ∈ (sampleModel : List (List (Combat.Vec3 ℚ))).flatten,
      (-FLT_MAX ≤ p.x ∧ p.x ≤ FLT_MAX) ∧ (-FLT_MAX ≤ p.y ∧ p.y ≤ FLT_MAX) ∧
      (-FLT_MAX ≤ p.z ∧ p.z ≤ FLT_MAX) := by
  intro p hp
  simp only [sampleModel, List.flatten, List.append_nil, List.mem_cons, List.mem_singleton,
    List.not_mem_nil, or_false] at hp
  rcases hp with h | h <;> rw [h] <;> norm_num [FLT_MAX]

/-- Witness of C23: `sampleModel` (largest extent 2) normalised to `targetSize = 10`. -/
theorem C23_scaled_to_target_size_witness :
    (sampleModel : List (List (Combat.Vec3 ℚ))).flatten ≠ [] ∧
    (∀ p ∈ (sampleModel : List (List (Combat.Vec3 ℚ))).flatten,
      (-FLT_MAX ≤ p.x ∧ p.x ≤ FLT_MAX) ∧ (-FLT_MAX ≤ p.y ∧ p.y ≤ FLT_MAX) ∧
      (-FLT_MAX ≤ p.z ∧ p.z ≤ FLT_MAX)) ∧
    0 < maxDim (sampleModel : List (List (Combat.Vec3 ℚ))) ∧ (0 : ℚ) < 10 ∧
    normalizationScale (sampleModel : List (List (Combat.Vec3 ℚ))) 10
      = 10 / maxDim (sampleModel : List (List (Combat.Vec3 ℚ))) ∧
    (∃ p ∈ (sampleModel : List (List (Combat.Vec3 ℚ))).flatten,
      ∃ q ∈ (sampleModel : List (List (Combat.Vec3 ℚ))).flatten,
      ((getNormalizationTransform sampleModel 10 ⟨0, 0, 0⟩).transformPoint p).x
        - ((getNormalizationTransform sampleModel 10 ⟨0, 0, 0⟩).transformPoint q).x = 10 ∨
      ((getNormalizationTransform sampleModel 10 ⟨0, 0, 0⟩).transformPoint p).y
        - ((getNormalizationTransform sampleModel 10 ⟨0, 0, 0⟩).transformPoint q).y = 10 ∨
      ((getNormalizationTransform sampleModel 10 ⟨0, 0, 0⟩).transformPoint p).z
        - ((getNormalizationTransform sampleModel 10 ⟨0, 0, 0⟩).transformPoint q).z = 10) := by
  have hne : (sampleModel : List (List (Combat.Vec3 ℚ))).flatten ≠ [] := by
    simp [sampleModel, List.flatten]
  have hmax : 0 < maxDim (sampleModel : List (List (Combat.Vec3 ℚ))) := by
    rw [maxDim_sampleModel]
    norm_num
  have ht : (0 : ℚ) < 10 := by norm_num
  have h := (C23_scaled_to_target_size sampleModel 10 ⟨0, 0, 0⟩).1 hne
    sampleModel_within_float_range hmax ht
  exact ⟨hne, sampleModel_within_float_range, hmax, ht, h.1, h.2.2⟩

end Driving
